import Mathlib

set_option maxRecDepth 8000

/-!
Verification of the tar-stream repository (src/headers.ts and src/extract.ts).

The development shallowly embeds the two source files:
* JS strings are modelled as lists of UTF-16 code units (`JSStr := List Nat`);
  `Buffer`/`Uint8Array` values are lists of bytes (`List Nat`, each < 256 in
  every block the code builds).
* JS numbers that hold integers are modelled as `Int` (with explicit 32-bit
  truncation where the source uses bitwise operators).
* Fallible operations return `Option` / `Except`.

Definitions follow the source line by line; each definition's doc comment
names the function of the source it embeds.
-/

namespace TarSpec

/-- Bytes and JS strings. A JS string is a list of UTF-16 code units. -/
abbrev JSStr := List Nat

/-- UTF-8 byte length of one UTF-16 code unit (BMP code points; the sources
only ever rely on this for ASCII data, where the length is 1). Mirrors what
`b4a.byteLength` counts per unit. -/
def unitUtf8Len (c : Nat) : Nat :=
  if c < 128 then 1 else if c < 2048 then 2 else 3

/-- Model of `b4a.byteLength(str)`: total UTF-8 byte length. -/
def byteLength (s : JSStr) : Nat :=
  (s.map unitUtf8Len).sum

/-- UTF-8 encoding of one UTF-16 code unit (BMP; surrogate pairs are not
combined, which is irrelevant on the ASCII data the claims quantify over).
A genuine UTF-16 unit is below 2^16, so `(c / 4096) % 16` is just its high
nibble; the modulus only totalises the function on out-of-range numbers. -/
def utf8EncodeUnit (c : Nat) : List Nat :=
  if c < 128 then [c]
  else if c < 2048 then [192 + c / 64, 128 + c % 64]
  else [224 + (c / 4096) % 16, 128 + (c / 64) % 64, 128 + c % 64]

/-- Model of writing a JS string as UTF-8 bytes (`b4a.from(str)` /
`Buffer.write` payload). -/
def utf8Encode (s : JSStr) : List Nat :=
  (s.map utf8EncodeUnit).flatten

/-- Fuel-driven UTF-8 decoder (model of `buf.toString()`); ASCII bytes decode
to themselves, multi-byte sequences to their code point, malformed bytes to
the replacement character 0xFFFD. Fuel is the list length, which suffices. -/
def utf8DecodeAux : Nat → List Nat → JSStr
  | 0, _ => []
  | _, [] => []
  | fuel + 1, b :: rest =>
    if b < 128 then b :: utf8DecodeAux fuel rest
    else if 192 ≤ b ∧ b < 224 then
      match rest with
      | c :: rest2 =>
        if 128 ≤ c ∧ c < 192 then ((b - 192) * 64 + (c - 128)) :: utf8DecodeAux fuel rest2
        else 65533 :: utf8DecodeAux fuel rest
      | [] => [65533]
    else if 224 ≤ b ∧ b < 240 then
      match rest with
      | c :: d :: rest2 =>
        if (128 ≤ c ∧ c < 192) ∧ (128 ≤ d ∧ d < 192) then
          ((b - 224) * 4096 + (c - 128) * 64 + (d - 128)) :: utf8DecodeAux fuel rest2
        else 65533 :: utf8DecodeAux fuel rest
      | _ => [65533]
    else 65533 :: utf8DecodeAux fuel rest

/-- Model of `buf.toString()` on a byte list. -/
def utf8Decode (l : List Nat) : JSStr := utf8DecodeAux l.length l

/-- Model of `buf.slice(a, b)` / `buf.subarray(a, b)` for non-negative
indices (the only shapes the header codec uses). -/
def jsSlice (l : List Nat) (a b : Nat) : List Nat :=
  (l.take b).drop a

/-- Model of `Buffer.prototype.slice(start, end)` with JS clamping of
possibly negative indices, needed by `decodePax` where `len - 1` can be
negative on malformed input. -/
def jsSliceI (l : List Nat) (a b : Int) : List Nat :=
  let n : Int := l.length
  let a' : Nat := (if a < 0 then max (n + a) 0 else min a n).toNat
  let b' : Nat := (if b < 0 then max (n + b) 0 else min b n).toNat
  jsSlice l a' b'

/-- Model of `b4a.alloc(512)`. -/
def alloc512 : List Nat := List.replicate 512 0

/-- Overwrite `buf` with `bytes` starting at `off`, truncating at the end of
`buf`: the semantics of `b4a.copy` / `b4a.write` into a fixed-size buffer. -/
def writeBytes (buf bytes : List Nat) (off : Nat) : List Nat :=
  buf.take off ++ bytes.take (buf.length - off) ++ buf.drop (off + bytes.length)

/-- Model of `b4a.write(buf, str, off)`: UTF-8 encode then blit. -/
def writeStr (buf : List Nat) (s : JSStr) (off : Nat) : List Nat :=
  writeBytes buf (utf8Encode s) off

/-- Loop body of `indexOf` (src/headers.ts:81-86); fuel is the number of
indices left to scan. -/
def idxOfAux (block : List Nat) (num endIdx : Nat) : Nat → Nat → Nat
  | 0, _ => endIdx
  | fuel + 1, off =>
    if off < endIdx then
      if block.getD off 0 = num then off else idxOfAux block num endIdx fuel (off + 1)
    else endIdx

/-- Model of `indexOf(block, num, offset, end)` from src/headers.ts: first
index in `[offset, end)` holding `num`, or `end` if none. -/
def idxOf (block : List Nat) (num offset endIdx : Nat) : Nat :=
  idxOfAux block num endIdx (endIdx - offset) offset

/-- JS whitespace test for the characters `parseInt` trims. -/
def isJsSpace (c : Nat) : Bool :=
  c = 32 ∨ c = 9 ∨ c = 10 ∨ c = 11 ∨ c = 12 ∨ c = 13

/-- Greedy digit-prefix parser underlying `parseInt`: value of the longest
prefix of digits below `radix`, or `none` when there is no such digit. Digits
are ASCII `0`-`9` only (the sources only use radix 8 and 10). -/
def parseDigitsAux (radix : Nat) : List Nat → Option Nat → Option Nat
  | [], acc => acc
  | c :: rest, acc =>
    if 48 ≤ c ∧ c < 48 + min radix 10 then
      parseDigitsAux radix rest (some ((acc.getD 0) * radix + (c - 48)))
    else acc

/-- Model of `parseInt(str, radix)`: trim JS whitespace, optional sign, then
the greedy digit prefix; `none` models the `NaN` result. -/
def jsParseInt (radix : Nat) (s : JSStr) : Option Int :=
  let t := s.dropWhile isJsSpace
  if t.headD 0 = 45 then (parseDigitsAux radix (t.drop 1) none).map (fun n => -(n : Int))
  else if t.headD 0 = 43 then (parseDigitsAux radix (t.drop 1) none).map (fun n => (n : Int))
  else (parseDigitsAux radix t none).map (fun n => (n : Int))

/-- Octal digit characters of `n`, most significant first (model of
`Number.prototype.toString(8)` for non-negative integers). -/
def octDigitsAux : Nat → Nat → List Nat
  | 0, _ => []
  | _, 0 => []
  | fuel + 1, n => octDigitsAux fuel (n / 8) ++ [48 + n % 8]

/-- Characters of `v.toString(8)` (sign included for negative values). -/
def jsOctString (v : Int) : JSStr :=
  if v = 0 then [48]
  else if v < 0 then 45 :: octDigitsAux v.natAbs v.natAbs
  else octDigitsAux v.toNat v.toNat

/-- Model of 32-bit `ToInt32` (what `| 0` and `&` apply to their operands). -/
def toInt32 (x : Int) : Int :=
  let m := x % 4294967296
  if m < 2147483648 then m else m - 4294967296

/-! ## The header codec (src/headers.ts) -/

/-- Entry-type variants; the source represents them as string literals
(`"file"`, `"link"`, ...). -/
inductive TType where
  | file | link | symlink | characterDevice | blockDevice | directory
  | fifo | contiguousFile | paxHeader | paxGlobalHeader
  | gnuLongLinkPath | gnuLongPath
deriving Repr, DecidableEq

/-- Model of `toType` (src/headers.ts:24-54); `none` is the `null` return. -/
def toType (flag : Int) : Option TType :=
  if flag = 0 then some .file
  else if flag = 1 then some .link
  else if flag = 2 then some .symlink
  else if flag = 3 then some .characterDevice
  else if flag = 4 then some .blockDevice
  else if flag = 5 then some .directory
  else if flag = 6 then some .fifo
  else if flag = 7 then some .contiguousFile
  else if flag = 72 then some .paxHeader
  else if flag = 55 then some .paxGlobalHeader
  else if flag = 27 then some .gnuLongLinkPath
  else if flag = 28 ∨ flag = 30 then some .gnuLongPath
  else none

/-- Model of `toTypeflag` (src/headers.ts:56-79); unknown / absent types map
to 0. -/
def toTypeflag (t : Option TType) : Nat :=
  match t with
  | some .file => 0
  | some .link => 1
  | some .symlink => 2
  | some .characterDevice => 3
  | some .blockDevice => 4
  | some .directory => 5
  | some .fifo => 6
  | some .contiguousFile => 7
  | some .paxHeader => 72
  | _ => 0

/-- USTAR magic bytes `"ustar\x00"` (src/headers.ts:6). -/
def USTAR_MAGIC : List Nat := [117, 115, 116, 97, 114, 0]

/-- USTAR version bytes `"00"` (src/headers.ts:7). -/
def USTAR_VER : List Nat := [48, 48]

/-- GNU magic bytes `"ustar\x20"` (src/headers.ts:8). -/
def GNU_MAGIC : List Nat := [117, 115, 116, 97, 114, 32]

/-- GNU version bytes `"\x20\x00"` (src/headers.ts:9). -/
def GNU_VER : List Nat := [32, 0]

/-- Model of `cksum` (src/headers.ts:88-93): 8·32 plus the sum of all block
bytes outside the checksum field 148-155. The blocks the code passes in are
always 512 bytes long, which this take/drop form assumes. -/
def cksum (block : List Nat) : Nat :=
  8 * 32 + (block.take 148).sum + ((block.drop 156).take 356).sum

/-- Model of `encodeOct` (src/headers.ts:95-99): `n`-wide zero-padded octal
plus a trailing space, or all-sevens saturation when the octal form does not
fit. -/
def encodeOct (v : Int) (n : Nat) : List Nat :=
  let val := jsOctString v
  if val.length > n then List.replicate n 55 ++ [32]
  else List.replicate (n - val.length) 48 ++ val ++ [32]

/-- Model of `parse256` (src/headers.ts:106-130): base-256 two's-complement
numeric field, `none` when the first byte is neither 0x80 nor 0xFF. -/
def parse256 (buf : List Nat) : Option Int :=
  let tupleSum (bytes : List Nat) (flip : Bool) : Int :=
    ((bytes.drop 1).reverse.enum.map
      (fun p => ((if flip then 255 - (p.2 : Int) else (p.2 : Int))) * ((256 ^ p.1 : Nat) : Int))).sum
  if buf.getD 0 0 = 128 then some (tupleSum buf false)
  else if buf.getD 0 0 = 255 then some (-(tupleSum buf true))
  else none

/-- Body of `decodeOct` (src/headers.ts:132-155) after the initial slice.
Returns `none` both for the `null` of a malformed base-256 field and for the
`NaN` of an unparsable octal field; the callers treat the two identically
(`?? 0` at the single `size` call site catches only `null`, but a `NaN` size
behaves exactly like 0 everywhere downstream in src/extract.ts, so the
conflation is sound). -/
def decodeOctCore (val : List Nat) : Option Int :=
  if (val.getD 0 0).testBit 7 then parse256 val
  else
    let o1 := (val.takeWhile (fun c => c = 32)).length
    let e := idxOf val 32 o1 val.length
    let o2 := o1 + ((jsSlice val o1 e).takeWhile (fun c => c = 0)).length
    if e = o2 then some 0
    else jsParseInt 8 (utf8Decode (jsSlice val o2 e))

/-- Model of `decodeOct` (src/headers.ts:132-155): slice the field, then run
the body above on it. -/
def decodeOct (buf : List Nat) (offset length : Nat) : Option Int :=
  decodeOctCore (jsSlice buf offset (offset + length))

/-- Model of `decodeStr` (src/headers.ts:157-166) with the default UTF-8
encoding (the `filenameEncoding` option is not exercised by any claim). -/
def decodeStr (val : List Nat) (offset length : Nat) : JSStr :=
  utf8Decode (jsSlice val offset (idxOf val 0 offset (offset + length)))

/-- Fuel-based floor of log base 10 (for `n ≥ 1`), used to keep `addLength`
kernel-computable. -/
def log10Aux : Nat → Nat → Nat
  | 0, _ => 0
  | fuel + 1, n => if n < 10 then 0 else 1 + log10Aux fuel (n / 10)

/-- Model of `Math.floor(Math.log(len) / Math.log(10))` on positive
integers (every `addLength` call site has `len ≥ 3`). -/
def log10 (n : Nat) : Nat := log10Aux n n

/-- Model of `addLength` (src/headers.ts:168-174): prefix a PAX record with
its self-referential decimal length. `digits` is
`Math.floor(Math.log(len)/Math.log(10)) + 1` and the `len + digits` overflow
check adds one more digit when needed. -/
def addLength (str : JSStr) : JSStr :=
  let len := byteLength str
  let digits0 := log10 len + 1
  let digits := if len + digits0 ≥ 10 ^ digits0 then digits0 + 1 else digits0
  (Nat.toDigits 10 (len + digits)).map Char.toNat ++ str

/-- Model of `decodeLongPath` (src/headers.ts:176-181). -/
def decodeLongPath (buf : List Nat) : JSStr :=
  decodeStr buf 0 buf.length

/-- Options record of `encodePax` (src/headers.ts:183-187). -/
structure EncodePaxOpts where
  name : Option JSStr := none
  linkname : Option JSStr := none
  pax : Option (List (JSStr × JSStr)) := none

/-- ASCII bytes of the literal `" path="`. -/
def pathEq : JSStr := [32, 112, 97, 116, 104, 61]

/-- ASCII bytes of the literal `" linkpath="`. -/
def linkpathEq : JSStr := [32, 108, 105, 110, 107, 112, 97, 116, 104, 61]

/-- Model of `encodePax` (src/headers.ts:189-201); a `some ""` option is
falsy in JS and is treated like `none`. -/
def encodePax (opts : EncodePaxOpts) : List Nat :=
  let part1 : JSStr :=
    match opts.name with
    | some n => if n ≠ [] then addLength (pathEq ++ n ++ [10]) else []
    | none => []
  let part2 : JSStr :=
    match opts.linkname with
    | some l => if l ≠ [] then addLength (linkpathEq ++ l ++ [10]) else []
    | none => []
  let part3 : JSStr :=
    match opts.pax with
    | some m => (m.map (fun kv => addLength ([32] ++ kv.1 ++ [61] ++ kv.2 ++ [10]))).flatten
    | none => []
  utf8Encode (part1 ++ part2 ++ part3)

/-- Insert-or-overwrite into the association list modelling a JS object's
string-keyed properties (`result[key] = value`). -/
def paxSet (m : List (JSStr × JSStr)) (k v : JSStr) : List (JSStr × JSStr) :=
  if m.any (fun kv => kv.1 = k) then m.map (fun kv => if kv.1 = k then (k, v) else kv)
  else m ++ [(k, v)]

/-- Lookup in the association-list model of a JS object. -/
def paxGet (m : List (JSStr × JSStr)) (k : JSStr) : Option JSStr :=
  (m.find? (fun kv => kv.1 = k)).map (fun kv => kv.2)

/-- Model of the `decodePax` loop body (src/headers.ts:203-221). Fuel is the
remaining buffer length plus one; each surviving iteration strictly shortens
the buffer except for pathological negative record lengths, on which the
source itself would loop forever, so fuel exhaustion is unreachable for the
PAX bodies real archives carry. -/
def decodePaxAux : Nat → List Nat → List (JSStr × JSStr) → List (JSStr × JSStr)
  | 0, _, result => result
  | fuel + 1, buf, result =>
    if buf.length = 0 then result
    else
      let i := (buf.takeWhile (fun c => c ≠ 32)).length
      match jsParseInt 10 (utf8Decode (jsSlice buf 0 i)) with
      | none => result
      | some len =>
        if len = 0 then result
        else
          let b := utf8Decode (jsSliceI buf (i + 1) (len - 1))
          let keyIndex := (b.takeWhile (fun c => c ≠ 61)).length
          if keyIndex = b.length then result
          else
            decodePaxAux fuel (jsSliceI buf len buf.length)
              (paxSet result (b.take keyIndex) (b.drop (keyIndex + 1)))

/-- Model of `decodePax` (src/headers.ts:203-221). -/
def decodePax (buf : List Nat) : List (JSStr × JSStr) :=
  decodePaxAux (buf.length + 1) buf []

/-- Options record of `encode` (src/headers.ts:223-237). `mtimeMs` is
`opts.mtime.getTime()`, the millisecond timestamp inside the `Date`. -/
structure EncodeOpts where
  name : JSStr
  typeflag : Option Int := none
  linkname : Option JSStr := none
  mode : Int
  uid : Int
  gid : Int
  size : Int
  mtimeMs : Int
  type : Option TType := none
  uname : Option JSStr := none
  gname : Option JSStr := none
  devmajor : Option Int := none
  devminor : Option Int := none

/-- The `while (b4a.byteLength(name) > 100)` splitting loop of `encode`
(src/headers.ts:247-252), peeling leading `/`-segments into the prefix.
Fuel `name.length + 1` is enough because every iteration strictly shortens
`name`; `none` is the in-loop `return null` when no `/` is found. -/
def splitNameLoop : Nat → JSStr → JSStr → Option (JSStr × JSStr)
  | 0, _, _ => none
  | fuel + 1, pfx, name =>
    if byteLength name > 100 then
      let i := (name.takeWhile (fun c => c ≠ 47)).length
      if i = name.length then none
      else
        let pfx' := if pfx ≠ [] then pfx ++ [47] ++ name.take i else name.take i
        splitNameLoop fuel pfx' (name.drop (i + 1))
    else some (pfx, name)

/-- Entry point of the splitting loop with empty initial prefix. -/
def splitName (name : JSStr) : Option (JSStr × JSStr) :=
  splitNameLoop (name.length + 1) [] name

/-- Truthiness of an optional JS string (absent or empty is falsy). -/
def strTruthy (s : Option JSStr) : Bool :=
  match s with
  | some l => l ≠ []
  | none => false

/-- Model of `encode` (src/headers.ts:239-280). Returns `none` exactly where
the source returns `null`. The `mode & MASK` uses `% 4096`, which agrees
with JS `ToInt32`-based `&` because 4096 divides 2^32; `(getTime()/1000)|0`
is truncating division followed by `ToInt32`. -/
def encode (opts : EncodeOpts) : Option (List Nat) :=
  let name0 := opts.name
  let name1 :=
    if opts.typeflag = some 5 ∧ name0.getLast? ≠ some 47 then name0 ++ [47] else name0
  if byteLength name1 ≠ name1.length then none
  else
    match splitName name1 with
    | none => none
    | some (pfx, name) =>
      if byteLength name > 100 ∨ byteLength pfx > 155 then none
      else if strTruthy opts.linkname ∧ byteLength ((opts.linkname).getD []) > 100 then none
      else
        let b0 := alloc512
        let b1 := writeStr b0 name 0
        let b2 := writeBytes b1 (encodeOct (opts.mode % 4096) 6) 100
        let b3 := writeBytes b2 (encodeOct opts.uid 6) 108
        let b4 := writeBytes b3 (encodeOct opts.gid 6) 116
        let b5 := writeBytes b4 (encodeOct opts.size 11) 124
        let b6 := writeBytes b5 (encodeOct (toInt32 (Int.tdiv opts.mtimeMs 1000)) 11) 136
        let b7 := b6.set 156 (48 + toTypeflag opts.type)
        let b8 := if strTruthy opts.linkname then writeStr b7 ((opts.linkname).getD []) 157 else b7
        let b9 := writeBytes b8 USTAR_MAGIC 257
        let b10 := writeBytes b9 USTAR_VER 263
        let b11 := if strTruthy opts.uname then writeStr b10 ((opts.uname).getD []) 265 else b10
        let b12 := if strTruthy opts.gname then writeStr b11 ((opts.gname).getD []) 297 else b11
        let b13 := writeBytes b12 (encodeOct ((opts.devmajor).getD 0) 6) 329
        let b14 := writeBytes b13 (encodeOct ((opts.devminor).getD 0) 6) 337
        let b15 := if pfx ≠ [] then writeStr b14 pfx 345 else b14
        let b16 := writeBytes b15 (encodeOct (cksum b15) 6) 148
        some b16

/-- The decoded header record (`DecodedHeader`, src/headers.ts:282-295),
plus the `pax` mapping the extraction engine's `mixinPax` may attach.
`mtimeMs = none` models the `new Date()` fallback for an undecodable mtime
field. -/
structure Header where
  name : JSStr
  mode : Option Int
  uid : Option Int
  gid : Option Int
  size : Int
  mtimeMs : Option Int
  type : Option TType
  linkname : Option JSStr
  uname : JSStr
  gname : JSStr
  devmajor : Option Int
  devminor : Option Int
  pax : Option (List (JSStr × JSStr)) := none
deriving Repr, DecidableEq

/-- The two exceptions `decode` can throw (src/headers.ts:326, 345). -/
inductive DecodeErr where
  | invalidChecksum
  | invalidFormat
deriving Repr, DecidableEq

/-- Model of `decode` (src/headers.ts:297-366) at the default UTF-8
`filenameEncoding`. `.ok none` is the `null` terminator result. Note the
faithful quirk: `type` is computed from the original typeflag at line 311,
so the legacy trailing-slash reinterpretation of `typeflag` at line 350
never reaches the returned `type` field. -/
def decode (buf : List Nat) (allowUnknownFormat : Bool) : Except DecodeErr (Option Header) :=
  let typeflag : Int := if buf.getD 156 0 = 0 then 0 else (buf.getD 156 0 : Int) - 48
  let name := decodeStr buf 0 100
  let mode := decodeOct buf 100 8
  let uid := decodeOct buf 108 8
  let gid := decodeOct buf 116 8
  let size := (decodeOct buf 124 12).getD 0
  let mtime := decodeOct buf 136 12
  let type := toType typeflag
  let linkname := if buf.getD 157 0 = 0 then none else some (decodeStr buf 157 100)
  let uname := decodeStr buf 265 32
  let gname := decodeStr buf 297 32
  let devmajor := decodeOct buf 329 8
  let devminor := decodeOct buf 337 8
  let c := cksum buf
  if c = 8 * 32 then .ok none
  else if decodeOct buf 148 8 ≠ some (c : Int) then .error .invalidChecksum
  else
    let isUstar := jsSlice buf 257 263 = USTAR_MAGIC
    let isGnu := jsSlice buf 257 263 = GNU_MAGIC ∧ jsSlice buf 263 265 = GNU_VER
    if ¬isUstar ∧ ¬isGnu ∧ ¬allowUnknownFormat then .error .invalidFormat
    else
      let name2 :=
        if isUstar ∧ buf.getD 345 0 ≠ 0 then decodeStr buf 345 155 ++ [47] ++ name
        else name
      -- src/headers.ts:350 recomputes `typeflag` here when a type-0 name ends
      -- in `/`, but the returned `type` above was already fixed at line 311,
      -- so the reinterpretation is dead for the result.
      .ok (some
        { name := name2
          mode := mode
          uid := uid
          gid := gid
          size := size
          mtimeMs := mtime.map (fun m => 1000 * m)
          type := type
          linkname := linkname
          uname := uname
          gname := gname
          devmajor := devmajor
          devminor := devminor })

/-! ## The extraction engine (src/extract.ts)

The engine is modelled as an explicit state machine. The callback web of the
source maps as follows: `_onparse` becomes the `PState` tag of the armed
continuation, `_buffer` the byte queue, the held write callback together
with `_overflow` becomes `waiting` (a parked chunk remainder, possibly
empty), and the `entry` events become the `entries` list, whose last element
accumulates the bytes forwarded to the open `Source`. `openCount` and `log`
are instrumentation: they count content sources created and not yet ended,
and record the externally visible actions. The model fixes the default
options (`filenameEncoding` UTF-8, `allowUnknownFormat` falsy) and elides
stream backpressure and destruction, which only delay or abort delivery.

A declared entry size is a JS number; the model arms parse steps with its
`toNat`. Negative declared sizes (only producible by pathological base-256
size fields, which no archive considered by the claims contains) would make
the source index buffers with negative offsets; the model clamps them to 0
instead. -/

/-- Keys the engine looks up in a PAX mapping: `path`. -/
def pathKey : JSStr := [112, 97, 116, 104]

/-- Key `linkpath`. -/
def linkpathKey : JSStr := [108, 105, 110, 107, 112, 97, 116, 104]

/-- Key `size`. -/
def sizeKey : JSStr := [115, 105, 122, 101]

/-- Model of `mixinPax` (src/extract.ts:25-32). An unparsable PAX size
(`NaN` in JS) is modelled as 0; both are falsy at every use site. -/
def mixinPax (h : Header) (m : List (JSStr × JSStr)) : Header :=
  let h1 := match paxGet m pathKey with
    | some v => if v ≠ [] then { h with name := v } else h
    | none => h
  let h2 := match paxGet m linkpathKey with
    | some v => if v ≠ [] then { h1 with linkname := some v } else h1
    | none => h1
  let h3 := match paxGet m sizeKey with
    | some v => if v ≠ [] then { h2 with size := (jsParseInt 10 v).getD 0 } else h2
    | none => h2
  { h3 with pax := some m }

/-- Model of `Object.assign({}, global, local)` (src/extract.ts:115-116). -/
def mergePax (g m : List (JSStr × JSStr)) : List (JSStr × JSStr) :=
  m.foldl (fun acc kv => paxSet acc kv.1 kv.2) g

/-- Model of `overflow` (src/extract.ts:7-10): bytes of end-of-record
padding after `size` content bytes. `Number(x) & 511` agrees with `% 512`
(Euclidean) because 512 divides 2^32; an absent header (`undefined`, giving
`NaN & 511 = 0`) is passed in as size 0. -/
def overflowOf (size : Int) : Nat :=
  let r := (size % 512).toNat
  if r = 0 then 0 else 512 - r

/-- Declared size of the current header, `self._header?.size` with absence
read as 0. -/
def hdrSizeOf (h : Option Header) : Int :=
  match h with
  | some hh => hh.size
  | none => 0

/-- Length a parse step is armed with from a JS-number size. -/
def armLen (i : Int) : Nat := i.toNat

/-- Continuation tags for `_onparse`: the seven callbacks of the source. -/
inductive PState where
  | pheader | pgnulongpath | pgnulonglinkpath | ppaxglobal | ppax | pstreamend | pdrain
deriving Repr, DecidableEq

/-- Externally visible actions, for the ordering invariants. -/
inductive EAct where
  | decoded | emitted | opened | closed | acked
deriving Repr, DecidableEq

/-- One emitted entry together with the content bytes delivered for it. -/
structure Entry where
  header : Header
  content : List Nat
deriving Repr, DecidableEq

/-- The engine state (fields of `Extract`, src/extract.ts:57-72, plus
instrumentation). -/
structure ESt where
  buffer : List Nat := []
  missing : Nat := 0
  inStep : Bool := false
  onparse : PState := .pheader
  hdr : Option Header := none
  paxM : Option (List (JSStr × JSStr)) := none
  paxG : Option (List (JSStr × JSStr)) := none
  gnuLP : Option JSStr := none
  gnuLLP : Option JSStr := none
  offsetA : Nat := 0
  streamOpen : Bool := false
  locked : Bool := false
  waiting : Option (List Nat) := none
  entries : List Entry := []
  openCount : Nat := 0
  log : List EAct := []
  errored : Bool := false
  stuck : Bool := false
deriving Repr, DecidableEq

/-- Model of `_parse` (src/extract.ts:219-224): arm the next step. The
`_partial` flag is cleared exactly when the armed continuation is
`onheader`. -/
def parseArm (st : ESt) (size : Nat) (p : PState) : ESt :=
  { st with offsetA := st.offsetA + size, missing := size,
            inStep := if p = .pheader then false else st.inStep,
            onparse := p }

/-- Append content bytes to the entry owning the open source (the most
recently emitted one). -/
def appendToLast (es : List Entry) (data : List Nat) : List Entry :=
  match es with
  | [] => []
  | [e] => [{ e with content := e.content ++ data }]
  | e :: rest => e :: appendToLast rest data

/-- Deliver bytes: to the open content source if one exists (`s.write`),
otherwise to the internal queue (`b.append`). -/
def deliver (st : ESt) (data : List Nat) : ESt :=
  if st.streamOpen then { st with entries := appendToLast st.entries data }
  else { st with buffer := st.buffer ++ data }

/-- Model of the `onstreamend` closure (src/extract.ts:91-97): clear the
stream field, arm the padding drain or the next header parse, and continue
only when not lock-blocked. -/
def streamEnd (st : ESt) : ESt × Bool :=
  let st := { st with streamOpen := false }
  let drain := overflowOf (hdrSizeOf st.hdr)
  let st := if drain ≠ 0 then parseArm st drain .pdrain else parseArm st 512 .pheader
  (st, !st.locked)

/-- Model of firing `_onparse()` once: the armed callback's body
(src/extract.ts:99-213). Returns the successor state and whether the
callback reached its `oncontinue()` call (`false` means the write callback
and any chunk remainder stay parked until the consumer acknowledges).
`autoAck` inlines a consumer that acknowledges synchronously from inside the
`entry` event, which is the configuration the streaming-equivalence claim is
about; with `autoAck := false` acknowledgement is a separate event. -/
def fireHandler (autoAck : Bool) (st : ESt) : ESt × Bool :=
  match st.onparse with
  | .pheader =>
    match decode (st.buffer.take 512) false with
    | .error _ =>
      -- `decode` threw: `self.destroy(err)`; the surrounding code then still
      -- consumes the block, sees the undefined local `header`, and re-arms.
      let st := { st with errored := true, buffer := st.buffer.drop 512,
                          log := st.log ++ [.decoded] }
      (parseArm st 512 .pheader, true)
    | .ok none =>
      let st := { st with hdr := none, buffer := st.buffer.drop 512,
                          log := st.log ++ [.decoded] }
      (parseArm st 512 .pheader, true)
    | .ok (some h0) =>
      let st := { st with hdr := some h0, buffer := st.buffer.drop 512,
                          log := st.log ++ [.decoded] }
      if h0.type = some .gnuLongPath then (parseArm st (armLen h0.size) .pgnulongpath, true)
      else if h0.type = some .gnuLongLinkPath then
        (parseArm st (armLen h0.size) .pgnulonglinkpath, true)
      else if h0.type = some .paxGlobalHeader then
        (parseArm st (armLen h0.size) .ppaxglobal, true)
      else if h0.type = some .paxHeader then (parseArm st (armLen h0.size) .ppax, true)
      else
        let h1 : Header := match st.gnuLP with
          | some p => { h0 with name := p }
          | none => h0
        let h2 : Header := match st.gnuLLP with
          | some p => { h1 with linkname := some p }
          | none => h1
        let h3 : Header := match st.paxM with
          | some m => mixinPax h2 m
          | none => h2
        let st := { st with gnuLP := none, gnuLLP := none, paxM := none,
                            hdr := some h3, locked := true }
        if h3.size = 0 ∨ h3.type = some .directory then
          -- zero-size or directory entry: arm the next header parse first,
          -- then emit with an already-ended source (`emptyStream`); the
          -- handler returns without `oncontinue()`, so everything stays
          -- parked until the consumer acknowledges.
          let st := parseArm st 512 .pheader
          let st := { st with entries := st.entries ++ [⟨h3, []⟩],
                              log := st.log ++ [.opened, .closed, .emitted] }
          if autoAck then ({ st with locked := false, log := st.log ++ [.acked] }, true)
          else (st, false)
        else
          let st := { st with streamOpen := true, openCount := st.openCount + 1,
                              entries := st.entries ++ [⟨h3, []⟩],
                              log := st.log ++ [.opened, .emitted] }
          let st := if autoAck then { st with locked := false, log := st.log ++ [.acked] }
                    else st
          (parseArm st (armLen h3.size) .pstreamend, true)
  | .pgnulongpath =>
    let size := armLen (hdrSizeOf st.hdr)
    let st := { st with gnuLP := some (decodeLongPath (st.buffer.take size)),
                        buffer := st.buffer.drop size }
    streamEnd st
  | .pgnulonglinkpath =>
    let size := armLen (hdrSizeOf st.hdr)
    let st := { st with gnuLLP := some (decodeLongPath (st.buffer.take size)),
                        buffer := st.buffer.drop size }
    streamEnd st
  | .ppaxglobal =>
    let size := armLen (hdrSizeOf st.hdr)
    let st := { st with paxG := some (decodePax (st.buffer.take size)),
                        buffer := st.buffer.drop size }
    streamEnd st
  | .ppax =>
    let size := armLen (hdrSizeOf st.hdr)
    let m := decodePax (st.buffer.take size)
    let m := match st.paxG with
      | some g => mergePax g m
      | none => m
    let st := { st with paxM := some m, buffer := st.buffer.drop size }
    streamEnd st
  | .pstreamend => streamEnd st
  | .pdrain =>
    let d := overflowOf (hdrSizeOf st.hdr)
    (parseArm { st with buffer := st.buffer.drop d } 512 .pheader, true)

/-- Model of `_write` (src/extract.ts:233-267). The recursion through
`oncontinue`/`_continue` on a non-null `_overflow` becomes the recursive
call on the chunk remainder; a null `_overflow` (chunk consumed exactly)
releases the write callback without refiring, and a handler that does not
continue parks the remainder in `waiting`. Fuel `2·length + 2` dominates the
iteration count: every iteration either consumes at least one byte or fires
a zero-armed step whose successor step is armed non-zero. -/
def wcStep1 (st : ESt) (hd : List Nat) : ESt :=
  if st.streamOpen then
    -- `s.end(hd)`: the open source receives its final bytes and ends.
    { { st with entries := appendToLast st.entries hd } with
        missing := 0, openCount := st.openCount - 1, log := st.log ++ [.closed] }
  else { st with buffer := st.buffer ++ hd, missing := 0 }

def writeChunk (autoAck : Bool) : Nat → ESt → List Nat → ESt
  | 0, st, _ => { st with stuck := true }
  | fuel + 1, st, data =>
    let st := if data.length ≠ 0 then { st with inStep := true } else st
    if data.length < st.missing then
      deliver { st with missing := st.missing - data.length } data
    else
      let hd := data.take st.missing
      let rest := data.drop st.missing
      let fired := fireHandler autoAck (wcStep1 st hd)
      if fired.2 then
        if rest.isEmpty then fired.1
        else writeChunk autoAck fuel fired.1 rest
      else { fired.1 with waiting := some rest }

/-- Fuel sufficient for one chunk. -/
def chunkFuel (d : List Nat) : Nat := 2 * d.length + 2

/-- The state after the constructor ran (src/extract.ts:216:
`this._parse(512, onheader)`). -/
def initSt : ESt := parseArm {} 512 .pheader

/-- One auto-acknowledged chunk delivery; after a fatal error the stream
machinery delivers no further chunks. -/
def runOne (st : ESt) (d : List Nat) : ESt :=
  if st.errored then st else writeChunk true (chunkFuel d) st d

/-- Feeding a whole chunk sequence to a fresh engine whose consumer
acknowledges every entry synchronously. -/
def feedAll (cs : List (List Nat)) : ESt :=
  cs.foldl runOne initSt

/-- Model of `_final` (src/extract.ts:269-271): finalize fails (with
"Unexpected end of data") exactly when the `_partial` flag is set. -/
def finalizeFails (st : ESt) : Bool := st.inStep

/-- A write event of the event-driven model (consumer acknowledges
separately). -/
def writeEvent (st : ESt) (d : List Nat) : ESt :=
  writeChunk false (chunkFuel d) st d

/-- Model of `onunlock` (src/extract.ts:85-89) followed by `_continue`
(src/extract.ts:226-231): clear the lock and, when no source is open,
resume the parked remainder. -/
def ackEvent (st : ESt) : ESt :=
  let st := { st with locked := false, log := st.log ++ [.acked] }
  if st.streamOpen then st
  else
    match st.waiting with
    | some rest => writeChunk false (chunkFuel rest) { st with waiting := none } rest
    | none => st

/-- Reachable states of the event-driven engine: chunks may arrive whenever
no write callback is held, and the consumer may acknowledge at any time. -/
inductive Reach : ESt → Prop where
  | init : Reach initSt
  | write (st : ESt) (d : List Nat) : Reach st → st.waiting = none → st.errored = false →
      Reach (writeEvent st d)
  | ack (st : ESt) : Reach st → Reach (ackEvent st)

deriving instance DecidableEq for Except

/-! ## Concrete data used by several claims -/

/-- Projection: the `type` of a successfully decoded header. -/
def decodedType (r : Except DecodeErr (Option Header)) : Option (Option TType) :=
  match r with
  | .ok (some h) => some h.type
  | _ => none

/-- Projection: the `name` of a successfully decoded header. -/
def decodedName (r : Except DecodeErr (Option Header)) : Option JSStr :=
  match r with
  | .ok (some h) => some h.name
  | _ => none

/-- Projection: the `uid` of a successfully decoded header. -/
def decodedUid (r : Except DecodeErr (Option Header)) : Option (Option Int) :=
  match r with
  | .ok (some h) => some h.uid
  | _ => none

/-- A plain single-file header: name `hello.txt`, size 5. -/
def helloOpts : EncodeOpts :=
  { name := [104, 101, 108, 108, 111, 46, 116, 120, 116]
    mode := 420, uid := 10, gid := 20, size := 5, mtimeMs := 1234567000
    type := some .file, devmajor := some 0, devminor := some 0 }

/-- The `hello.txt` options with mode `0o10644`, one bit above the twelve
permission bits kept by `MASK` (src/headers.ts:10). -/
def c10Opts : EncodeOpts := { helloOpts with mode := 4516 }

/-- The `hello.txt` options as a directory entry with the typeflag option
set to 5 (src/headers.ts:244). -/
def c8WitnessOpts : EncodeOpts :=
  { helloOpts with typeflag := some 5, type := some .directory }

/-- A 131-character ASCII name (120 `a`s, a slash, 10 `b`s) that exercises
the prefix-splitting path of `encode`. -/
def c6WitnessOpts : EncodeOpts :=
  { helloOpts with name := List.replicate 120 97 ++ [47] ++ List.replicate 10 98 }

/-- The encoded `hello.txt` block. -/
def helloBlock : List Nat := (encode helloOpts).getD []

/-- The complete single-entry archive of the spec's example: header block,
content `world` padded to 512 bytes, then two zero terminator blocks. -/
def helloArchive : List Nat :=
  helloBlock ++ [119, 111, 114, 108, 100] ++ List.replicate 507 0 ++ List.replicate 1024 0

/-- The truncated variant: terminator blocks removed, content cut to 3
bytes. -/
def truncatedHello : List Nat := helloBlock ++ [119, 111, 114]

/-- A GNU long-path header block that declares size 0, before its checksum
is filled in. -/
def gnuLP0Base : List Nat :=
  let b1 := writeBytes alloc512 (encodeOct 0 6) 100
  let b2 := writeBytes b1 (encodeOct 0 6) 108
  let b3 := writeBytes b2 (encodeOct 0 6) 116
  let b4 := writeBytes b3 (encodeOct 0 11) 124
  let b5 := writeBytes b4 (encodeOct 0 11) 136
  let b6 := b5.set 156 (48 + 28)
  let b7 := writeBytes b6 GNU_MAGIC 257
  writeBytes b7 GNU_VER 263

/-- The same block with a valid checksum: a well-formed GNU `L` (long path)
header of declared size 0. -/
def gnuLP0 : List Nat := writeBytes gnuLP0Base (encodeOct (cksum gnuLP0Base) 6) 148

/-- Header fields for a block whose typeflag is 0 but whose name `dir/` ends
in the path separator: the input of claim C7. -/
def c7Opts : EncodeOpts :=
  { name := [100, 105, 114, 47]
    mode := 420, uid := 0, gid := 0, size := 0, mtimeMs := 0
    type := some .file, devmajor := some 0, devminor := some 0 }

/-- Encode options with `type` directory but no `typeflag`: the input of
claim C8's counterexample. -/
def c8Opts : EncodeOpts :=
  { name := [100]
    mode := 420, uid := 0, gid := 0, size := 0, mtimeMs := 0
    type := some .directory, devmajor := some 0, devminor := some 0 }

/-- Within-range fields except `uid = 8^6`, which overflows the 6-digit
octal field: the input of claim C1's counterexample. -/
def c1CexOpts : EncodeOpts := { helloOpts with uid := 262144 }

/-- A 103-byte ASCII name starting with `/`: the input of claim C6's
counterexample. -/
def c6CexName : JSStr := [47] ++ List.replicate 100 97 ++ [47, 98]

/-- Encode options around `c6CexName`. -/
def c6CexOpts : EncodeOpts := { helloOpts with name := c6CexName }

/-- The first PAX record `12 path=a/b\n` emitted for `path = a/b`. -/
def c9Record1 : List Nat := [49, 50, 32, 112, 97, 116, 104, 61, 97, 47, 98, 10]

/-- The second PAX record `6 x=y\n` emitted for the mapping entry `x = y`. -/
def c9Record2 : List Nat := [54, 32, 120, 61, 121, 10]

/-- C3's engine invariant: at most one content source is open (exactly one
while a stream is open), the open stream always belongs to the armed
`onstreamend` step, and while an entry is unacknowledged with no parked
remainder the engine is inside that entry's content step. -/
def c3Inv (st : ESt) : Prop :=
  st.openCount ≤ 1 ∧
  (st.streamOpen = true → st.openCount = 1 ∧ st.onparse = PState.pstreamend) ∧
  (st.streamOpen = false → st.openCount = 0) ∧
  (st.locked = true → st.waiting = none → st.onparse = PState.pstreamend ∧ st.streamOpen = true)

/-- C2's run invariant for the auto-acknowledging consumer: the lock is
never held across a write step, and a fully consumed parse step can only
belong to a callback that re-arms a non-empty one. -/
def wfW (st : ESt) : Prop :=
  st.locked = false ∧ (st.missing = 0 → st.onparse ≠ PState.pheader)

/-- Iteration measure of `writeChunk`: every loop iteration strictly
decreases it. -/
def wcMeasure (st : ESt) (d : List Nat) : Nat :=
  2 * d.length + (if st.missing = 0 then 1 else 0)

/-! ## Buffer infrastructure lemmas -/

theorem writeBytes_nil (bytes : List Nat) (off : Nat) : writeBytes [] bytes off = [] := by
  simp [writeBytes]

theorem writeBytes_nil_bytes (buf : List Nat) (off : Nat) : writeBytes buf [] off = buf := by
  simp [writeBytes]

theorem writeBytes_cons_succ (b : Nat) (bs bytes : List Nat) (off : Nat) :
    writeBytes (b :: bs) bytes (off + 1) = b :: writeBytes bs bytes off := by
  simp [writeBytes, List.take_succ_cons, List.drop_succ_cons, Nat.add_right_comm]

theorem writeBytes_cons_zero (b c : Nat) (bs cs : List Nat) :
    writeBytes (b :: bs) (c :: cs) 0 = c :: writeBytes bs cs 0 := by
  simp [writeBytes, List.take_succ_cons, List.drop_succ_cons]

theorem length_writeBytes (buf bytes : List Nat) (off : Nat) :
    (writeBytes buf bytes off).length = buf.length := by
  induction buf generalizing bytes off with
  | nil => simp [writeBytes_nil]
  | cons b bs ih =>
    cases off with
    | zero =>
      cases bytes with
      | nil => simp [writeBytes_nil_bytes]
      | cons c cs => simp [writeBytes_cons_zero, ih]
    | succ o => simp [writeBytes_cons_succ, ih]

theorem getD_writeBytes (buf bytes : List Nat) (off i : Nat) :
    (writeBytes buf bytes off).getD i 0 =
      if off ≤ i ∧ i < off + bytes.length ∧ i < buf.length then bytes.getD (i - off) 0
      else buf.getD i 0 := by
  induction buf generalizing bytes off i with
  | nil =>
    simp only [writeBytes_nil, List.length_nil]
    have : ¬(off ≤ i ∧ i < off + bytes.length ∧ i < 0) := by omega
    simp [this]
  | cons b bs ih =>
    cases off with
    | zero =>
      cases bytes with
      | nil => simp [writeBytes_nil_bytes]
      | cons c cs =>
        cases i with
        | zero => simp [writeBytes_cons_zero]
        | succ j =>
          simp only [writeBytes_cons_zero, List.getD_cons_succ, ih, List.length_cons]
          by_cases h : j < cs.length ∧ j < bs.length
          · have h1 : 0 ≤ j ∧ j < 0 + cs.length ∧ j < bs.length := by omega
            have h2 : 0 ≤ j + 1 ∧ j + 1 < 0 + (cs.length + 1) ∧ j + 1 < bs.length + 1 := by omega
            simp [h1, h2]
          · have h1 : ¬(0 ≤ j ∧ j < 0 + cs.length ∧ j < bs.length) := by omega
            have h2 : ¬(0 ≤ j + 1 ∧ j + 1 < 0 + (cs.length + 1) ∧ j + 1 < bs.length + 1) := by
              omega
            simp [h1, h2]
    | succ o =>
      cases i with
      | zero =>
        have : ¬(o + 1 ≤ 0 ∧ 0 < o + 1 + bytes.length ∧ 0 < (b :: bs).length) := by omega
        simp [writeBytes_cons_succ, this]
      | succ j =>
        simp only [writeBytes_cons_succ, List.getD_cons_succ, ih, List.length_cons]
        by_cases h : o ≤ j ∧ j < o + bytes.length ∧ j < bs.length
        · have h2 : o + 1 ≤ j + 1 ∧ j + 1 < o + 1 + bytes.length ∧ j + 1 < bs.length + 1 := by
            omega
          have h3 : j + 1 - (o + 1) = j - o := by omega
          simp [h, h2, h3]
        · have h2 : ¬(o + 1 ≤ j + 1 ∧ j + 1 < o + 1 + bytes.length ∧ j + 1 < bs.length + 1) := by
            omega
          have h3 : ¬(o ≤ j ∧ j + 1 < o + 1 + bytes.length ∧ j < bs.length) := by omega
          simp [h, h2, h3]

theorem getD_out_of_range (l : List Nat) (i : Nat) (h : l.length ≤ i) : l.getD i 0 = 0 := by
  simp [List.getD_eq_getElem?_getD, List.getElem?_eq_none h]

theorem eq_of_getD (l1 l2 : List Nat) (hlen : l1.length = l2.length)
    (h : ∀ i, i < l1.length → l1.getD i 0 = l2.getD i 0) : l1 = l2 := by
  apply List.ext_getElem?
  intro n
  by_cases hn : n < l1.length
  · have h1 : l1[n]? = some (l1.getD n 0) := by
      rw [List.getD_eq_getElem?_getD, List.getElem?_eq_getElem hn]
      rfl
    have h2 : l2[n]? = some (l2.getD n 0) := by
      rw [List.getD_eq_getElem?_getD, List.getElem?_eq_getElem (hlen ▸ hn)]
      rfl
    rw [h1, h2, h n hn]
  · rw [List.getElem?_eq_none (by omega), List.getElem?_eq_none (by omega)]

theorem length_jsSlice (l : List Nat) (a b : Nat) :
    (jsSlice l a b).length = min b l.length - a := by
  simp [jsSlice]

theorem getD_jsSlice (l : List Nat) (a b i : Nat) (h : a + i < min b l.length) :
    (jsSlice l a b).getD i 0 = l.getD (a + i) 0 := by
  simp only [jsSlice, List.getD_eq_getElem?_getD, List.getElem?_drop]
  rw [List.getElem?_take_of_lt (by omega : a + i < b)]

theorem jsSlice_congr (l1 l2 : List Nat) (a b : Nat) (hlen : l1.length = l2.length)
    (h : ∀ i, a ≤ i → i < b → l1.getD i 0 = l2.getD i 0) :
    jsSlice l1 a b = jsSlice l2 a b := by
  apply eq_of_getD
  · simp [length_jsSlice, hlen]
  · intro i hi
    rw [length_jsSlice] at hi
    rw [getD_jsSlice _ _ _ _ (by omega), getD_jsSlice _ _ _ _ (by omega : a + i < min b l2.length)]
    exact h (a + i) (by omega) (by omega)

theorem jsSlice_writeBytes_outside (buf bytes : List Nat) (off a b : Nat)
    (h : off + bytes.length ≤ a ∨ b ≤ off) :
    jsSlice (writeBytes buf bytes off) a b = jsSlice buf a b := by
  apply jsSlice_congr _ _ _ _ (length_writeBytes ..)
  intro i hi1 hi2
  rw [getD_writeBytes]
  have : ¬(off ≤ i ∧ i < off + bytes.length ∧ i < buf.length) := by omega
  simp [this]

theorem jsSlice_writeBytes_window (buf bytes : List Nat) (off e : Nat)
    (h1 : off + bytes.length ≤ e) (h2 : e ≤ buf.length) :
    jsSlice (writeBytes buf bytes off) off e = bytes ++ jsSlice buf (off + bytes.length) e := by
  have hw := length_writeBytes buf bytes off
  apply eq_of_getD
  · simp only [length_jsSlice, List.length_append, hw]
    omega
  · intro i hi
    rw [length_jsSlice, hw] at hi
    rw [getD_jsSlice _ _ _ _ (by omega)]
    rw [getD_writeBytes]
    by_cases hc : i < bytes.length
    · have : off ≤ off + i ∧ off + i < off + bytes.length ∧ off + i < buf.length := by omega
      simp only [this, and_self, if_pos, Nat.add_sub_cancel_left]
      rw [List.getD_append _ _ _ _ hc]
    · have hni : ¬(off ≤ off + i ∧ off + i < off + bytes.length ∧ off + i < buf.length) := by
        omega
      simp only [hni, if_false]
      rw [List.getD_append_right _ _ _ _ (by omega)]
      rw [getD_jsSlice _ _ _ _ (by omega)]
      congr 1
      omega

theorem jsSlice_writeBytes_exact (buf bytes : List Nat) (off : Nat)
    (h : off + bytes.length ≤ buf.length) :
    jsSlice (writeBytes buf bytes off) off (off + bytes.length) = bytes := by
  rw [jsSlice_writeBytes_window _ _ _ _ (le_refl _) h]
  have : jsSlice buf (off + bytes.length) (off + bytes.length) = [] := by
    apply List.eq_nil_of_length_eq_zero
    rw [length_jsSlice]
    omega
  simp [this]

theorem getD_set' (l : List Nat) (k i v : Nat) :
    (l.set k v).getD i 0 = if k = i ∧ k < l.length then v else l.getD i 0 := by
  simp only [List.getD_eq_getElem?_getD, List.getElem?_set]
  by_cases h1 : k = i
  · subst h1
    by_cases h2 : k < l.length
    · simp [h2]
    · simp [h2, List.getElem?_eq_none (show l.length ≤ k by omega)]
  · simp [h1]

theorem jsSlice_set_outside (l : List Nat) (k v a b : Nat) (h : k < a ∨ b ≤ k) :
    jsSlice (l.set k v) a b = jsSlice l a b := by
  apply jsSlice_congr _ _ _ _ (by simp)
  intro i hi1 hi2
  rw [getD_set']
  have : ¬(k = i ∧ k < l.length) := by omega
  simp [this]

theorem sum_set (l : List Nat) (k v : Nat) (h : k < l.length) :
    (l.set k v).sum + l.getD k 0 = l.sum + v := by
  induction l generalizing k with
  | nil => simp at h
  | cons a as ih =>
    cases k with
    | zero => simp [List.sum_cons]; omega
    | succ j =>
      simp only [List.set_cons_succ, List.sum_cons, List.getD_cons_succ]
      have := ih j (by simpa using h)
      omega

theorem sum_jsSlice_split (l : List Nat) (a m b : Nat) (h1 : a ≤ m) (h2 : m ≤ b) :
    (jsSlice l a b).sum = (jsSlice l a m).sum + (jsSlice l m b).sum := by
  simp only [jsSlice]
  have hm : List.take m l = List.take m (List.take b l) := by
    rw [List.take_take, Nat.min_eq_left h2]
  rw [hm]
  rw [← List.sum_take_add_sum_drop (List.drop a (List.take b l)) (m - a)]
  congr 1
  · rw [List.take_drop]
    have hma : a + (m - a) = m := by omega
    rw [hma]
  · rw [List.drop_drop]
    have hma : a + (m - a) = m := by omega
    rw [hma]

/-! ## ASCII and UTF-8 lemmas -/

theorem utf8Encode_ascii (s : JSStr) (h : ∀ c ∈ s, c < 128) : utf8Encode s = s := by
  induction s with
  | nil => rfl
  | cons c cs ih =>
    have hc : c < 128 := h c (List.mem_cons_self ..)
    simp only [utf8Encode, List.map_cons, List.flatten_cons, utf8EncodeUnit, if_pos hc]
    rw [List.singleton_append]
    congr 1
    exact ih (fun x hx => h x (List.mem_cons_of_mem _ hx))

theorem utf8DecodeAux_ascii (fuel : Nat) (l : List Nat) (h : ∀ c ∈ l, c < 128)
    (hf : l.length ≤ fuel) : utf8DecodeAux fuel l = l := by
  induction fuel generalizing l with
  | zero =>
    interval_cases hl : l.length
    · exact (List.eq_nil_of_length_eq_zero hl) ▸ rfl
  | succ f ih =>
    cases l with
    | nil => rfl
    | cons b rest =>
      have hb : b < 128 := h b (List.mem_cons_self ..)
      simp only [utf8DecodeAux, if_pos hb]
      congr 1
      exact ih rest (fun x hx => h x (List.mem_cons_of_mem _ hx)) (by simpa using hf)

theorem utf8Decode_ascii (l : List Nat) (h : ∀ c ∈ l, c < 128) : utf8Decode l = l :=
  utf8DecodeAux_ascii l.length l h (le_refl _)

theorem byteLength_ascii (s : JSStr) (h : ∀ c ∈ s, c < 128) : byteLength s = s.length := by
  induction s with
  | nil => rfl
  | cons c cs ih =>
    have hc : c < 128 := h c (List.mem_cons_self ..)
    simp only [byteLength, List.map_cons, List.sum_cons, unitUtf8Len, if_pos hc,
      List.length_cons]
    have := ih (fun x hx => h x (List.mem_cons_of_mem _ hx))
    simp only [byteLength] at this
    omega

theorem byteLength_ge_length (s : JSStr) : s.length ≤ byteLength s := by
  induction s with
  | nil => simp [byteLength]
  | cons c cs ih =>
    simp only [byteLength, List.map_cons, List.sum_cons, List.length_cons] at *
    have : 1 ≤ unitUtf8Len c := by
      simp only [unitUtf8Len]
      split <;> try split
      all_goals omega
    omega

theorem ascii_of_byteLength_eq (s : JSStr) (h : byteLength s = s.length) :
    ∀ c ∈ s, c < 128 := by
  induction s with
  | nil => simp
  | cons c cs ih =>
    have h1 : 1 ≤ unitUtf8Len c := by
      simp only [unitUtf8Len]
      split <;> try split
      all_goals omega
    have h2 := byteLength_ge_length cs
    simp only [byteLength, List.map_cons, List.sum_cons, List.length_cons] at h
    have hc1 : unitUtf8Len c = 1 := by
      simp only [byteLength] at h2
      omega
    have hcs : byteLength cs = cs.length := by
      simp only [byteLength] at h2 ⊢
      omega
    intro x hx
    rcases List.mem_cons.mp hx with rfl | hx2
    · by_contra hge
      simp only [unitUtf8Len, if_neg (by omega : ¬x < 128)] at hc1
      split at hc1 <;> omega
    · exact ih hcs x hx2

/-! ## indexOf lemmas -/

theorem idxOfAux_found (block : List Nat) (num endIdx : Nat) (fuel off j : Nat)
    (hj1 : off ≤ j) (hj2 : j < endIdx) (hfuel : endIdx - off ≤ fuel)
    (hval : block.getD j 0 = num)
    (hmin : ∀ i, off ≤ i → i < j → block.getD i 0 ≠ num) :
    idxOfAux block num endIdx fuel off = j := by
  induction fuel generalizing off with
  | zero => omega
  | succ f ih =>
    simp only [idxOfAux, if_pos (by omega : off < endIdx)]
    by_cases hoj : off = j
    · subst hoj
      rw [if_pos hval]
    · have hne : block.getD off 0 ≠ num := hmin off (le_refl _) (by omega)
      simp only [hne, if_false]
      exact ih (off + 1) (by omega) (by omega) (fun i h1 h2 => hmin i (by omega) h2)

theorem idxOf_found (block : List Nat) (num offset endIdx j : Nat)
    (hj1 : offset ≤ j) (hj2 : j < endIdx) (hval : block.getD j 0 = num)
    (hmin : ∀ i, offset ≤ i → i < j → block.getD i 0 ≠ num) :
    idxOf block num offset endIdx = j :=
  idxOfAux_found block num endIdx _ offset j hj1 hj2 (le_refl _) hval hmin

theorem idxOfAux_notfound (block : List Nat) (num endIdx : Nat) (fuel off : Nat)
    (hfuel : endIdx - off ≤ fuel)
    (h : ∀ i, off ≤ i → i < endIdx → block.getD i 0 ≠ num) :
    idxOfAux block num endIdx fuel off = endIdx := by
  induction fuel generalizing off with
  | zero => rfl
  | succ f ih =>
    simp only [idxOfAux]
    by_cases hoff : off < endIdx
    · rw [if_pos hoff, if_neg (h off (le_refl _) hoff)]
      exact ih (off + 1) (by omega) (fun i h1 h2 => h i (by omega) h2)
    · simp [hoff]

theorem idxOf_notfound (block : List Nat) (num offset endIdx : Nat)
    (h : ∀ i, offset ≤ i → i < endIdx → block.getD i 0 ≠ num) :
    idxOf block num offset endIdx = endIdx :=
  idxOfAux_notfound block num endIdx _ offset (le_refl _) h

/-! ## Octal digit lemmas -/

theorem octDigitsAux_mem (fuel n : Nat) : ∀ c ∈ octDigitsAux fuel n, 48 ≤ c ∧ c < 56 := by
  induction fuel generalizing n with
  | zero => simp [octDigitsAux]
  | succ f ih =>
    cases n with
    | zero => simp [octDigitsAux]
    | succ m =>
      intro c hc
      simp only [octDigitsAux, List.mem_append, List.mem_singleton] at hc
      rcases hc with hc | rfl
      · exact ih _ c hc
      · have := Nat.mod_lt (m + 1) (show 0 < 8 by omega)
        omega

/-- The digit-accumulating step of octal `parseInt`. -/
def octStep (x c : Nat) : Nat := x * 8 + (c - 48)

theorem octDigitsAux_foldl (fuel : Nat) : ∀ n a : Nat, n ≤ fuel →
    (octDigitsAux fuel n).foldl octStep a = a * 8 ^ (octDigitsAux fuel n).length + n := by
  induction fuel with
  | zero =>
    intro n a h
    interval_cases n
    simp [octDigitsAux]
  | succ f ih =>
    intro n a h
    cases n with
    | zero => simp [octDigitsAux]
    | succ m =>
      have hrec : (m + 1) / 8 ≤ f := by omega
      simp only [octDigitsAux, List.foldl_append, List.foldl_cons, List.foldl_nil,
        List.length_append, List.length_singleton]
      rw [ih _ a hrec]
      simp only [octStep]
      have h8 : 8 ^ ((octDigitsAux f ((m + 1) / 8)).length + 1) =
          8 ^ (octDigitsAux f ((m + 1) / 8)).length * 8 := by
        rw [pow_succ]
      rw [h8]
      have : (m + 1) % 8 + 48 - 48 = (m + 1) % 8 := by omega
      have hdm := Nat.div_add_mod (m + 1) 8
      ring_nf
      omega

theorem octDigitsAux_length_le (fuel : Nat) : ∀ n k : Nat, n ≤ fuel → n < 8 ^ k →
    (octDigitsAux fuel n).length ≤ k := by
  induction fuel with
  | zero =>
    intro n k h _
    interval_cases n
    simp [octDigitsAux]
  | succ f ih =>
    intro n k h hk
    cases n with
    | zero => simp [octDigitsAux]
    | succ m =>
      cases k with
      | zero => simp at hk
      | succ j =>
        have h1 : (m + 1) / 8 < 8 ^ j := by
          rw [Nat.div_lt_iff_lt_mul (by omega : 0 < 8)]
          have := pow_succ 8 j
          omega
        simp only [octDigitsAux, List.length_append, List.length_singleton]
        have := ih ((m + 1) / 8) j (by omega) h1
        omega

/-! ## Octal field round-trip -/

theorem parseDigitsAux_all (l : List Nat) (a : Nat) (h : ∀ c ∈ l, 48 ≤ c ∧ c < 56) :
    parseDigitsAux 8 l (some a) = some (l.foldl octStep a) := by
  induction l generalizing a with
  | nil => rfl
  | cons c rest ih =>
    have hc := h c (List.mem_cons_self ..)
    simp only [parseDigitsAux, if_pos (show 48 ≤ c ∧ c < 48 + min 8 10 by omega),
      Option.getD_some, List.foldl_cons]
    exact ih _ (fun x hx => h x (List.mem_cons_of_mem _ hx))

theorem parseDigitsAux_all_none (l : List Nat) (hne : l ≠ [])
    (h : ∀ c ∈ l, 48 ≤ c ∧ c < 56) :
    parseDigitsAux 8 l none = some (l.foldl octStep 0) := by
  cases l with
  | nil => exact absurd rfl hne
  | cons c rest =>
    have hc := h c (List.mem_cons_self ..)
    simp only [parseDigitsAux, if_pos (show 48 ≤ c ∧ c < 48 + min 8 10 by omega),
      Option.getD_none, List.foldl_cons, Nat.zero_mul, Nat.zero_add]
    rw [parseDigitsAux_all _ _ (fun x hx => h x (List.mem_cons_of_mem _ hx))]
    simp [octStep]

theorem foldl_octStep_replicate48 (k a : Nat) :
    (List.replicate k 48).foldl octStep a = a * 8 ^ k := by
  induction k generalizing a with
  | zero => simp
  | succ j ih =>
    simp only [List.replicate_succ, List.foldl_cons, octStep, Nat.sub_self, Nat.add_zero, ih]
    ring

/-- The digit string of a non-negative JS number, as written by
`encodeOct`. -/
theorem jsOctString_nat (v : Nat) :
    jsOctString (v : Int) = if v = 0 then [48] else octDigitsAux v v := by
  simp only [jsOctString]
  by_cases hv : v = 0
  · subst hv
    simp
  · rw [if_neg (by exact_mod_cast hv), if_neg (by omega), if_neg hv]
    congr 1

theorem jsOctString_nat_mem (v : Nat) : ∀ c ∈ jsOctString (v : Int), 48 ≤ c ∧ c < 56 := by
  rw [jsOctString_nat]
  by_cases hv : v = 0
  · simp [hv]
  · rw [if_neg hv]
    exact octDigitsAux_mem v v

theorem jsOctString_nat_ne_nil (v : Nat) : jsOctString (v : Int) ≠ [] := by
  rw [jsOctString_nat]
  by_cases hv : v = 0
  · simp [hv]
  · rw [if_neg hv]
    intro hcon
    have := octDigitsAux_foldl v v 0 (le_refl v)
    rw [hcon] at this
    simp at this
    omega

theorem jsOctString_nat_foldl (v : Nat) : (jsOctString (v : Int)).foldl octStep 0 = v := by
  rw [jsOctString_nat]
  by_cases hv : v = 0
  · simp [hv, octStep]
  · rw [if_neg hv]
    rw [octDigitsAux_foldl v v 0 (le_refl v)]
    simp

theorem jsOctString_nat_length (v n : Nat) (hn : 1 ≤ n) (hv : v < 8 ^ n) :
    (jsOctString (v : Int)).length ≤ n := by
  rw [jsOctString_nat]
  by_cases h0 : v = 0
  · simpa [h0] using hn
  · rw [if_neg h0]
    exact octDigitsAux_length_le v v n (le_refl _) hv

theorem encodeOct_nat_eq (v n : Nat) (hn : 1 ≤ n) (hv : v < 8 ^ n) :
    encodeOct (v : Int) n =
      List.replicate (n - (jsOctString (v : Int)).length) 48 ++ jsOctString (v : Int) ++ [32] := by
  have hlen := jsOctString_nat_length v n hn hv
  simp only [encodeOct]
  rw [if_neg (by omega)]

theorem length_encodeOct_nat (v n : Nat) (hn : 1 ≤ n) (hv : v < 8 ^ n) :
    (encodeOct (v : Int) n).length = n + 1 := by
  rw [encodeOct_nat_eq v n hn hv]
  have hlen := jsOctString_nat_length v n hn hv
  simp only [List.length_append, List.length_replicate, List.length_singleton]
  omega

theorem isJsSpace_digit (c : Nat) (h : 48 ≤ c ∧ c < 56) : isJsSpace c = false := by
  simp only [isJsSpace, decide_eq_false_iff_not]
  omega

theorem decodeOctCore_roundtrip (v n pad : Nat) (hn : 1 ≤ n) (hv : v < 8 ^ n) :
    decodeOctCore (encodeOct (v : Int) n ++ List.replicate pad 0) = some (v : Int) := by
  have hd := jsOctString_nat_mem v
  have hdl := jsOctString_nat_length v n hn hv
  rw [encodeOct_nat_eq v n hn hv]
  set digits := jsOctString (v : Int) with hdigits
  set P : List Nat := List.replicate (n - digits.length) 48 ++ digits with hP
  have hPlen : P.length = n := by
    simp only [hP, List.length_append, List.length_replicate]
    omega
  have hPmem : ∀ c ∈ P, 48 ≤ c ∧ c < 56 := by
    intro c hc
    rcases List.mem_append.mp hc with hc | hc
    · have := List.eq_of_mem_replicate hc
      omega
    · exact hd c hc
  have hPne : P ≠ [] := by
    intro hcon
    rw [hcon] at hPlen
    simp at hPlen
    omega
  have hL : List.replicate (n - digits.length) 48 ++ digits ++ [32] ++ List.replicate pad 0 =
      P ++ ([32] ++ List.replicate pad 0) := by
    simp [hP, List.append_assoc]
  rw [hL]
  set L : List Nat := P ++ ([32] ++ List.replicate pad 0) with hLdef
  have hLlen : L.length = n + 1 + pad := by
    simp only [hLdef, List.length_append, hPlen, List.length_singleton, List.length_replicate]
    omega
  have hLget : ∀ i, i < n → L.getD i 0 = P.getD i 0 := by
    intro i hi
    rw [hLdef, List.getD_append _ _ _ _ (by omega)]
  have hPget_mem : ∀ i, i < n → 48 ≤ P.getD i 0 ∧ P.getD i 0 < 56 := by
    intro i hi
    apply hPmem
    rw [List.getD_eq_getElem P 0 (by omega)]
    exact List.getElem_mem ..
  have hLn : L.getD n 0 = 32 := by
    rw [hLdef, List.getD_append_right _ _ _ _ (by omega), hPlen]
    simp
  have hL0 : L.getD 0 0 = P.getD 0 0 := hLget 0 (by omega)
  have h0mem := hPget_mem 0 (by omega)
  simp only [decodeOctCore]
  rw [if_neg (by
    rw [hL0]
    intro hbit
    have := Nat.testBit_implies_ge hbit
    omega)]
  have htw : (L.takeWhile (fun c => c = 32)).length = 0 := by
    rcases List.exists_cons_of_ne_nil hPne with ⟨c, rest, hcr⟩
    have hc0 : P.getD 0 0 = c := by rw [hcr]; rfl
    rw [hLdef, hcr]
    simp only [List.cons_append, List.takeWhile_cons]
    rw [decide_eq_false (by omega : ¬c = 32)]
    simp
  rw [htw]
  have hidx : idxOf L 32 0 L.length = n := by
    apply idxOf_found _ _ _ _ _ (by omega) (by omega) hLn
    intro i _ hi
    have := hPget_mem i hi
    rw [hLget i hi]
    omega
  rw [hidx]
  have hslice : jsSlice L 0 n = P := by
    apply eq_of_getD
    · rw [length_jsSlice]
      omega
    · intro i hi
      rw [length_jsSlice] at hi
      rw [getD_jsSlice _ _ _ _ (by omega)]
      simpa using hLget i (by omega)
  have htz : (P.takeWhile (fun c => c = 0)).length = 0 := by
    rcases List.exists_cons_of_ne_nil hPne with ⟨c, rest, hcr⟩
    have hc0 : P.getD 0 0 = c := by rw [hcr]; rfl
    rw [hcr]
    simp only [List.takeWhile_cons]
    rw [decide_eq_false (by omega : ¬c = 0)]
    simp
  rw [hslice, htz]
  rw [if_neg (by omega)]
  have hascii : ∀ c ∈ P, c < 128 := fun c hc => by have := hPmem c hc; omega
  simp only [Nat.add_zero, Nat.zero_add]
  rw [hslice, utf8Decode_ascii P hascii]
  rcases List.exists_cons_of_ne_nil hPne with ⟨c, rest, hcr⟩
  have hcmem : 48 ≤ c ∧ c < 56 := by
    apply hPmem
    rw [hcr]
    exact List.mem_cons_self ..
  simp only [jsParseInt]
  rw [hcr]
  rw [List.dropWhile_cons]
  rw [isJsSpace_digit c hcmem]
  simp only [Bool.false_eq_true, if_false, List.headD_cons]
  rw [if_neg (by omega), if_neg (by omega)]
  rw [parseDigitsAux_all_none _ (by simp) (hcr ▸ hPmem)]
  have : P.foldl octStep 0 = v := by
    rw [hP, List.foldl_append, foldl_octStep_replicate48]
    simp only [Nat.zero_mul]
    exact jsOctString_nat_foldl v
  rw [← hcr, this]
  rfl

/-- Reading an octal field of the block: if the slice of the field is the
encoded octal plus zero padding, decodeOct returns the value. -/
theorem decodeOct_field (blk : List Nat) (off len v n pad : Nat)
    (hslice : jsSlice blk off (off + len) = encodeOct (v : Int) n ++ List.replicate pad 0)
    (hn : 1 ≤ n) (hv : v < 8 ^ n) :
    decodeOct blk off len = some (v : Int) := by
  rw [decodeOct, hslice]
  exact decodeOctCore_roundtrip v n pad hn hv

/-! ## String field round-trip and checksum lemmas -/

theorem length_utf8EncodeUnit (c : Nat) : (utf8EncodeUnit c).length = unitUtf8Len c := by
  simp only [utf8EncodeUnit, unitUtf8Len]
  split <;> try split
  all_goals rfl

theorem length_utf8Encode (s : JSStr) : (utf8Encode s).length = byteLength s := by
  induction s with
  | nil => rfl
  | cons c cs ih =>
    simp only [utf8Encode, byteLength, List.map_cons, List.flatten_cons, List.sum_cons,
      List.length_append, length_utf8EncodeUnit] at *
    omega

theorem utf8EncodeUnit_lt_256 (c : Nat) : ∀ b ∈ utf8EncodeUnit c, b < 256 := by
  simp only [utf8EncodeUnit]
  split <;> try split
  all_goals intro b hb
  all_goals simp only [List.mem_cons, List.mem_singleton, List.not_mem_nil, or_false] at hb
  · omega
  · have h1 : c / 64 < 32 := by omega
    have h2 : c % 64 < 64 := Nat.mod_lt _ (by omega)
    rcases hb with rfl | rfl <;> omega
  · have h1 : (c / 4096) % 16 < 16 := Nat.mod_lt _ (by omega)
    have h2 : (c / 64) % 64 < 64 := Nat.mod_lt _ (by omega)
    have h3 : c % 64 < 64 := Nat.mod_lt _ (by omega)
    rcases hb with rfl | rfl | rfl <;> omega

theorem utf8Encode_lt_256 (s : JSStr) : ∀ b ∈ utf8Encode s, b < 256 := by
  intro b hb
  simp only [utf8Encode, List.mem_flatten, List.mem_map] at hb
  rcases hb with ⟨l, ⟨c, _, rfl⟩, hbl⟩
  exact utf8EncodeUnit_lt_256 c b hbl

theorem encodeOct_lt_256 (v : Int) (n : Nat) : ∀ b ∈ encodeOct v n, b < 256 := by
  intro b hb
  simp only [encodeOct] at hb
  split at hb <;>
    simp only [List.mem_append, List.mem_singleton, List.mem_replicate] at hb
  · rcases hb with ⟨_, rfl⟩ | rfl <;> omega
  · rcases hb with (⟨_, rfl⟩ | hb) | rfl
    · omega
    · simp only [jsOctString] at hb
      split at hb
      · simp only [List.mem_singleton] at hb
        omega
      · split at hb
        · simp only [List.mem_cons] at hb
          rcases hb with rfl | hb
          · omega
          · have := octDigitsAux_mem _ _ _ hb
            omega
        · have := octDigitsAux_mem _ _ _ hb
          omega
    · omega

theorem writeBytes_lt_256 (buf bytes : List Nat) (off : Nat)
    (hbuf : ∀ b ∈ buf, b < 256) (hbytes : ∀ b ∈ bytes, b < 256) :
    ∀ b ∈ writeBytes buf bytes off, b < 256 := by
  intro b hb
  simp only [writeBytes, List.mem_append] at hb
  rcases hb with (hb | hb) | hb
  · exact hbuf b (List.mem_of_mem_take hb)
  · exact hbytes b (List.mem_of_mem_take hb)
  · exact hbuf b (List.mem_of_mem_drop hb)

theorem set_lt_256 (buf : List Nat) (k v : Nat) (hbuf : ∀ b ∈ buf, b < 256) (hv : v < 256) :
    ∀ b ∈ buf.set k v, b < 256 := by
  intro b hb
  rcases List.mem_or_eq_of_mem_set hb with hb | rfl
  · exact hbuf b hb
  · exact hv

theorem alloc512_lt_256 : ∀ b ∈ alloc512, b < 256 := by
  intro b hb
  have := List.eq_of_mem_replicate hb
  omega

theorem sum_le_of_bound (l : List Nat) (hb : ∀ b ∈ l, b < 256) : l.sum ≤ l.length * 255 := by
  induction l with
  | nil => simp
  | cons x xs ih =>
    have hx := hb x (List.mem_cons_self ..)
    have := ih (fun b h => hb b (List.mem_cons_of_mem _ h))
    simp only [List.sum_cons, List.length_cons]
    have : (xs.length + 1) * 255 = xs.length * 255 + 255 := by ring
    omega

theorem cksum_lt (blk : List Nat) (hb : ∀ b ∈ blk, b < 256) : cksum blk < 262144 := by
  simp only [cksum]
  have h1 : (blk.take 148).sum ≤ 148 * 255 := by
    have := sum_le_of_bound (blk.take 148) (fun b h => hb b (List.mem_of_mem_take h))
    have hl : (blk.take 148).length ≤ 148 := by
      simp [List.length_take]
    calc (blk.take 148).sum ≤ (blk.take 148).length * 255 := this
      _ ≤ 148 * 255 := by exact Nat.mul_le_mul_right _ hl
  have h2 : ((blk.drop 156).take 356).sum ≤ 356 * 255 := by
    have := sum_le_of_bound ((blk.drop 156).take 356)
      (fun b h => hb b (List.mem_of_mem_drop (List.mem_of_mem_take h)))
    have hl : ((blk.drop 156).take 356).length ≤ 356 := by
      simp [List.length_take]
    calc ((blk.drop 156).take 356).sum ≤ ((blk.drop 156).take 356).length * 255 := this
      _ ≤ 356 * 255 := Nat.mul_le_mul_right _ hl
  omega

theorem getD_take (l : List Nat) (n i : Nat) (hi : i < n) :
    (l.take n).getD i 0 = l.getD i 0 := by
  rw [List.getD_eq_getElem?_getD, List.getElem?_take_of_lt hi, List.getD_eq_getElem?_getD]

theorem getD_drop (l : List Nat) (n i : Nat) : (l.drop n).getD i 0 = l.getD (n + i) 0 := by
  rw [List.getD_eq_getElem?_getD, List.getElem?_drop, List.getD_eq_getElem?_getD]

theorem cksum_skip_writeBytes (blk s : List Nat) (hs : s.length ≤ 8)
    (hblk : blk.length = 512) :
    cksum (writeBytes blk s 148) = cksum blk := by
  have hw := length_writeBytes blk s 148
  simp only [cksum]
  have h1 : (writeBytes blk s 148).take 148 = blk.take 148 := by
    apply eq_of_getD
    · simp only [List.length_take, hw]
    · intro i hi
      simp only [List.length_take, hw, hblk] at hi
      have hi' : i < 148 := by omega
      rw [getD_take _ _ _ hi', getD_take _ _ _ hi', getD_writeBytes, if_neg (by omega)]
  have h2 : ((writeBytes blk s 148).drop 156).take 356 = (blk.drop 156).take 356 := by
    apply eq_of_getD
    · simp only [List.length_take, List.length_drop, hw]
    · intro i hi
      simp only [List.length_take, List.length_drop, hw, hblk] at hi
      have hi' : i < 356 := by omega
      rw [getD_take _ _ _ hi', getD_take _ _ _ hi', getD_drop, getD_drop,
        getD_writeBytes, if_neg (by omega)]
  rw [h1, h2]

theorem cksum_ge_magic (blk : List Nat) (_hblk : blk.length = 512)
    (hmagic : jsSlice blk 257 263 = USTAR_MAGIC) : 815 ≤ cksum blk := by
  simp only [cksum]
  have hsplit : ((blk.drop 156).take 356).sum =
      (jsSlice blk 156 257).sum + (jsSlice blk 257 512).sum := by
    have h1 : (blk.drop 156).take 356 = jsSlice blk 156 512 := by
      simp only [jsSlice]
      rw [List.take_drop]
    rw [h1]
    exact sum_jsSlice_split blk 156 257 512 (by omega) (by omega)
  have hsplit2 : (jsSlice blk 257 512).sum =
      (jsSlice blk 257 263).sum + (jsSlice blk 263 512).sum :=
    sum_jsSlice_split blk 257 263 512 (by omega) (by omega)
  rw [hsplit, hsplit2, hmagic]
  have : (USTAR_MAGIC).sum = 559 := by decide
  omega

theorem cksum_set (blk : List Nat) (k v : Nat) (hblk : blk.length = 512)
    (hk : k < 148 ∨ (156 ≤ k ∧ k < 512)) :
    cksum (blk.set k v) + blk.getD k 0 = cksum blk + v := by
  simp only [cksum]
  rcases hk with hk | hk
  · have htake : (blk.set k v).take 148 = (blk.take 148).set k v := by
      apply eq_of_getD
      · simp [List.length_take]
      · intro i hi
        simp only [List.length_take, List.length_set] at hi
        have hi' : i < 148 := by omega
        rw [getD_take _ _ _ hi', getD_set', getD_set']
        simp only [List.length_take, hblk]
        by_cases hik : k = i
        · subst hik
          rw [if_pos (by omega), if_pos (by constructor <;> omega)]
        · rw [if_neg (by omega), if_neg (by omega), getD_take _ _ _ hi']
    have hdrop : (blk.set k v).drop 156 = blk.drop 156 := by
      rw [List.drop_set, if_pos (by omega)]
    rw [htake, hdrop]
    have hs := sum_set (blk.take 148) k v (by simp only [List.length_take, hblk]; omega)
    have hgd : (blk.take 148).getD k 0 = blk.getD k 0 := getD_take _ _ _ hk
    omega
  · have htake : (blk.set k v).take 148 = blk.take 148 := by
      apply eq_of_getD
      · simp [List.length_take]
      · intro i hi
        simp only [List.length_take, List.length_set] at hi
        have hi' : i < 148 := by omega
        rw [getD_take _ _ _ hi', getD_take _ _ _ hi', getD_set', if_neg (by omega)]
    have hdrop : (blk.set k v).drop 156 = (blk.drop 156).set (k - 156) v := by
      rw [List.drop_set, if_neg (by omega)]
    rw [htake, hdrop]
    have htk : ((blk.drop 156).set (k - 156) v).take 356 =
        ((blk.drop 156).take 356).set (k - 156) v := by
      apply eq_of_getD
      · simp [List.length_take]
      · intro i hi
        simp only [List.length_take, List.length_set, List.length_drop] at hi
        have hi' : i < 356 := by omega
        rw [getD_take _ _ _ hi', getD_set', getD_set']
        simp only [List.length_take, List.length_drop, hblk]
        by_cases hik : k - 156 = i
        · rw [if_pos (by omega), if_pos (by constructor <;> omega)]
        · rw [if_neg (by omega), if_neg (by omega), getD_take _ _ _ hi']
    rw [htk]
    have hs := sum_set ((blk.drop 156).take 356) (k - 156) v
      (by simp only [List.length_take, List.length_drop, hblk]; omega)
    have hgd : ((blk.drop 156).take 356).getD (k - 156) 0 = blk.getD k 0 := by
      rw [getD_take _ _ _ (by omega), getD_drop]
      congr 1
      omega
    omega

theorem decodeStr_field (blk : List Nat) (off len : Nat) (s : JSStr) (pad : Nat)
    (hslice : jsSlice blk off (off + len) = s ++ List.replicate pad 0)
    (hlen : s.length + pad = len)
    (hbytes : ∀ c ∈ s, 1 ≤ c ∧ c < 128)
    (hin : off + len ≤ blk.length) :
    decodeStr blk off len = s := by
  have hget : ∀ i, i < len → blk.getD (off + i) 0 = (s ++ List.replicate pad 0).getD i 0 := by
    intro i hi
    rw [← hslice, getD_jsSlice _ _ _ _ (by omega)]
  have hgs : ∀ i, i < s.length → blk.getD (off + i) 0 = s.getD i 0 := by
    intro i hi
    rw [hget i (by omega), List.getD_append _ _ _ _ hi]
  have hgz : ∀ i, s.length ≤ i → i < len → blk.getD (off + i) 0 = 0 := by
    intro i hi1 hi2
    rw [hget i hi2, List.getD_append_right _ _ _ _ (by omega)]
    rw [List.getD_eq_getElem?_getD, List.getElem?_replicate]
    split <;> rfl
  have hsmem : ∀ i, i < s.length → 1 ≤ s.getD i 0 ∧ s.getD i 0 < 128 := by
    intro i hi
    apply hbytes
    rw [List.getD_eq_getElem s 0 hi]
    exact List.getElem_mem ..
  have hidx : idxOf blk 0 off (off + len) = off + s.length := by
    by_cases hpad : pad = 0
    · rw [show off + s.length = off + len by omega]
      apply idxOf_notfound
      intro i h1 h2
      have := hsmem (i - off) (by omega)
      have heq : blk.getD i 0 = s.getD (i - off) 0 := by
        have := hgs (i - off) (by omega)
        rwa [(by omega : off + (i - off) = i)] at this
      omega
    · apply idxOf_found _ _ _ _ _ (by omega) (by omega)
      · exact hgz s.length (le_refl _) (by omega)
      · intro i h1 h2
        have := hsmem (i - off) (by omega)
        have heq : blk.getD i 0 = s.getD (i - off) 0 := by
          have := hgs (i - off) (by omega)
          rwa [(by omega : off + (i - off) = i)] at this
        omega
  rw [decodeStr, hidx]
  have hsl : jsSlice blk off (off + s.length) = s := by
    apply eq_of_getD
    · rw [length_jsSlice]
      omega
    · intro i hi
      rw [length_jsSlice] at hi
      rw [getD_jsSlice _ _ _ _ (by omega)]
      exact hgs i (by omega)
  rw [hsl]
  exact utf8Decode_ascii s (fun c hc => (hbytes c hc).2)

/-- Splitting is the identity for names of at most 100 bytes. -/
theorem splitName_short (name : JSStr) (h : byteLength name ≤ 100) :
    splitName name = some ([], name) := by
  cases hn : name.length with
  | zero =>
    have : name = [] := List.eq_nil_of_length_eq_zero hn
    subst this
    rfl
  | succ m =>
    simp only [splitName, hn, splitNameLoop]
    rw [if_neg (by omega)]

theorem toType_toTypeflag (t : TType)
    (ht : t = .file ∨ t = .link ∨ t = .symlink ∨ t = .characterDevice ∨ t = .blockDevice ∨
      t = .directory ∨ t = .fifo ∨ t = .contiguousFile ∨ t = .paxHeader) :
    toType ((48 + toTypeflag (some t) : Nat) - 48 : Int) = some t := by
  rcases ht with rfl | rfl | rfl | rfl | rfl | rfl | rfl | rfl | rfl <;> decide

theorem jsSlice_replicate (n a b : Nat) :
    jsSlice (List.replicate n (0 : Nat)) a b = List.replicate (min b n - a) 0 := by
  apply eq_of_getD
  · simp [length_jsSlice]
  · intro i hi
    rw [length_jsSlice] at hi
    simp only [List.length_replicate] at hi
    rw [getD_jsSlice _ _ _ _ (by simp only [List.length_replicate]; omega)]
    rw [List.getD_eq_getElem?_getD, List.getElem?_replicate,
      List.getD_eq_getElem?_getD, List.getElem?_replicate]
    rw [if_pos (by omega), if_pos (by omega)]

theorem jsSlice_singleton (l : List Nat) (a : Nat) (h : a < l.length) :
    jsSlice l a (a + 1) = [l.getD a 0] := by
  apply eq_of_getD
  · rw [length_jsSlice]
    simp
    omega
  · intro i hi
    rw [length_jsSlice] at hi
    have : i = 0 := by omega
    subst this
    rw [getD_jsSlice _ _ _ _ (by omega)]
    simp

theorem toNat_lt_pow (v : Int) (n : Nat) (h : v < (8 : Int) ^ n) : v.toNat < 8 ^ n := by
  have h1 : ((8 ^ n : Nat) : Int) = (8 : Int) ^ n := by push_cast; ring
  have h2 : 0 < (8 : Nat) ^ n := pow_pos (by omega) n
  omega

theorem length_encodeOct_int (v : Int) (n : Nat) (hn : 1 ≤ n)
    (hv : 0 ≤ v ∧ v < (8 : Int) ^ n) : (encodeOct v n).length = n + 1 := by
  have hveq : v = ((v.toNat : Nat) : Int) := (Int.toNat_of_nonneg hv.1).symm
  rw [hveq]
  exact length_encodeOct_nat v.toNat n hn (toNat_lt_pow v n hv.2)

theorem decodeOct_field_int (blk : List Nat) (off len : Nat) (v : Int) (n pad : Nat)
    (hslice : jsSlice blk off (off + len) = encodeOct v n ++ List.replicate pad 0)
    (hn : 1 ≤ n) (hv : 0 ≤ v ∧ v < (8 : Int) ^ n) :
    decodeOct blk off len = some v := by
  have hveq : v = ((v.toNat : Nat) : Int) := (Int.toNat_of_nonneg hv.1).symm
  rw [hveq] at hslice ⊢
  exact decodeOct_field blk off len v.toNat n pad hslice hn (toNat_lt_pow v n hv.2)

theorem getD_alloc512 (i : Nat) : alloc512.getD i 0 = 0 := by
  simp only [alloc512, List.getD_eq_getElem?_getD, List.getElem?_replicate]
  split <;> rfl

set_option maxHeartbeats 1000000 in
/-- Decoding the block that `encode` builds: the write chain of
src/headers.ts:257-279 with its fields in range decodes back to the header
this theorem states. The chain is passed as equations `hb1` ... `hB` so the
lemma can be instantiated on the let-chain of `encode`. -/
theorem decode_built_block
    (nm ln unB gnB pfx : List Nat)
    (modeV uidV gidV sizeV mtimeV devMV devmV : Int) (tfb : Nat)
    (b1 b2 b3 b4 b5 b6 b7 b8 b9 b10 b11 b12 b13 b14 b15 B : List Nat)
    (hb1 : b1 = writeBytes alloc512 nm 0)
    (hb2 : b2 = writeBytes b1 (encodeOct modeV 6) 100)
    (hb3 : b3 = writeBytes b2 (encodeOct uidV 6) 108)
    (hb4 : b4 = writeBytes b3 (encodeOct gidV 6) 116)
    (hb5 : b5 = writeBytes b4 (encodeOct sizeV 11) 124)
    (hb6 : b6 = writeBytes b5 (encodeOct mtimeV 11) 136)
    (hb7 : b7 = b6.set 156 tfb)
    (hb8 : b8 = writeBytes b7 ln 157)
    (hb9 : b9 = writeBytes b8 USTAR_MAGIC 257)
    (hb10 : b10 = writeBytes b9 USTAR_VER 263)
    (hb11 : b11 = writeBytes b10 unB 265)
    (hb12 : b12 = writeBytes b11 gnB 297)
    (hb13 : b13 = writeBytes b12 (encodeOct devMV 6) 329)
    (hb14 : b14 = writeBytes b13 (encodeOct devmV 6) 337)
    (hb15 : b15 = writeBytes b14 pfx 345)
    (hB : B = writeBytes b15 (encodeOct ((cksum b15 : Nat) : Int) 6) 148)
    (hnm : ∀ c ∈ nm, 1 ≤ c ∧ c < 128) (hnm100 : nm.length ≤ 100)
    (hln : ∀ c ∈ ln, 1 ≤ c ∧ c < 128) (hln100 : ln.length ≤ 100)
    (hunB : ∀ b ∈ unB, b < 256) (hun32 : unB.length ≤ 32)
    (hgnB : ∀ b ∈ gnB, b < 256) (hgn32 : gnB.length ≤ 32)
    (hpfx : ∀ c ∈ pfx, 1 ≤ c ∧ c < 128) (hpfx155 : pfx.length ≤ 155)
    (hmode : 0 ≤ modeV ∧ modeV < (8 : Int) ^ 6)
    (huid : 0 ≤ uidV ∧ uidV < (8 : Int) ^ 6)
    (hgid : 0 ≤ gidV ∧ gidV < (8 : Int) ^ 6)
    (hsize : 0 ≤ sizeV ∧ sizeV < (8 : Int) ^ 11)
    (hmtime : 0 ≤ mtimeV ∧ mtimeV < (8 : Int) ^ 11)
    (hdevM : 0 ≤ devMV ∧ devMV < (8 : Int) ^ 6)
    (hdevm : 0 ≤ devmV ∧ devmV < (8 : Int) ^ 6)
    (htfb : 48 ≤ tfb ∧ tfb ≤ 120) :
    decode B false = .ok (some
      { name := if pfx = [] then nm else pfx ++ [47] ++ nm
        mode := some modeV
        uid := some uidV
        gid := some gidV
        size := sizeV
        mtimeMs := some (1000 * mtimeV)
        type := toType ((tfb : Int) - 48)
        linkname := if ln = [] then none else some ln
        uname := decodeStr B 265 32
        gname := decodeStr B 297 32
        devmajor := some devMV
        devminor := some devmV }) := by
  have hm7 : (encodeOct modeV 6).length = 7 := length_encodeOct_int _ _ (by omega) hmode
  have hu7 : (encodeOct uidV 6).length = 7 := length_encodeOct_int _ _ (by omega) huid
  have hg7 : (encodeOct gidV 6).length = 7 := length_encodeOct_int _ _ (by omega) hgid
  have hs12 : (encodeOct sizeV 11).length = 12 := length_encodeOct_int _ _ (by omega) hsize
  have ht12 : (encodeOct mtimeV 11).length = 12 := length_encodeOct_int _ _ (by omega) hmtime
  have hdM7 : (encodeOct devMV 6).length = 7 := length_encodeOct_int _ _ (by omega) hdevM
  have hdm7 : (encodeOct devmV 6).length = 7 := length_encodeOct_int _ _ (by omega) hdevm
  have hal : alloc512.length = 512 := by simp [alloc512]
  have hl1 : b1.length = 512 := by rw [hb1, length_writeBytes, hal]
  have hl2 : b2.length = 512 := by rw [hb2, length_writeBytes, hl1]
  have hl3 : b3.length = 512 := by rw [hb3, length_writeBytes, hl2]
  have hl4 : b4.length = 512 := by rw [hb4, length_writeBytes, hl3]
  have hl5 : b5.length = 512 := by rw [hb5, length_writeBytes, hl4]
  have hl6 : b6.length = 512 := by rw [hb6, length_writeBytes, hl5]
  have hl7 : b7.length = 512 := by rw [hb7, List.length_set, hl6]
  have hl8 : b8.length = 512 := by rw [hb8, length_writeBytes, hl7]
  have hl9 : b9.length = 512 := by rw [hb9, length_writeBytes, hl8]
  have hl10 : b10.length = 512 := by rw [hb10, length_writeBytes, hl9]
  have hl11 : b11.length = 512 := by rw [hb11, length_writeBytes, hl10]
  have hl12 : b12.length = 512 := by rw [hb12, length_writeBytes, hl11]
  have hl13 : b13.length = 512 := by rw [hb13, length_writeBytes, hl12]
  have hl14 : b14.length = 512 := by rw [hb14, length_writeBytes, hl13]
  have hl15 : b15.length = 512 := by rw [hb15, length_writeBytes, hl14]
  have hlB : B.length = 512 := by rw [hB, length_writeBytes, hl15]
  have hmag6 : USTAR_MAGIC.length = 6 := rfl
  have hver2 : USTAR_VER.length = 2 := rfl
  have c1 : ∀ b ∈ b1, b < 256 := by
    rw [hb1]
    exact writeBytes_lt_256 _ _ _ alloc512_lt_256 (fun b hb => by have := hnm b hb; omega)
  have c2 : ∀ b ∈ b2, b < 256 := by
    rw [hb2]; exact writeBytes_lt_256 _ _ _ c1 (encodeOct_lt_256 _ _)
  have c3 : ∀ b ∈ b3, b < 256 := by
    rw [hb3]; exact writeBytes_lt_256 _ _ _ c2 (encodeOct_lt_256 _ _)
  have c4 : ∀ b ∈ b4, b < 256 := by
    rw [hb4]; exact writeBytes_lt_256 _ _ _ c3 (encodeOct_lt_256 _ _)
  have c5 : ∀ b ∈ b5, b < 256 := by
    rw [hb5]; exact writeBytes_lt_256 _ _ _ c4 (encodeOct_lt_256 _ _)
  have c6 : ∀ b ∈ b6, b < 256 := by
    rw [hb6]; exact writeBytes_lt_256 _ _ _ c5 (encodeOct_lt_256 _ _)
  have c7 : ∀ b ∈ b7, b < 256 := by
    rw [hb7]; exact set_lt_256 _ _ _ c6 (by omega)
  have c8 : ∀ b ∈ b8, b < 256 := by
    rw [hb8]
    exact writeBytes_lt_256 _ _ _ c7 (fun b hb => by have := hln b hb; omega)
  have c9 : ∀ b ∈ b9, b < 256 := by
    rw [hb9]
    exact writeBytes_lt_256 _ _ _ c8 (by decide)
  have c10 : ∀ b ∈ b10, b < 256 := by
    rw [hb10]
    exact writeBytes_lt_256 _ _ _ c9 (by decide)
  have c11 : ∀ b ∈ b11, b < 256 := by
    rw [hb11]; exact writeBytes_lt_256 _ _ _ c10 hunB
  have c12 : ∀ b ∈ b12, b < 256 := by
    rw [hb12]; exact writeBytes_lt_256 _ _ _ c11 hgnB
  have c13 : ∀ b ∈ b13, b < 256 := by
    rw [hb13]; exact writeBytes_lt_256 _ _ _ c12 (encodeOct_lt_256 _ _)
  have c14 : ∀ b ∈ b14, b < 256 := by
    rw [hb14]; exact writeBytes_lt_256 _ _ _ c13 (encodeOct_lt_256 _ _)
  have c15 : ∀ b ∈ b15, b < 256 := by
    rw [hb15]
    exact writeBytes_lt_256 _ _ _ c14 (fun b hb => by have := hpfx b hb; omega)
  have hck : cksum b15 < 262144 := cksum_lt b15 c15
  have hckI : 0 ≤ ((cksum b15 : Nat) : Int) ∧ ((cksum b15 : Nat) : Int) < (8 : Int) ^ 6 := by
    refine ⟨Int.natCast_nonneg _, ?_⟩
    have h8 : ((8 : Int) ^ 6) = ((262144 : Nat) : Int) := by norm_num
    rw [h8]
    exact_mod_cast hck
  have hck7 : (encodeOct ((cksum b15 : Nat) : Int) 6).length = 7 :=
    length_encodeOct_int _ _ (by omega) hckI
  -- field slices
  have sName : jsSlice B 0 100 = nm ++ List.replicate (100 - nm.length) 0 := by
    rw [hB, jsSlice_writeBytes_outside _ _ _ _ _ (Or.inr (by omega)),
        hb15, jsSlice_writeBytes_outside _ _ _ _ _ (Or.inr (by omega)),
        hb14, jsSlice_writeBytes_outside _ _ _ _ _ (Or.inr (by omega)),
        hb13, jsSlice_writeBytes_outside _ _ _ _ _ (Or.inr (by omega)),
        hb12, jsSlice_writeBytes_outside _ _ _ _ _ (Or.inr (by omega)),
        hb11, jsSlice_writeBytes_outside _ _ _ _ _ (Or.inr (by omega)),
        hb10, jsSlice_writeBytes_outside _ _ _ _ _ (Or.inr (by omega)),
        hb9, jsSlice_writeBytes_outside _ _ _ _ _ (Or.inr (by omega)),
        hb8, jsSlice_writeBytes_outside _ _ _ _ _ (Or.inr (by omega)),
        hb7, jsSlice_set_outside _ _ _ _ _ (Or.inr (by omega)),
        hb6, jsSlice_writeBytes_outside _ _ _ _ _ (Or.inr (by omega)),
        hb5, jsSlice_writeBytes_outside _ _ _ _ _ (Or.inr (by omega)),
        hb4, jsSlice_writeBytes_outside _ _ _ _ _ (Or.inr (by omega)),
        hb3, jsSlice_writeBytes_outside _ _ _ _ _ (Or.inr (by omega)),
        hb2, jsSlice_writeBytes_outside _ _ _ _ _ (Or.inr (by omega)),
        hb1, jsSlice_writeBytes_window _ _ _ _ (by omega) (by omega)]
    congr 1
    simp only [alloc512]
    rw [jsSlice_replicate]
    congr 1
    omega
  have sMode : jsSlice B 100 108 = encodeOct modeV 6 ++ List.replicate 1 0 := by
    rw [hB, jsSlice_writeBytes_outside _ _ _ _ _ (Or.inr (by omega)),
        hb15, jsSlice_writeBytes_outside _ _ _ _ _ (Or.inr (by omega)),
        hb14, jsSlice_writeBytes_outside _ _ _ _ _ (Or.inr (by omega)),
        hb13, jsSlice_writeBytes_outside _ _ _ _ _ (Or.inr (by omega)),
        hb12, jsSlice_writeBytes_outside _ _ _ _ _ (Or.inr (by omega)),
        hb11, jsSlice_writeBytes_outside _ _ _ _ _ (Or.inr (by omega)),
        hb10, jsSlice_writeBytes_outside _ _ _ _ _ (Or.inr (by omega)),
        hb9, jsSlice_writeBytes_outside _ _ _ _ _ (Or.inr (by omega)),
        hb8, jsSlice_writeBytes_outside _ _ _ _ _ (Or.inr (by omega)),
        hb7, jsSlice_set_outside _ _ _ _ _ (Or.inr (by omega)),
        hb6, jsSlice_writeBytes_outside _ _ _ _ _ (Or.inr (by omega)),
        hb5, jsSlice_writeBytes_outside _ _ _ _ _ (Or.inr (by omega)),
        hb4, jsSlice_writeBytes_outside _ _ _ _ _ (Or.inr (by omega)),
        hb3, jsSlice_writeBytes_outside _ _ _ _ _ (Or.inr (by omega)),
        hb2, jsSlice_writeBytes_window _ _ _ _ (by omega) (by omega), hm7,
        show (100 : Nat) + 7 = 107 from rfl]
    have h107 : jsSlice b1 107 108 = [b1.getD 107 0] := jsSlice_singleton b1 107 (by omega)
    have hv107 : b1.getD 107 0 = 0 := by
      rw [hb1, getD_writeBytes, if_neg (by omega), getD_alloc512]
    rw [h107, hv107]
    rfl
  have sUid : jsSlice B 108 116 = encodeOct uidV 6 ++ List.replicate 1 0 := by
    rw [hB, jsSlice_writeBytes_outside _ _ _ _ _ (Or.inr (by omega)),
        hb15, jsSlice_writeBytes_outside _ _ _ _ _ (Or.inr (by omega)),
        hb14, jsSlice_writeBytes_outside _ _ _ _ _ (Or.inr (by omega)),
        hb13, jsSlice_writeBytes_outside _ _ _ _ _ (Or.inr (by omega)),
        hb12, jsSlice_writeBytes_outside _ _ _ _ _ (Or.inr (by omega)),
        hb11, jsSlice_writeBytes_outside _ _ _ _ _ (Or.inr (by omega)),
        hb10, jsSlice_writeBytes_outside _ _ _ _ _ (Or.inr (by omega)),
        hb9, jsSlice_writeBytes_outside _ _ _ _ _ (Or.inr (by omega)),
        hb8, jsSlice_writeBytes_outside _ _ _ _ _ (Or.inr (by omega)),
        hb7, jsSlice_set_outside _ _ _ _ _ (Or.inr (by omega)),
        hb6, jsSlice_writeBytes_outside _ _ _ _ _ (Or.inr (by omega)),
        hb5, jsSlice_writeBytes_outside _ _ _ _ _ (Or.inr (by omega)),
        hb4, jsSlice_writeBytes_outside _ _ _ _ _ (Or.inr (by omega)),
        hb3, jsSlice_writeBytes_window _ _ _ _ (by omega) (by omega), hu7,
        show (108 : Nat) + 7 = 115 from rfl]
    have h115 : jsSlice b2 115 116 = [b2.getD 115 0] := jsSlice_singleton b2 115 (by omega)
    have hv115 : b2.getD 115 0 = 0 := by
      rw [hb2, getD_writeBytes, if_neg (by omega),
          hb1, getD_writeBytes, if_neg (by omega), getD_alloc512]
    rw [h115, hv115]
    rfl
  have sGid : jsSlice B 116 124 = encodeOct gidV 6 ++ List.replicate 1 0 := by
    rw [hB, jsSlice_writeBytes_outside _ _ _ _ _ (Or.inr (by omega)),
        hb15, jsSlice_writeBytes_outside _ _ _ _ _ (Or.inr (by omega)),
        hb14, jsSlice_writeBytes_outside _ _ _ _ _ (Or.inr (by omega)),
        hb13, jsSlice_writeBytes_outside _ _ _ _ _ (Or.inr (by omega)),
        hb12, jsSlice_writeBytes_outside _ _ _ _ _ (Or.inr (by omega)),
        hb11, jsSlice_writeBytes_outside _ _ _ _ _ (Or.inr (by omega)),
        hb10, jsSlice_writeBytes_outside _ _ _ _ _ (Or.inr (by omega)),
        hb9, jsSlice_writeBytes_outside _ _ _ _ _ (Or.inr (by omega)),
        hb8, jsSlice_writeBytes_outside _ _ _ _ _ (Or.inr (by omega)),
        hb7, jsSlice_set_outside _ _ _ _ _ (Or.inr (by omega)),
        hb6, jsSlice_writeBytes_outside _ _ _ _ _ (Or.inr (by omega)),
        hb5, jsSlice_writeBytes_outside _ _ _ _ _ (Or.inr (by omega)),
        hb4, jsSlice_writeBytes_window _ _ _ _ (by omega) (by omega), hg7,
        show (116 : Nat) + 7 = 123 from rfl]
    have h123 : jsSlice b3 123 124 = [b3.getD 123 0] := jsSlice_singleton b3 123 (by omega)
    have hv123 : b3.getD 123 0 = 0 := by
      rw [hb3, getD_writeBytes, if_neg (by omega),
          hb2, getD_writeBytes, if_neg (by omega),
          hb1, getD_writeBytes, if_neg (by omega), getD_alloc512]
    rw [h123, hv123]
    rfl
  have sSize : jsSlice B 124 136 = encodeOct sizeV 11 ++ List.replicate 0 0 := by
    rw [hB, jsSlice_writeBytes_outside _ _ _ _ _ (Or.inr (by omega)),
        hb15, jsSlice_writeBytes_outside _ _ _ _ _ (Or.inr (by omega)),
        hb14, jsSlice_writeBytes_outside _ _ _ _ _ (Or.inr (by omega)),
        hb13, jsSlice_writeBytes_outside _ _ _ _ _ (Or.inr (by omega)),
        hb12, jsSlice_writeBytes_outside _ _ _ _ _ (Or.inr (by omega)),
        hb11, jsSlice_writeBytes_outside _ _ _ _ _ (Or.inr (by omega)),
        hb10, jsSlice_writeBytes_outside _ _ _ _ _ (Or.inr (by omega)),
        hb9, jsSlice_writeBytes_outside _ _ _ _ _ (Or.inr (by omega)),
        hb8, jsSlice_writeBytes_outside _ _ _ _ _ (Or.inr (by omega)),
        hb7, jsSlice_set_outside _ _ _ _ _ (Or.inr (by omega)),
        hb6, jsSlice_writeBytes_outside _ _ _ _ _ (Or.inr (by omega)),
        hb5, jsSlice_writeBytes_window _ _ _ _ (by omega) (by omega), hs12,
        show (124 : Nat) + 12 = 136 from rfl]
    have h136 : jsSlice b4 136 136 = [] :=
      List.eq_nil_of_length_eq_zero (by rw [length_jsSlice]; omega)
    rw [h136]
    rfl
  have sMtime : jsSlice B 136 148 = encodeOct mtimeV 11 ++ List.replicate 0 0 := by
    rw [hB, jsSlice_writeBytes_outside _ _ _ _ _ (Or.inr (by omega)),
        hb15, jsSlice_writeBytes_outside _ _ _ _ _ (Or.inr (by omega)),
        hb14, jsSlice_writeBytes_outside _ _ _ _ _ (Or.inr (by omega)),
        hb13, jsSlice_writeBytes_outside _ _ _ _ _ (Or.inr (by omega)),
        hb12, jsSlice_writeBytes_outside _ _ _ _ _ (Or.inr (by omega)),
        hb11, jsSlice_writeBytes_outside _ _ _ _ _ (Or.inr (by omega)),
        hb10, jsSlice_writeBytes_outside _ _ _ _ _ (Or.inr (by omega)),
        hb9, jsSlice_writeBytes_outside _ _ _ _ _ (Or.inr (by omega)),
        hb8, jsSlice_writeBytes_outside _ _ _ _ _ (Or.inr (by omega)),
        hb7, jsSlice_set_outside _ _ _ _ _ (Or.inr (by omega)),
        hb6, jsSlice_writeBytes_window _ _ _ _ (by omega) (by omega), ht12,
        show (136 : Nat) + 12 = 148 from rfl]
    have h148 : jsSlice b5 148 148 = [] :=
      List.eq_nil_of_length_eq_zero (by rw [length_jsSlice]; omega)
    rw [h148]
    rfl
  have sCk : jsSlice B 148 156 =
      encodeOct ((cksum b15 : Nat) : Int) 6 ++ List.replicate 1 0 := by
    rw [hB, jsSlice_writeBytes_window _ _ _ _ (by omega) (by omega), hck7,
        show (148 : Nat) + 7 = 155 from rfl]
    have h155 : jsSlice b15 155 156 = [b15.getD 155 0] := jsSlice_singleton b15 155 (by omega)
    have hv155 : b15.getD 155 0 = 0 := by
      rw [hb15, getD_writeBytes, if_neg (by omega),
          hb14, getD_writeBytes, if_neg (by omega),
          hb13, getD_writeBytes, if_neg (by omega),
          hb12, getD_writeBytes, if_neg (by omega),
          hb11, getD_writeBytes, if_neg (by omega),
          hb10, getD_writeBytes, if_neg (by omega),
          hb9, getD_writeBytes, if_neg (by omega),
          hb8, getD_writeBytes, if_neg (by omega),
          hb7, getD_set', if_neg (by omega),
          hb6, getD_writeBytes, if_neg (by omega),
          hb5, getD_writeBytes, if_neg (by omega),
          hb4, getD_writeBytes, if_neg (by omega),
          hb3, getD_writeBytes, if_neg (by omega),
          hb2, getD_writeBytes, if_neg (by omega),
          hb1, getD_writeBytes, if_neg (by omega), getD_alloc512]
    rw [h155, hv155]
    rfl
  have sMagic : jsSlice B 257 263 = USTAR_MAGIC := by
    rw [hB, jsSlice_writeBytes_outside _ _ _ _ _ (Or.inl (by omega)),
        hb15, jsSlice_writeBytes_outside _ _ _ _ _ (Or.inr (by omega)),
        hb14, jsSlice_writeBytes_outside _ _ _ _ _ (Or.inr (by omega)),
        hb13, jsSlice_writeBytes_outside _ _ _ _ _ (Or.inr (by omega)),
        hb12, jsSlice_writeBytes_outside _ _ _ _ _ (Or.inr (by omega)),
        hb11, jsSlice_writeBytes_outside _ _ _ _ _ (Or.inr (by omega)),
        hb10, jsSlice_writeBytes_outside _ _ _ _ _ (Or.inr (by omega)),
        hb9]
    have : jsSlice (writeBytes b8 USTAR_MAGIC 257) 257 263 = USTAR_MAGIC :=
      jsSlice_writeBytes_exact b8 USTAR_MAGIC 257 (by omega)
    exact this
  have sLink : jsSlice B 157 257 = ln ++ List.replicate (100 - ln.length) 0 := by
    rw [hB, jsSlice_writeBytes_outside _ _ _ _ _ (Or.inl (by omega)),
        hb15, jsSlice_writeBytes_outside _ _ _ _ _ (Or.inr (by omega)),
        hb14, jsSlice_writeBytes_outside _ _ _ _ _ (Or.inr (by omega)),
        hb13, jsSlice_writeBytes_outside _ _ _ _ _ (Or.inr (by omega)),
        hb12, jsSlice_writeBytes_outside _ _ _ _ _ (Or.inr (by omega)),
        hb11, jsSlice_writeBytes_outside _ _ _ _ _ (Or.inr (by omega)),
        hb10, jsSlice_writeBytes_outside _ _ _ _ _ (Or.inr (by omega)),
        hb9, jsSlice_writeBytes_outside _ _ _ _ _ (Or.inr (by omega)),
        hb8, jsSlice_writeBytes_window _ _ _ _ (by omega) (by omega)]
    congr 1
    rw [hb7, jsSlice_set_outside _ _ _ _ _ (Or.inl (by omega)),
        hb6, jsSlice_writeBytes_outside _ _ _ _ _ (Or.inl (by omega)),
        hb5, jsSlice_writeBytes_outside _ _ _ _ _ (Or.inl (by omega)),
        hb4, jsSlice_writeBytes_outside _ _ _ _ _ (Or.inl (by omega)),
        hb3, jsSlice_writeBytes_outside _ _ _ _ _ (Or.inl (by omega)),
        hb2, jsSlice_writeBytes_outside _ _ _ _ _ (Or.inl (by omega)),
        hb1, jsSlice_writeBytes_outside _ _ _ _ _ (Or.inl (by omega))]
    simp only [alloc512]
    rw [jsSlice_replicate]
    congr 1
    omega
  have sDevM : jsSlice B 329 337 = encodeOct devMV 6 ++ List.replicate 1 0 := by
    rw [hB, jsSlice_writeBytes_outside _ _ _ _ _ (Or.inl (by omega)),
        hb15, jsSlice_writeBytes_outside _ _ _ _ _ (Or.inr (by omega)),
        hb14, jsSlice_writeBytes_outside _ _ _ _ _ (Or.inr (by omega)),
        hb13, jsSlice_writeBytes_window _ _ _ _ (by omega) (by omega), hdM7,
        show (329 : Nat) + 7 = 336 from rfl]
    have h336 : jsSlice b12 336 337 = [b12.getD 336 0] := jsSlice_singleton b12 336 (by omega)
    have hv336 : b12.getD 336 0 = 0 := by
      rw [hb12, getD_writeBytes, if_neg (by omega),
          hb11, getD_writeBytes, if_neg (by omega),
          hb10, getD_writeBytes, if_neg (by omega),
          hb9, getD_writeBytes, if_neg (by omega),
          hb8, getD_writeBytes, if_neg (by omega),
          hb7, getD_set', if_neg (by omega),
          hb6, getD_writeBytes, if_neg (by omega),
          hb5, getD_writeBytes, if_neg (by omega),
          hb4, getD_writeBytes, if_neg (by omega),
          hb3, getD_writeBytes, if_neg (by omega),
          hb2, getD_writeBytes, if_neg (by omega),
          hb1, getD_writeBytes, if_neg (by omega), getD_alloc512]
    rw [h336, hv336]
    rfl
  have sDevm : jsSlice B 337 345 = encodeOct devmV 6 ++ List.replicate 1 0 := by
    rw [hB, jsSlice_writeBytes_outside _ _ _ _ _ (Or.inl (by omega)),
        hb15, jsSlice_writeBytes_outside _ _ _ _ _ (Or.inr (by omega)),
        hb14, jsSlice_writeBytes_window _ _ _ _ (by omega) (by omega), hdm7,
        show (337 : Nat) + 7 = 344 from rfl]
    have h344 : jsSlice b13 344 345 = [b13.getD 344 0] := jsSlice_singleton b13 344 (by omega)
    have hv344 : b13.getD 344 0 = 0 := by
      rw [hb13, getD_writeBytes, if_neg (by omega),
          hb12, getD_writeBytes, if_neg (by omega),
          hb11, getD_writeBytes, if_neg (by omega),
          hb10, getD_writeBytes, if_neg (by omega),
          hb9, getD_writeBytes, if_neg (by omega),
          hb8, getD_writeBytes, if_neg (by omega),
          hb7, getD_set', if_neg (by omega),
          hb6, getD_writeBytes, if_neg (by omega),
          hb5, getD_writeBytes, if_neg (by omega),
          hb4, getD_writeBytes, if_neg (by omega),
          hb3, getD_writeBytes, if_neg (by omega),
          hb2, getD_writeBytes, if_neg (by omega),
          hb1, getD_writeBytes, if_neg (by omega), getD_alloc512]
    rw [h344, hv344]
    rfl
  have sPfx : jsSlice B 345 500 = pfx ++ List.replicate (155 - pfx.length) 0 := by
    rw [hB, jsSlice_writeBytes_outside _ _ _ _ _ (Or.inl (by omega)),
        hb15, jsSlice_writeBytes_window _ _ _ _ (by omega) (by omega)]
    congr 1
    rw [hb14, jsSlice_writeBytes_outside _ _ _ _ _ (Or.inl (by omega)),
        hb13, jsSlice_writeBytes_outside _ _ _ _ _ (Or.inl (by omega)),
        hb12, jsSlice_writeBytes_outside _ _ _ _ _ (Or.inl (by omega)),
        hb11, jsSlice_writeBytes_outside _ _ _ _ _ (Or.inl (by omega)),
        hb10, jsSlice_writeBytes_outside _ _ _ _ _ (Or.inl (by omega)),
        hb9, jsSlice_writeBytes_outside _ _ _ _ _ (Or.inl (by omega)),
        hb8, jsSlice_writeBytes_outside _ _ _ _ _ (Or.inl (by omega)),
        hb7, jsSlice_set_outside _ _ _ _ _ (Or.inl (by omega)),
        hb6, jsSlice_writeBytes_outside _ _ _ _ _ (Or.inl (by omega)),
        hb5, jsSlice_writeBytes_outside _ _ _ _ _ (Or.inl (by omega)),
        hb4, jsSlice_writeBytes_outside _ _ _ _ _ (Or.inl (by omega)),
        hb3, jsSlice_writeBytes_outside _ _ _ _ _ (Or.inl (by omega)),
        hb2, jsSlice_writeBytes_outside _ _ _ _ _ (Or.inl (by omega)),
        hb1, jsSlice_writeBytes_outside _ _ _ _ _ (Or.inl (by omega))]
    simp only [alloc512]
    rw [jsSlice_replicate]
    congr 1
    omega
  have h156 : B.getD 156 0 = tfb := by
    rw [hB, getD_writeBytes, if_neg (by omega),
        hb15, getD_writeBytes, if_neg (by omega),
        hb14, getD_writeBytes, if_neg (by omega),
        hb13, getD_writeBytes, if_neg (by omega),
        hb12, getD_writeBytes, if_neg (by omega),
        hb11, getD_writeBytes, if_neg (by omega),
        hb10, getD_writeBytes, if_neg (by omega),
        hb9, getD_writeBytes, if_neg (by omega),
        hb8, getD_writeBytes, if_neg (by omega),
        hb7, getD_set', if_pos ⟨rfl, by omega⟩]
  -- decoded field values
  have dName : decodeStr B 0 100 = nm :=
    decodeStr_field B 0 100 nm (100 - nm.length) (by rw [sName])
      (by omega) hnm (by omega)
  have dMode : decodeOct B 100 8 = some modeV :=
    decodeOct_field_int B 100 8 modeV 6 1 (by rw [show (100 : Nat) + 8 = 108 from rfl, sMode])
      (by omega) hmode
  have dUid : decodeOct B 108 8 = some uidV :=
    decodeOct_field_int B 108 8 uidV 6 1 (by rw [show (108 : Nat) + 8 = 116 from rfl, sUid])
      (by omega) huid
  have dGid : decodeOct B 116 8 = some gidV :=
    decodeOct_field_int B 116 8 gidV 6 1 (by rw [show (116 : Nat) + 8 = 124 from rfl, sGid])
      (by omega) hgid
  have dSize : decodeOct B 124 12 = some sizeV :=
    decodeOct_field_int B 124 12 sizeV 11 0 (by rw [show (124 : Nat) + 12 = 136 from rfl, sSize])
      (by omega) hsize
  have dMtime : decodeOct B 136 12 = some mtimeV :=
    decodeOct_field_int B 136 12 mtimeV 11 0 (by rw [show (136 : Nat) + 12 = 148 from rfl, sMtime])
      (by omega) hmtime
  have dCk : decodeOct B 148 8 = some ((cksum b15 : Nat) : Int) :=
    decodeOct_field_int B 148 8 _ 6 1 (by rw [show (148 : Nat) + 8 = 156 from rfl, sCk])
      (by omega) hckI
  have dDevM : decodeOct B 329 8 = some devMV :=
    decodeOct_field_int B 329 8 devMV 6 1 (by rw [show (329 : Nat) + 8 = 337 from rfl, sDevM])
      (by omega) hdevM
  have dDevm : decodeOct B 337 8 = some devmV :=
    decodeOct_field_int B 337 8 devmV 6 1 (by rw [show (337 : Nat) + 8 = 345 from rfl, sDevm])
      (by omega) hdevm
  have hcksB : cksum B = cksum b15 := by
    rw [hB]
    exact cksum_skip_writeBytes b15 _ (by omega) hl15
  have hge : 815 ≤ cksum B := cksum_ge_magic B hlB sMagic
  have h157 : B.getD 157 0 = (ln ++ List.replicate (100 - ln.length) 0).getD 0 0 := by
    have hg := getD_jsSlice B 157 257 0 (by omega)
    rw [sLink] at hg
    simpa using hg.symm
  have h345 : B.getD 345 0 = (pfx ++ List.replicate (155 - pfx.length) 0).getD 0 0 := by
    have hg := getD_jsSlice B 345 500 0 (by omega)
    rw [sPfx] at hg
    simpa using hg.symm
  -- assemble decode
  simp only [decode]
  rw [dMode, dUid, dGid, dSize, dMtime, dDevM, dDevm, dName, h156, dCk, hcksB, sMagic]
  rw [if_neg (by omega : ¬cksum b15 = 8 * 32)]
  rw [if_neg (by simp :
    ¬(some ((cksum b15 : Nat) : Int) ≠ some ((cksum b15 : Nat) : Int)))]
  rw [if_neg (by simp :
    ¬(¬USTAR_MAGIC = USTAR_MAGIC ∧ ¬(USTAR_MAGIC = GNU_MAGIC ∧ jsSlice B 263 265 = GNU_VER) ∧
      ¬false = true))]
  have dLink : decodeStr B 157 100 = ln :=
    decodeStr_field B 157 100 ln (100 - ln.length)
      (by rw [show (157 : Nat) + 100 = 257 from rfl, sLink]) (by omega) hln (by omega)
  rw [dLink]
  rw [if_neg (show ¬tfb = 0 by omega)]
  simp only [Option.map_some']
  by_cases hp : pfx = []
  · have h345z : B.getD 345 0 = 0 := by
      rw [h345, hp]
      simp only [List.nil_append]
      rw [List.getD_eq_getElem?_getD, List.getElem?_replicate]
      split <;> rfl
    by_cases hl0 : ln = []
    · have h157z : B.getD 157 0 = 0 := by
        rw [h157, hl0]
        simp only [List.nil_append]
        rw [List.getD_eq_getElem?_getD, List.getElem?_replicate]
        split <;> rfl
      have h345e : B[345]?.getD 0 = 0 := by rw [← List.getD_eq_getElem?_getD]; exact h345z
      have h157e : B[157]?.getD 0 = 0 := by rw [← List.getD_eq_getElem?_getD]; exact h157z
      simp [h345z, h157z, h345e, h157e, hp, hl0]
    · have h157nz : ¬B.getD 157 0 = 0 := by
        rcases List.exists_cons_of_ne_nil hl0 with ⟨c, rest, hcr⟩
        rw [h157, hcr]
        simp only [List.cons_append, List.getD_cons_zero]
        have := hln c (by rw [hcr]; exact List.mem_cons_self ..)
        omega
      have h345e : B[345]?.getD 0 = 0 := by rw [← List.getD_eq_getElem?_getD]; exact h345z
      have h157e : ¬B[157]?.getD 0 = 0 := by rw [← List.getD_eq_getElem?_getD]; exact h157nz
      simp [h345z, h157nz, h345e, h157e, hp, hl0]
  · have hpne : ¬B.getD 345 0 = 0 := by
      rcases List.exists_cons_of_ne_nil hp with ⟨c, rest, hcr⟩
      rw [h345, hcr]
      simp only [List.cons_append, List.getD_cons_zero]
      have := hpfx c (by rw [hcr]; exact List.mem_cons_self ..)
      omega
    have dPfx : decodeStr B 345 155 = pfx :=
      decodeStr_field B 345 155 pfx (155 - pfx.length)
        (by rw [show (345 : Nat) + 155 = 500 from rfl, sPfx]) (by omega) hpfx (by omega)
    by_cases hl0 : ln = []
    · have h157z : B.getD 157 0 = 0 := by
        rw [h157, hl0]
        simp only [List.nil_append]
        rw [List.getD_eq_getElem?_getD, List.getElem?_replicate]
        split <;> rfl
      have h345e : ¬B[345]?.getD 0 = 0 := by rw [← List.getD_eq_getElem?_getD]; exact hpne
      have h157e : B[157]?.getD 0 = 0 := by rw [← List.getD_eq_getElem?_getD]; exact h157z
      simp [hpne, h157z, h345e, h157e, hp, hl0, dPfx]
    · have h157nz : ¬B.getD 157 0 = 0 := by
        rcases List.exists_cons_of_ne_nil hl0 with ⟨c, rest, hcr⟩
        rw [h157, hcr]
        simp only [List.cons_append, List.getD_cons_zero]
        have := hln c (by rw [hcr]; exact List.mem_cons_self ..)
        omega
      have h345e : ¬B[345]?.getD 0 = 0 := by rw [← List.getD_eq_getElem?_getD]; exact hpne
      have h157e : ¬B[157]?.getD 0 = 0 := by rw [← List.getD_eq_getElem?_getD]; exact h157nz
      simp [hpne, h157nz, h345e, h157e, hp, hl0, dPfx]

theorem ifWriteStr (b : List Nat) (s : Option JSStr) (off : Nat) :
    (if strTruthy s then writeStr b (s.getD []) off else b) =
      writeBytes b (utf8Encode (if strTruthy s then s.getD [] else [])) off := by
  by_cases h : strTruthy s
  · simp [h, writeStr]
  · simp only [h, if_false, Bool.false_eq_true, utf8Encode, List.map_nil, List.flatten_nil]
    exact (writeBytes_nil_bytes b off).symm

theorem toTypeflag_le (t : Option TType) : toTypeflag t ≤ 72 := by
  cases t with
  | none => simp [toTypeflag]
  | some tt => cases tt <;> simp [toTypeflag]

theorem toInt32_id (x : Int) (h : 0 ≤ x ∧ x < 2147483648) : toInt32 x = x := by
  simp only [toInt32]
  rw [Int.emod_eq_of_lt h.1 (by omega)]
  rw [if_pos (by omega)]

set_option maxHeartbeats 1000000 in
/-- Encode/decode bridge: for field sets whose name is at most 100 ASCII
bytes, with no typeflag option, an encodable type, well-formed optional
linkname, uname and gname, and the numeric fields other than mode within
their octal field ranges, decoding the encoded block yields name, uid, gid,
size, type, linkname, devmajor and devminor exactly, mtime truncated to
whole seconds, and `mode % 0o10000` in the mode field. -/
theorem encode_decode_fields
    (o : EncodeOpts) (nameE : JSStr)
    (hnameE : nameE = if o.typeflag = some 5 ∧ o.name.getLast? ≠ some 47
      then o.name ++ [47] else o.name)
    (hascii : ∀ c ∈ nameE, 1 ≤ c ∧ c < 128)
    (hn100 : nameE.length ≤ 100)
    (htype : o.type = some TType.file ∨ o.type = some TType.link ∨ o.type = some TType.symlink ∨
      o.type = some TType.characterDevice ∨ o.type = some TType.blockDevice ∨
      o.type = some TType.directory ∨ o.type = some TType.fifo ∨
      o.type = some TType.contiguousFile ∨ o.type = some TType.paxHeader)
    (hlink : o.linkname = none ∨ ∃ l, o.linkname = some l ∧ l ≠ [] ∧ l.length ≤ 100 ∧
      ∀ c ∈ l, 1 ≤ c ∧ c < 128)
    (hun : o.uname = none ∨ ∃ u, o.uname = some u ∧ byteLength u ≤ 32)
    (hgn : o.gname = none ∨ ∃ g, o.gname = some g ∧ byteLength g ≤ 32)
    (huid : 0 ≤ o.uid ∧ o.uid < 262144)
    (hgid : 0 ≤ o.gid ∧ o.gid < 262144)
    (hsize : 0 ≤ o.size ∧ o.size < 8589934592)
    (hmtime : 0 ≤ o.mtimeMs ∧ Int.tdiv o.mtimeMs 1000 < 2147483648)
    (hdevM : ∃ d, o.devmajor = some d ∧ 0 ≤ d ∧ d < 262144)
    (hdevm : ∃ d, o.devminor = some d ∧ 0 ≤ d ∧ d < 262144) :
    ∃ B h, encode o = some B ∧ decode B false = .ok (some h) ∧
      h.name = nameE ∧ h.mode = some (o.mode % 4096) ∧ h.uid = some o.uid ∧
      h.gid = some o.gid ∧
      h.size = o.size ∧ h.mtimeMs = some (1000 * Int.tdiv o.mtimeMs 1000) ∧
      h.type = o.type ∧ h.linkname = o.linkname ∧
      h.devmajor = o.devmajor ∧ h.devminor = o.devminor := by
  obtain ⟨dM, hdMeq, hdM0, hdMlt⟩ := hdevM
  obtain ⟨dm, hdmeq, hdm0, hdmlt⟩ := hdevm
  have hasc : ∀ c ∈ nameE, c < 128 := fun c hc => (hascii c hc).2
  have hbl : byteLength nameE = nameE.length := byteLength_ascii _ hasc
  have hsp : splitName nameE = some ([], nameE) := splitName_short _ (by omega)
  -- the linkname string actually written
  set lnS : JSStr := if strTruthy o.linkname then (o.linkname).getD [] else [] with hlnS
  have hlnAscii : ∀ c ∈ lnS, 1 ≤ c ∧ c < 128 := by
    rcases hlink with hnone | ⟨l, hleq, hlne, hl100, hlb⟩
    · intro c hc
      rw [hlnS, hnone] at hc
      simp [strTruthy] at hc
    · intro c hc
      rw [hlnS, hleq] at hc
      simp only [strTruthy, Option.getD_some] at hc
      rw [if_pos (by simpa using hlne)] at hc
      exact hlb c hc
  have hln100 : lnS.length ≤ 100 := by
    rcases hlink with hnone | ⟨l, hleq, hlne, hl100, hlb⟩
    · rw [hlnS, hnone]
      simp [strTruthy]
    · rw [hlnS, hleq]
      simp only [strTruthy, Option.getD_some]
      rw [if_pos (by simpa using hlne)]
      exact hl100
  have hcond2 : ¬(nameE.length ≠ nameE.length) := by simp
  have hlinkCond : ¬(strTruthy o.linkname = true ∧ byteLength ((o.linkname).getD []) > 100) := by
    rcases hlink with hnone | ⟨l, hleq, hlne, hl100, hlb⟩
    · rw [hnone]
      simp [strTruthy]
    · rw [hleq]
      intro hcon
      have := hcon.2
      simp only [Option.getD_some] at this
      rw [byteLength_ascii l (fun c hc => (hlb c hc).2)] at this
      omega
  simp only [encode, ← hnameE, hbl, if_neg hcond2, hsp]
  have hcond3 : ¬(nameE.length > 100 ∨ byteLength ([] : JSStr) > 155) := by
    simp [byteLength]
    omega
  rw [if_neg hcond3, if_neg hlinkCond]
  simp only [ifWriteStr, ← hlnS]
  have hcond4 : ¬(([] : JSStr) ≠ []) := by simp
  rw [if_neg hcond4]
  simp only [writeStr]
  rw [utf8Encode_ascii _ hasc, utf8Encode_ascii lnS (fun c hc => (hlnAscii c hc).2)]
  have h86 : (8 : Int) ^ 6 = 262144 := by norm_num
  have h811 : (8 : Int) ^ 11 = 8589934592 := by norm_num
  have hunSlen :
      (utf8Encode (if strTruthy o.uname = true then (o.uname).getD [] else [])).length ≤ 32 := by
    rw [length_utf8Encode]
    rcases hun with hnone | ⟨u, hueq, hu32⟩
    · rw [hnone]
      simp [strTruthy, byteLength]
    · rw [hueq]
      by_cases hc : strTruthy (some u) = true
      · rw [if_pos hc]
        simpa using hu32
      · rw [if_neg hc]
        simp [byteLength]
  have hgnSlen :
      (utf8Encode (if strTruthy o.gname = true then (o.gname).getD [] else [])).length ≤ 32 := by
    rw [length_utf8Encode]
    rcases hgn with hnone | ⟨g, hgeq, hg32⟩
    · rw [hnone]
      simp [strTruthy, byteLength]
    · rw [hgeq]
      by_cases hc : strTruthy (some g) = true
      · rw [if_pos hc]
        simpa using hg32
      · rw [if_neg hc]
        simp [byteLength]
  have hmodeR : 0 ≤ o.mode % 4096 ∧ o.mode % 4096 < (8 : Int) ^ 6 := by
    refine ⟨Int.emod_nonneg _ (by norm_num), ?_⟩
    have := Int.emod_lt_of_pos o.mode (show (0 : Int) < 4096 by norm_num)
    omega
  have htd0 : 0 ≤ Int.tdiv o.mtimeMs 1000 := Int.tdiv_nonneg hmtime.1 (by norm_num)
  have hti : toInt32 (Int.tdiv o.mtimeMs 1000) = Int.tdiv o.mtimeMs 1000 :=
    toInt32_id _ ⟨htd0, hmtime.2⟩
  have hmtimeR : 0 ≤ toInt32 (Int.tdiv o.mtimeMs 1000) ∧
      toInt32 (Int.tdiv o.mtimeMs 1000) < (8 : Int) ^ 11 := by
    rw [hti, h811]
    exact ⟨htd0, by omega⟩
  have hdevMR : 0 ≤ (o.devmajor).getD 0 ∧ (o.devmajor).getD 0 < (8 : Int) ^ 6 := by
    rw [hdMeq, Option.getD_some, h86]
    exact ⟨hdM0, by omega⟩
  have hdevmR : 0 ≤ (o.devminor).getD 0 ∧ (o.devminor).getD 0 < (8 : Int) ^ 6 := by
    rw [hdmeq, Option.getD_some, h86]
    exact ⟨hdm0, by omega⟩
  have key := decode_built_block nameE lnS
      (utf8Encode (if strTruthy o.uname = true then (o.uname).getD [] else []))
      (utf8Encode (if strTruthy o.gname = true then (o.gname).getD [] else []))
      []
      (o.mode % 4096) o.uid o.gid o.size (toInt32 (Int.tdiv o.mtimeMs 1000))
      ((o.devmajor).getD 0) ((o.devminor).getD 0) (48 + toTypeflag o.type)
      _ _ _ _ _ _ _ _ _ _ _ _ _ _ _ _
      rfl rfl rfl rfl rfl rfl rfl rfl rfl rfl rfl rfl rfl rfl
      ((writeBytes_nil_bytes _ _).symm) rfl
      hascii hn100 hlnAscii hln100
      (utf8Encode_lt_256 _) hunSlen (utf8Encode_lt_256 _) hgnSlen
      (by simp) (by simp)
      hmodeR ⟨huid.1, by rw [h86]; exact huid.2⟩ ⟨hgid.1, by rw [h86]; exact hgid.2⟩
      ⟨hsize.1, by rw [h811]; exact hsize.2⟩ hmtimeR hdevMR hdevmR
      ⟨by omega, by have := toTypeflag_le o.type; omega⟩
  refine ⟨_, _, rfl, key, ?_, ?_, ?_, ?_, ?_, ?_, ?_, ?_, ?_, ?_⟩
  · simp
  · rfl
  · rfl
  · rfl
  · rfl
  · show some (1000 * toInt32 (Int.tdiv o.mtimeMs 1000)) = some (1000 * Int.tdiv o.mtimeMs 1000)
    rw [hti]
  · show toType (((48 + toTypeflag o.type : Nat) : Int) - 48) = o.type
    rcases htype with h | h | h | h | h | h | h | h | h <;> rw [h] <;> decide
  · show (if lnS = [] then none else some lnS) = o.linkname
    rcases hlink with hnone | ⟨l, hleq, hlne, hl100, hlb⟩
    · have hz : lnS = [] := by
        rw [hlnS, hnone]
        simp [strTruthy]
      rw [hz, if_pos rfl, hnone]
    · have hlS : lnS = l := by
        rw [hlnS, hleq]
        simp only [strTruthy, Option.getD_some]
        rw [if_pos (by simpa using hlne)]
      rw [hlS, if_neg hlne, hleq]
  · show some ((o.devmajor).getD 0) = o.devmajor
    rw [hdMeq, Option.getD_some]
  · show some ((o.devminor).getD 0) = o.devminor
    rw [hdmeq, Option.getD_some]

/-- C1 (amended): for field sets whose name is at most 100 ASCII bytes, with
no typeflag option, an encodable type, well-formed optional linkname, uname
and gname, and every numeric field within its octal field range, decoding
the encoded block reproduces name, mode, uid, gid, size, type, linkname,
devmajor and devminor exactly, and mtime truncated to whole seconds. -/
theorem c1_roundtrip_in_range
    (o : EncodeOpts)
    (hascii : ∀ c ∈ o.name, 1 ≤ c ∧ c < 128)
    (hn100 : o.name.length ≤ 100)
    (htf : o.typeflag = none)
    (htype : o.type = some TType.file ∨ o.type = some TType.link ∨ o.type = some TType.symlink ∨
      o.type = some TType.characterDevice ∨ o.type = some TType.blockDevice ∨
      o.type = some TType.directory ∨ o.type = some TType.fifo ∨
      o.type = some TType.contiguousFile ∨ o.type = some TType.paxHeader)
    (hlink : o.linkname = none ∨ ∃ l, o.linkname = some l ∧ l ≠ [] ∧ l.length ≤ 100 ∧
      ∀ c ∈ l, 1 ≤ c ∧ c < 128)
    (hun : o.uname = none ∨ ∃ u, o.uname = some u ∧ byteLength u ≤ 32)
    (hgn : o.gname = none ∨ ∃ g, o.gname = some g ∧ byteLength g ≤ 32)
    (hmode : 0 ≤ o.mode ∧ o.mode < 4096)
    (huid : 0 ≤ o.uid ∧ o.uid < 262144)
    (hgid : 0 ≤ o.gid ∧ o.gid < 262144)
    (hsize : 0 ≤ o.size ∧ o.size < 8589934592)
    (hmtime : 0 ≤ o.mtimeMs ∧ Int.tdiv o.mtimeMs 1000 < 2147483648)
    (hdevM : ∃ d, o.devmajor = some d ∧ 0 ≤ d ∧ d < 262144)
    (hdevm : ∃ d, o.devminor = some d ∧ 0 ≤ d ∧ d < 262144) :
    ∃ B h, encode o = some B ∧ decode B false = .ok (some h) ∧
      h.name = o.name ∧ h.mode = some o.mode ∧ h.uid = some o.uid ∧ h.gid = some o.gid ∧
      h.size = o.size ∧ h.mtimeMs = some (1000 * Int.tdiv o.mtimeMs 1000) ∧
      h.type = o.type ∧ h.linkname = o.linkname ∧
      h.devmajor = o.devmajor ∧ h.devminor = o.devminor := by
  obtain ⟨B, h, hB, hd, hname, hmodeEq, rest⟩ :=
    encode_decode_fields o o.name (by simp [htf]) hascii hn100 htype hlink hun hgn
      huid hgid hsize hmtime hdevM hdevm
  refine ⟨B, h, hB, hd, hname, ?_, rest⟩
  rw [hmodeEq, Int.emod_eq_of_lt hmode.1 hmode.2]

set_option maxRecDepth 100000 in
/-- Witness for C1: the `hello.txt` option record satisfies every hypothesis
of the round-trip theorem, so its encoded block decodes back to its fields. -/
theorem c1_roundtrip_witness :
    ∃ B h, encode helloOpts = some B ∧ decode B false = .ok (some h) ∧
      h.name = helloOpts.name ∧ h.mode = some helloOpts.mode ∧
      h.uid = some helloOpts.uid ∧ h.gid = some helloOpts.gid ∧
      h.size = helloOpts.size ∧
      h.mtimeMs = some (1000 * Int.tdiv helloOpts.mtimeMs 1000) ∧
      h.type = helloOpts.type ∧ h.linkname = helloOpts.linkname ∧
      h.devmajor = helloOpts.devmajor ∧ h.devminor = helloOpts.devminor :=
  c1_roundtrip_in_range helloOpts (by decide) (by decide) rfl (Or.inl rfl)
    (Or.inl rfl) (Or.inl rfl) (Or.inl rfl) (by decide) (by decide) (by decide)
    (by decide) (by decide) ⟨0, rfl, by decide, by decide⟩
    ⟨0, rfl, by decide, by decide⟩

/-! ## Claim C7 -/

set_option maxRecDepth 100000 in
/-- C7 (code bug): for a block that decode accepts whose typeflag resolves
to 0 (file) and whose name `dir/` ends in the separator, the returned header
still has type `file`, not `directory`: the reinterpretation at
src/headers.ts:350 runs after `type` was already computed at line 311, so
it never reaches the result, contradicting both the spec and the comment
above line 350. -/
theorem c7_trailing_slash_type_stays_file :
    decodedName (decode ((encode c7Opts).getD []) false) = some [100, 105, 114, 47] ∧
    ((encode c7Opts).getD []).getD 156 0 = 48 ∧
    decodedType (decode ((encode c7Opts).getD []) false) = some (some .file) ∧
    some (some TType.directory) ≠ decodedType (decode ((encode c7Opts).getD []) false) := by
  decide

/-! ## Claim C9 -/

set_option maxRecDepth 10000 in
/-- C9 (confirmed): `decodePax (encodePax {path: a/b, pax: {x: y}})` is
exactly the mapping `{path: a/b, x: y}`. The path record reaches `encodePax`
through its `name` option (src/headers.ts:192), which is what emits a
`path=` record. Each emitted record starts with its self-referential decimal
length: the records are 12 and 6 bytes long including their own digits, and
their length prefixes parse to 12 and 6. -/
theorem c9_pax_roundtrip :
    encodePax { name := some [97, 47, 98], pax := some [([120], [121])] } =
      c9Record1 ++ c9Record2 ∧
    decodePax (c9Record1 ++ c9Record2) =
      [([112, 97, 116, 104], [97, 47, 98]), ([120], [121])] ∧
    c9Record1.length = 12 ∧
    jsParseInt 10 (utf8Decode (c9Record1.takeWhile (fun c => c ≠ 32))) = some 12 ∧
    c9Record2.length = 6 ∧
    jsParseInt 10 (utf8Decode (c9Record2.takeWhile (fun c => c ≠ 32))) = some 6 := by
  decide

/-! ## Claim C5 -/

set_option maxRecDepth 400000 in
/-- C5 (counterexample): after feeding one complete, checksum-valid GNU
long-path header block whose declared size is 0, the engine sits at a parse
step whose missing-byte count is 0 while the `_partial` flag is set, and
finalize fails: the claim's characterisation "fails exactly when the
missing-bytes count is non-zero and the partial flag is set" predicts
success here, but the code checks only the flag. -/
theorem c5_finalize_counterexample :
    finalizeFails (feedAll [gnuLP0]) = true ∧
    (feedAll [gnuLP0]).missing = 0 ∧
    (feedAll [gnuLP0]).inStep = true ∧
    (feedAll [gnuLP0]).errored = false := by
  decide

set_option maxRecDepth 400000 in
/-- C5 (amended): finalize fails with "Unexpected end of data" exactly when
the partial flag is set, i.e. when the current parse step has received bytes
(src/extract.ts:269-271 checks only `_partial`); in particular the archive
whose terminator blocks are removed and whose content chunk is cut to 3
bytes fails this way, while the completely delivered archive finalizes
successfully. -/
theorem c5_finalize_iff_partial :
    (∀ st : ESt, finalizeFails st = st.inStep) ∧
    finalizeFails (feedAll [helloArchive]) = false ∧
    (feedAll [helloArchive]).entries =
      [⟨(decode helloBlock false).toOption.join.getD
          { name := [], mode := none, uid := none, gid := none, size := 0,
            mtimeMs := none, type := none, linkname := none, uname := [],
            gname := [], devmajor := none, devminor := none },
        [119, 111, 114, 108, 100]⟩] ∧
    finalizeFails (feedAll [truncatedHello]) = true ∧
    (feedAll [truncatedHello]).missing = 2 ∧
    (feedAll [truncatedHello]).inStep = true := by
  refine ⟨fun st => rfl, ?_⟩
  decide

/-! ## Claim C8 -/

set_option maxRecDepth 100000 in
/-- C8 (counterexample): encode called with `type` directory (and no
`typeflag`) on the name `d`, which lacks a trailing `/`, succeeds but writes
a name field that does not end in `/`: the appending at src/headers.ts:244
tests `opts.typeflag === 5`, not the `type` option. -/
theorem c8_type_directory_no_slash :
    c8Opts.type = some TType.directory ∧
    c8Opts.typeflag = none ∧
    c8Opts.name.getLast? ≠ some 47 ∧
    (encode c8Opts).isSome = true ∧
    decodeStr ((encode c8Opts).getD []) 0 100 = [100] ∧
    (decodeStr ((encode c8Opts).getD []) 0 100).getLast? ≠ some 47 := by
  decide

/-! ## Claim C1 -/

set_option maxRecDepth 100000 in
/-- C1 (counterexample): a field set whose name (`hello.txt`) is well within
100 ASCII bytes but whose uid is `8^6` encodes to a block (the octal field
saturates to all sevens, src/headers.ts:97) that decodes to uid `8^6 - 1`,
so decode∘encode does not reproduce the uid: the claim needs the numeric
fields bounded by their octal field widths. -/
theorem c1_uid_saturation_counterexample :
    byteLength c1CexOpts.name = c1CexOpts.name.length ∧
    c1CexOpts.name.length ≤ 100 ∧
    c1CexOpts.uid = 262144 ∧
    decodedUid (decode ((encode c1CexOpts).getD []) false) = some (some 262143) := by
  decide

/-! ## Claim C6 -/

set_option maxRecDepth 100000 in
/-- C6 (counterexample): the 103-byte ASCII name `/` ++ `a`*100 ++ `/b`
contains `/` boundaries and encodes successfully (prefix `a`*100, remainder
`b`), but the first splitting iteration finds the `/` at index 0 while the
prefix is still empty, so the leading separator is dropped and decode
reassembles `a`*100 ++ `/b`, not the original name. -/
theorem c6_leading_slash_counterexample :
    byteLength c6CexName = c6CexName.length ∧
    c6CexName.length = 103 ∧
    (encode c6CexOpts).isSome = true ∧
    decodedName (decode ((encode c6CexOpts).getD []) false) =
      some (List.replicate 100 97 ++ [47, 98]) ∧
    some c6CexName ≠ decodedName (decode ((encode c6CexOpts).getD []) false) := by
  decide

/-- C10: the mode field of an encoded block stores `mode % 0o10000` (equal to
`mode & 0o7777` for these values), so decode reproduces the supplied mode
exactly when it lies below `0o10000`, and silently drops higher bits
otherwise. -/
theorem c10_mode_masked
    (o : EncodeOpts)
    (hascii : ∀ c ∈ o.name, 1 ≤ c ∧ c < 128)
    (hn100 : o.name.length ≤ 100)
    (htf : o.typeflag = none)
    (htype : o.type = some TType.file ∨ o.type = some TType.link ∨ o.type = some TType.symlink ∨
      o.type = some TType.characterDevice ∨ o.type = some TType.blockDevice ∨
      o.type = some TType.directory ∨ o.type = some TType.fifo ∨
      o.type = some TType.contiguousFile ∨ o.type = some TType.paxHeader)
    (hlink : o.linkname = none ∨ ∃ l, o.linkname = some l ∧ l ≠ [] ∧ l.length ≤ 100 ∧
      ∀ c ∈ l, 1 ≤ c ∧ c < 128)
    (hun : o.uname = none ∨ ∃ u, o.uname = some u ∧ byteLength u ≤ 32)
    (hgn : o.gname = none ∨ ∃ g, o.gname = some g ∧ byteLength g ≤ 32)
    (huid : 0 ≤ o.uid ∧ o.uid < 262144)
    (hgid : 0 ≤ o.gid ∧ o.gid < 262144)
    (hsize : 0 ≤ o.size ∧ o.size < 8589934592)
    (hmtime : 0 ≤ o.mtimeMs ∧ Int.tdiv o.mtimeMs 1000 < 2147483648)
    (hdevM : ∃ d, o.devmajor = some d ∧ 0 ≤ d ∧ d < 262144)
    (hdevm : ∃ d, o.devminor = some d ∧ 0 ≤ d ∧ d < 262144) :
    ∃ B h, encode o = some B ∧ decode B false = .ok (some h) ∧
      h.mode = some (o.mode % 4096) ∧
      (h.mode = some o.mode ↔ 0 ≤ o.mode ∧ o.mode < 4096) := by
  obtain ⟨B, h, hB, hd, _, hmodeEq, _⟩ :=
    encode_decode_fields o o.name (by simp [htf]) hascii hn100 htype hlink hun hgn
      huid hgid hsize hmtime hdevM hdevm
  refine ⟨B, h, hB, hd, hmodeEq, ?_⟩
  rw [hmodeEq]
  constructor
  · intro he
    have h2 : o.mode % 4096 = o.mode := by simpa using he
    have h3 := Int.emod_nonneg o.mode (show (4096 : Int) ≠ 0 by norm_num)
    have h4 := Int.emod_lt_of_pos o.mode (show (0 : Int) < 4096 by norm_num)
    omega
  · intro hr
    rw [Int.emod_eq_of_lt hr.1 hr.2]

set_option maxRecDepth 100000 in
/-- Witness for C10: mode `0o10644` (4516) exceeds the twelve permission
bits; its encoded block decodes to mode `0o644` (420), not the input. -/
theorem c10_mode_masked_witness :
    ∃ B h, encode c10Opts = some B ∧ decode B false = .ok (some h) ∧
      h.mode = some (c10Opts.mode % 4096) ∧
      (h.mode = some c10Opts.mode ↔ 0 ≤ c10Opts.mode ∧ c10Opts.mode < 4096) :=
  c10_mode_masked c10Opts (by decide) (by decide) rfl (Or.inl rfl) (Or.inl rfl)
    (Or.inl rfl) (Or.inl rfl) (by decide) (by decide) (by decide) (by decide)
    ⟨0, rfl, by decide, by decide⟩ ⟨0, rfl, by decide, by decide⟩

/-- C8 (amended): when encode is called with the typeflag option equal to 5
and an ASCII name of at most 99 bytes lacking a trailing `/`, one `/` is
appended to the name before any length checks, and the name field of the
resulting block (hence the decoded name) ends in `/`. -/
theorem c8_typeflag5_appends_slash
    (o : EncodeOpts)
    (htf : o.typeflag = some 5)
    (hascii : ∀ c ∈ o.name, 1 ≤ c ∧ c < 128)
    (hn99 : o.name.length ≤ 99)
    (hnoslash : o.name.getLast? ≠ some 47)
    (htype : o.type = some TType.file ∨ o.type = some TType.link ∨ o.type = some TType.symlink ∨
      o.type = some TType.characterDevice ∨ o.type = some TType.blockDevice ∨
      o.type = some TType.directory ∨ o.type = some TType.fifo ∨
      o.type = some TType.contiguousFile ∨ o.type = some TType.paxHeader)
    (hlink : o.linkname = none ∨ ∃ l, o.linkname = some l ∧ l ≠ [] ∧ l.length ≤ 100 ∧
      ∀ c ∈ l, 1 ≤ c ∧ c < 128)
    (hun : o.uname = none ∨ ∃ u, o.uname = some u ∧ byteLength u ≤ 32)
    (hgn : o.gname = none ∨ ∃ g, o.gname = some g ∧ byteLength g ≤ 32)
    (huid : 0 ≤ o.uid ∧ o.uid < 262144)
    (hgid : 0 ≤ o.gid ∧ o.gid < 262144)
    (hsize : 0 ≤ o.size ∧ o.size < 8589934592)
    (hmtime : 0 ≤ o.mtimeMs ∧ Int.tdiv o.mtimeMs 1000 < 2147483648)
    (hdevM : ∃ d, o.devmajor = some d ∧ 0 ≤ d ∧ d < 262144)
    (hdevm : ∃ d, o.devminor = some d ∧ 0 ≤ d ∧ d < 262144) :
    ∃ B h, encode o = some B ∧ decode B false = .ok (some h) ∧
      h.name = o.name ++ [47] := by
  obtain ⟨B, h, hB, hd, hname, _⟩ :=
    encode_decode_fields o (o.name ++ [47])
      (by rw [htf]; simp [hnoslash])
      (by
        intro c hc
        rcases List.mem_append.mp hc with h1 | h1
        · exact hascii c h1
        · simp at h1
          omega)
      (by simp; omega)
      htype hlink hun hgn huid hgid hsize hmtime hdevM hdevm
  exact ⟨B, h, hB, hd, hname⟩

set_option maxRecDepth 100000 in
/-- Witness for C8: the `hello.txt` options with typeflag 5 encode to a
block whose decoded name is `hello.txt/`. -/
theorem c8_typeflag5_appends_slash_witness :
    ∃ B h, encode c8WitnessOpts = some B ∧ decode B false = .ok (some h) ∧
      h.name = c8WitnessOpts.name ++ [47] :=
  c8_typeflag5_appends_slash c8WitnessOpts rfl (by decide) (by decide) (by decide)
    (Or.inr (Or.inr (Or.inr (Or.inr (Or.inr (Or.inl rfl))))))
    (Or.inl rfl) (Or.inl rfl) (Or.inl rfl)
    (by decide) (by decide) (by decide) (by decide)
    ⟨0, rfl, by decide, by decide⟩ ⟨0, rfl, by decide, by decide⟩

theorem length_encodeOct (v : Int) (n : Nat) : (encodeOct v n).length = n + 1 := by
  simp only [encodeOct]
  split
  · simp
  · rename_i h
    simp only [List.length_append, List.length_replicate, List.length_singleton]
    omega

theorem ifWriteStrC (c : Prop) [inst : Decidable c] (b : List Nat) (p : JSStr) (off : Nat) :
    (if c then writeStr b p off else b) =
      writeBytes b (utf8Encode (if c then p else [])) off := by
  by_cases h : c
  · rw [if_pos h, if_pos h, writeStr]
  · rw [if_neg h, if_neg h]
    have hz : utf8Encode [] = [] := rfl
    rw [hz, writeBytes_nil_bytes]

/-- Structural facts about any block assembled by `encode`'s write chain:
it is 512 bytes of values below 256, its checksum field stores the checksum
of the rest of the block, and that checksum is at least the magic floor. -/
theorem built_block_facts
    (nmB lnB unB gnB pfxB : List Nat)
    (modeV uidV gidV sizeV mtimeV devMV devmV : Int) (tfb : Nat)
    (b1 b2 b3 b4 b5 b6 b7 b8 b9 b10 b11 b12 b13 b14 b15 B : List Nat)
    (hb1 : b1 = writeBytes alloc512 nmB 0)
    (hb2 : b2 = writeBytes b1 (encodeOct modeV 6) 100)
    (hb3 : b3 = writeBytes b2 (encodeOct uidV 6) 108)
    (hb4 : b4 = writeBytes b3 (encodeOct gidV 6) 116)
    (hb5 : b5 = writeBytes b4 (encodeOct sizeV 11) 124)
    (hb6 : b6 = writeBytes b5 (encodeOct mtimeV 11) 136)
    (hb7 : b7 = b6.set 156 tfb)
    (hb8 : b8 = writeBytes b7 lnB 157)
    (hb9 : b9 = writeBytes b8 USTAR_MAGIC 257)
    (hb10 : b10 = writeBytes b9 USTAR_VER 263)
    (hb11 : b11 = writeBytes b10 unB 265)
    (hb12 : b12 = writeBytes b11 gnB 297)
    (hb13 : b13 = writeBytes b12 (encodeOct devMV 6) 329)
    (hb14 : b14 = writeBytes b13 (encodeOct devmV 6) 337)
    (hb15 : b15 = writeBytes b14 pfxB 345)
    (hB : B = writeBytes b15 (encodeOct ((cksum b15 : Nat) : Int) 6) 148)
    (hnmL : nmB.length ≤ 100)
    (hnmb : ∀ b ∈ nmB, b < 256) (hlnb : ∀ b ∈ lnB, b < 256)
    (hunb : ∀ b ∈ unB, b < 256) (hgnb : ∀ b ∈ gnB, b < 256)
    (hpfxb : ∀ b ∈ pfxB, b < 256) (htfb : tfb < 256) :
    B.length = 512 ∧ (∀ b ∈ B, b < 256) ∧
      decodeOct B 148 8 = some ((cksum B : Nat) : Int) ∧ 815 ≤ cksum B := by
  have hm7 : (encodeOct modeV 6).length = 7 := length_encodeOct _ _
  have hu7 : (encodeOct uidV 6).length = 7 := length_encodeOct _ _
  have hg7 : (encodeOct gidV 6).length = 7 := length_encodeOct _ _
  have hs12 : (encodeOct sizeV 11).length = 12 := length_encodeOct _ _
  have ht12 : (encodeOct mtimeV 11).length = 12 := length_encodeOct _ _
  have hdM7 : (encodeOct devMV 6).length = 7 := length_encodeOct _ _
  have hdm7 : (encodeOct devmV 6).length = 7 := length_encodeOct _ _
  have hck7 : (encodeOct ((cksum b15 : Nat) : Int) 6).length = 7 := length_encodeOct _ _
  have hal : alloc512.length = 512 := by simp [alloc512]
  have hl1 : b1.length = 512 := by rw [hb1, length_writeBytes, hal]
  have hl2 : b2.length = 512 := by rw [hb2, length_writeBytes, hl1]
  have hl3 : b3.length = 512 := by rw [hb3, length_writeBytes, hl2]
  have hl4 : b4.length = 512 := by rw [hb4, length_writeBytes, hl3]
  have hl5 : b5.length = 512 := by rw [hb5, length_writeBytes, hl4]
  have hl6 : b6.length = 512 := by rw [hb6, length_writeBytes, hl5]
  have hl7 : b7.length = 512 := by rw [hb7, List.length_set, hl6]
  have hl8 : b8.length = 512 := by rw [hb8, length_writeBytes, hl7]
  have hl9 : b9.length = 512 := by rw [hb9, length_writeBytes, hl8]
  have hl10 : b10.length = 512 := by rw [hb10, length_writeBytes, hl9]
  have hl11 : b11.length = 512 := by rw [hb11, length_writeBytes, hl10]
  have hl12 : b12.length = 512 := by rw [hb12, length_writeBytes, hl11]
  have hl13 : b13.length = 512 := by rw [hb13, length_writeBytes, hl12]
  have hl14 : b14.length = 512 := by rw [hb14, length_writeBytes, hl13]
  have hl15 : b15.length = 512 := by rw [hb15, length_writeBytes, hl14]
  have hlB : B.length = 512 := by rw [hB, length_writeBytes, hl15]
  have hmag6 : USTAR_MAGIC.length = 6 := rfl
  have c1 : ∀ b ∈ b1, b < 256 := by
    rw [hb1]; exact writeBytes_lt_256 _ _ _ alloc512_lt_256 hnmb
  have c2 : ∀ b ∈ b2, b < 256 := by
    rw [hb2]; exact writeBytes_lt_256 _ _ _ c1 (encodeOct_lt_256 _ _)
  have c3 : ∀ b ∈ b3, b < 256 := by
    rw [hb3]; exact writeBytes_lt_256 _ _ _ c2 (encodeOct_lt_256 _ _)
  have c4 : ∀ b ∈ b4, b < 256 := by
    rw [hb4]; exact writeBytes_lt_256 _ _ _ c3 (encodeOct_lt_256 _ _)
  have c5 : ∀ b ∈ b5, b < 256 := by
    rw [hb5]; exact writeBytes_lt_256 _ _ _ c4 (encodeOct_lt_256 _ _)
  have c6 : ∀ b ∈ b6, b < 256 := by
    rw [hb6]; exact writeBytes_lt_256 _ _ _ c5 (encodeOct_lt_256 _ _)
  have c7 : ∀ b ∈ b7, b < 256 := by
    rw [hb7]; exact set_lt_256 _ _ _ c6 htfb
  have c8 : ∀ b ∈ b8, b < 256 := by
    rw [hb8]; exact writeBytes_lt_256 _ _ _ c7 hlnb
  have c9 : ∀ b ∈ b9, b < 256 := by
    rw [hb9]; exact writeBytes_lt_256 _ _ _ c8 (by decide)
  have c10 : ∀ b ∈ b10, b < 256 := by
    rw [hb10]; exact writeBytes_lt_256 _ _ _ c9 (by decide)
  have c11 : ∀ b ∈ b11, b < 256 := by
    rw [hb11]; exact writeBytes_lt_256 _ _ _ c10 hunb
  have c12 : ∀ b ∈ b12, b < 256 := by
    rw [hb12]; exact writeBytes_lt_256 _ _ _ c11 hgnb
  have c13 : ∀ b ∈ b13, b < 256 := by
    rw [hb13]; exact writeBytes_lt_256 _ _ _ c12 (encodeOct_lt_256 _ _)
  have c14 : ∀ b ∈ b14, b < 256 := by
    rw [hb14]; exact writeBytes_lt_256 _ _ _ c13 (encodeOct_lt_256 _ _)
  have c15 : ∀ b ∈ b15, b < 256 := by
    rw [hb15]; exact writeBytes_lt_256 _ _ _ c14 hpfxb
  have cB : ∀ b ∈ B, b < 256 := by
    rw [hB]; exact writeBytes_lt_256 _ _ _ c15 (encodeOct_lt_256 _ _)
  have hckb : cksum b15 < 262144 := cksum_lt b15 c15
  have hckI : 0 ≤ ((cksum b15 : Nat) : Int) ∧ ((cksum b15 : Nat) : Int) < (8 : Int) ^ 6 := by
    refine ⟨Int.natCast_nonneg _, ?_⟩
    have h8 : ((8 : Int) ^ 6) = ((262144 : Nat) : Int) := by norm_num
    rw [h8]
    exact_mod_cast hckb
  have sCk : jsSlice B 148 156 =
      encodeOct ((cksum b15 : Nat) : Int) 6 ++ List.replicate 1 0 := by
    rw [hB, jsSlice_writeBytes_window _ _ _ _ (by omega) (by omega), hck7,
        show (148 : Nat) + 7 = 155 from rfl]
    have h155 : jsSlice b15 155 156 = [b15.getD 155 0] := jsSlice_singleton b15 155 (by omega)
    have hv155 : b15.getD 155 0 = 0 := by
      rw [hb15, getD_writeBytes, if_neg (by omega),
          hb14, getD_writeBytes, if_neg (by omega),
          hb13, getD_writeBytes, if_neg (by omega),
          hb12, getD_writeBytes, if_neg (by omega),
          hb11, getD_writeBytes, if_neg (by omega),
          hb10, getD_writeBytes, if_neg (by omega),
          hb9, getD_writeBytes, if_neg (by omega),
          hb8, getD_writeBytes, if_neg (by omega),
          hb7, getD_set', if_neg (by omega),
          hb6, getD_writeBytes, if_neg (by omega),
          hb5, getD_writeBytes, if_neg (by omega),
          hb4, getD_writeBytes, if_neg (by omega),
          hb3, getD_writeBytes, if_neg (by omega),
          hb2, getD_writeBytes, if_neg (by omega),
          hb1, getD_writeBytes, if_neg (by omega), getD_alloc512]
    rw [h155, hv155]
    rfl
  have dCk : decodeOct B 148 8 = some ((cksum b15 : Nat) : Int) :=
    decodeOct_field_int B 148 8 _ 6 1 (by rw [show (148 : Nat) + 8 = 156 from rfl, sCk])
      (by omega) hckI
  have hcksB : cksum B = cksum b15 := by
    rw [hB]
    exact cksum_skip_writeBytes b15 _ (by omega) hl15
  have sMagic : jsSlice B 257 263 = USTAR_MAGIC := by
    rw [hB, jsSlice_writeBytes_outside _ _ _ _ _ (Or.inl (by omega)),
        hb15, jsSlice_writeBytes_outside _ _ _ _ _ (Or.inr (by omega)),
        hb14, jsSlice_writeBytes_outside _ _ _ _ _ (Or.inr (by omega)),
        hb13, jsSlice_writeBytes_outside _ _ _ _ _ (Or.inr (by omega)),
        hb12, jsSlice_writeBytes_outside _ _ _ _ _ (Or.inr (by omega)),
        hb11, jsSlice_writeBytes_outside _ _ _ _ _ (Or.inr (by omega)),
        hb10, jsSlice_writeBytes_outside _ _ _ _ _ (Or.inr (by omega)),
        hb9]
    exact jsSlice_writeBytes_exact b8 USTAR_MAGIC 257 (by omega)
  have hge : 815 ≤ cksum B := cksum_ge_magic B hlB sMagic
  refine ⟨hlB, cB, ?_, hge⟩
  rw [hcksB]
  exact dCk

/-- Every block `encode` returns satisfies the structural facts of
`built_block_facts`. -/
theorem encode_block_facts (o : EncodeOpts) (B : List Nat) (hB : encode o = some B) :
    B.length = 512 ∧ (∀ b ∈ B, b < 256) ∧
      decodeOct B 148 8 = some ((cksum B : Nat) : Int) ∧ 815 ≤ cksum B := by
  simp only [encode] at hB
  generalize (if o.typeflag = some 5 ∧ o.name.getLast? ≠ some 47
    then o.name ++ [47] else o.name) = nA at hB
  split at hB
  · exact absurd hB (by simp)
  split at hB
  · exact absurd hB (by simp)
  rename_i pfx nm hsp
  split at hB
  · exact absurd hB (by simp)
  rename_i hg2
  split at hB
  · exact absurd hB (by simp)
  rw [Option.some.injEq] at hB
  subst hB
  have hg2' := not_or.mp hg2
  simp only [ifWriteStrC] at *
  simp only [writeStr] at *
  exact built_block_facts
    (utf8Encode nm)
    (utf8Encode (if strTruthy o.linkname = true then (o.linkname).getD [] else []))
    (utf8Encode (if strTruthy o.uname = true then (o.uname).getD [] else []))
    (utf8Encode (if strTruthy o.gname = true then (o.gname).getD [] else []))
    (utf8Encode (if pfx ≠ [] then pfx else []))
    (o.mode % 4096) o.uid o.gid o.size (toInt32 (Int.tdiv o.mtimeMs 1000))
    ((o.devmajor).getD 0) ((o.devminor).getD 0) (48 + toTypeflag o.type)
    _ _ _ _ _ _ _ _ _ _ _ _ _ _ _ _
    rfl rfl rfl rfl rfl rfl rfl rfl rfl rfl rfl rfl rfl rfl rfl rfl
    (by rw [length_utf8Encode]; omega)
    (utf8Encode_lt_256 _) (utf8Encode_lt_256 _) (utf8Encode_lt_256 _)
    (utf8Encode_lt_256 _) (utf8Encode_lt_256 _)
    (by have := toTypeflag_le o.type; omega)

/-- Changing one byte outside the checksum field of a checksum-consistent
512-byte block makes `decode` fail with the invalid-checksum error. -/
theorem decode_mutated (B : List Nat) (hlen : B.length = 512)
    (hbytes : ∀ b ∈ B, b < 256)
    (hst : decodeOct B 148 8 = some ((cksum B : Nat) : Int))
    (hge : 815 ≤ cksum B)
    (k v : Nat) (hk : k < 512) (hreg : k < 148 ∨ 156 ≤ k) (hv : v < 256)
    (hne : v ≠ B.getD k 0) (allow : Bool) :
    decode (B.set k v) allow = .error .invalidChecksum := by
  have hreg' : k < 148 ∨ (156 ≤ k ∧ k < 512) := by
    rcases hreg with h | h
    · exact Or.inl h
    · exact Or.inr ⟨h, hk⟩
  have hset := cksum_set B k v hlen hreg'
  have hold : B.getD k 0 < 256 := by
    have hmem : B.getD k 0 ∈ B := by
      rw [List.getD_eq_getElem B 0 (by omega)]
      exact List.getElem_mem ..
    exact hbytes _ hmem
  have hne1 : cksum (B.set k v) ≠ 8 * 32 := by
    intro he
    rw [he] at hset
    omega
  have hne2 : cksum (B.set k v) ≠ cksum B := by
    intro he
    rw [he] at hset
    omega
  have hst' : decodeOct (B.set k v) 148 8 = some ((cksum B : Nat) : Int) := by
    rw [decodeOct, show (148 : Nat) + 8 = 156 from rfl,
        jsSlice_set_outside _ _ _ _ _ hreg]
    rw [decodeOct, show (148 : Nat) + 8 = 156 from rfl] at hst
    exact hst
  have hcond : decodeOct (B.set k v) 148 8 ≠ some ((cksum (B.set k v) : Nat) : Int) := by
    rw [hst']
    intro he
    have h1 := Option.some.inj he
    have h2 : cksum B = cksum (B.set k v) := by exact_mod_cast h1
    exact hne2 h2.symm
  simp only [decode]
  rw [if_neg hne1, if_pos hcond]

/-- C4: for every block produced by encode and every single-byte mutation at
an offset outside the checksum field (148-155) to a different value, decode
of the mutated block fails with the invalid-checksum error. -/
theorem c4_single_byte_mutation_checksum
    (o : EncodeOpts) (B : List Nat) (hB : encode o = some B)
    (k v : Nat) (allow : Bool)
    (hk : k < 512) (hreg : k < 148 ∨ 156 ≤ k) (hv : v < 256)
    (hne : v ≠ B.getD k 0) :
    decode (B.set k v) allow = .error .invalidChecksum := by
  obtain ⟨hlen, hbytes, hst, hge⟩ := encode_block_facts o B hB
  exact decode_mutated B hlen hbytes hst hge k v hk hreg hv hne allow

set_option maxRecDepth 400000 in
/-- Witness for C4: flipping byte 0 of the `hello.txt` block to 1 makes
decode fail with the invalid-checksum error. -/
theorem c4_single_byte_mutation_witness :
    encode helloOpts = some helloBlock ∧ (0 : Nat) < 512 ∧
      ((0 : Nat) < 148 ∨ 156 ≤ (0 : Nat)) ∧ (1 : Nat) < 256 ∧
      (1 : Nat) ≠ helloBlock.getD 0 0 ∧
      decode (helloBlock.set 0 1) false = .error .invalidChecksum :=
  ⟨by decide, by decide, Or.inl (by decide), by decide, by decide,
    c4_single_byte_mutation_checksum helloOpts helloBlock (by decide) 0 1 false
      (by decide) (Or.inl (by decide)) (by decide) (by decide)⟩

/-! ## Name-splitting loop lemmas (C6) -/

theorem takeWhile_boundary (p : Nat → Bool) (l : List Nat)
    (h : (l.takeWhile p).length ≠ l.length) :
    (l.takeWhile p).length < l.length ∧ p (l.getD (l.takeWhile p).length 0) = false := by
  induction l with
  | nil => simp at h
  | cons c t ih =>
    by_cases hp : p c
    · rw [List.takeWhile_cons_of_pos hp] at h ⊢
      simp only [List.length_cons] at h ⊢
      have ih2 := ih (by omega)
      refine ⟨by omega, ?_⟩
      rw [List.getD_cons_succ]
      exact ih2.2
    · have hpf : p c = false := by
        cases hcc : p c
        · rfl
        · exact absurd hcc hp
      rw [List.takeWhile_cons_of_neg (by rw [hpf]; simp)]
      simp only [List.length_nil, List.getD_cons_zero]
      exact ⟨by simp, hpf⟩

theorem takeWhile_head_pos (p : Nat → Bool) (c : Nat) (t : List Nat) (h : p c = true) :
    1 ≤ ((c :: t).takeWhile p).length := by
  rw [List.takeWhile_cons_of_pos h]
  simp

theorem list_recompose (l : List Nat) (i : Nat) (hi : i < l.length)
    (h47 : l.getD i 0 = 47) : l.take i ++ [47] ++ l.drop (i + 1) = l := by
  have hd : l.drop i = l.getD i 0 :: l.drop (i + 1) := by
    rw [List.getD_eq_getElem l 0 hi]
    exact List.drop_eq_getElem_cons hi
  rw [h47] at hd
  rw [List.append_assoc, List.singleton_append, ← hd, List.take_append_drop]

theorem splitNameLoop_glue (fuel : Nat) :
    ∀ (p n pfx nm : JSStr), splitNameLoop fuel p n = some (pfx, nm) → p ≠ [] →
      pfx ≠ [] ∧ pfx ++ [47] ++ nm = p ++ [47] ++ n := by
  induction fuel with
  | zero =>
    intro p n pfx nm h hp
    exact absurd h (by simp [splitNameLoop])
  | succ f ih =>
    intro p n pfx nm h hp
    simp only [splitNameLoop] at h
    split at h
    · rename_i hlong
      split at h
      · exact absurd h (by simp)
      · rename_i hni
        have hb := takeWhile_boundary (fun c => decide (c ≠ 47)) n hni
        have hlt := hb.1
        have h47 : n.getD ((n.takeWhile (fun c => decide (c ≠ 47))).length) 0 = 47 := by
          have := hb.2
          simp only [decide_eq_false_iff_not, ne_eq, Decidable.not_not] at this
          exact this
        have hrec := list_recompose n _ hlt h47
        have hgl := ih _ _ _ _ h (by simp)
        refine ⟨hgl.1, ?_⟩
        rw [hgl.2]
        simp only [List.append_assoc, List.singleton_append, List.cons_append] at hrec ⊢
        rw [hrec]
    · rename_i hsh
      have h1 := Option.some.inj h
      rw [Prod.ext_iff] at h1
      obtain ⟨h2, h3⟩ := h1
      subst h2
      subst h3
      exact ⟨hp, rfl⟩

theorem splitNameLoop_glue_start (f : Nat) (n pfx nm : JSStr) (hlong : byteLength n > 100)
    (hhead : n.getD 0 0 ≠ 47) (h : splitNameLoop (f + 1) [] n = some (pfx, nm)) :
    pfx ≠ [] ∧ pfx ++ [47] ++ nm = n := by
  have hne : n ≠ [] := by
    intro h0
    rw [h0] at hlong
    simp [byteLength] at hlong
  simp only [splitNameLoop] at h
  rw [if_pos hlong] at h
  split at h
  · exact absurd h (by simp)
  · rename_i hni
    have hi1 : 1 ≤ ((n.takeWhile (fun x => decide (x ≠ 47))).length) := by
      obtain ⟨c, t, rfl⟩ := List.exists_cons_of_ne_nil hne
      have hc47 : c ≠ 47 := by
        intro hc
        rw [hc] at hhead
        simp at hhead
      exact takeWhile_head_pos _ c t (by simp [hc47])
    have hb := takeWhile_boundary (fun x => decide (x ≠ 47)) n hni
    have h47 : n.getD ((n.takeWhile (fun x => decide (x ≠ 47))).length) 0 = 47 := by
      have := hb.2
      simp only [decide_eq_false_iff_not, ne_eq, Decidable.not_not] at this
      exact this
    have hrec := list_recompose n _ hb.1 h47
    have htne : n.take ((n.takeWhile (fun x => decide (x ≠ 47))).length) ≠ [] := by
      intro h0
      have := congrArg List.length h0
      simp only [List.length_take, List.length_nil] at this
      omega
    rw [if_neg (show ¬(([] : JSStr) ≠ []) from by simp)] at h
    have hgl := splitNameLoop_glue _ _ _ _ _ h htne
    refine ⟨hgl.1, ?_⟩
    rw [hgl.2]
    simp only [List.append_assoc, List.singleton_append, List.cons_append] at hrec ⊢
    rw [hrec]

theorem splitName_glue (n pfx nm : JSStr) (hlong : byteLength n > 100)
    (hhead : n.getD 0 0 ≠ 47) (h : splitName n = some (pfx, nm)) :
    pfx ≠ [] ∧ pfx ++ [47] ++ nm = n := by
  rw [splitName] at h
  exact splitNameLoop_glue_start n.length n pfx nm hlong hhead h

theorem splitNameLoop_mem (fuel : Nat) :
    ∀ (p n pfx nm : JSStr), splitNameLoop fuel p n = some (pfx, nm) →
      (∀ c ∈ nm, c ∈ n) ∧ (∀ c ∈ pfx, c ∈ p ∨ c ∈ n ∨ c = 47) := by
  induction fuel with
  | zero =>
    intro p n pfx nm h
    exact absurd h (by simp [splitNameLoop])
  | succ f ih =>
    intro p n pfx nm h
    simp only [splitNameLoop] at h
    split at h
    · split at h
      · exact absurd h (by simp)
      · rename_i hni
        have ih2 := ih _ _ _ _ h
        constructor
        · intro c hc
          exact List.mem_of_mem_drop (ih2.1 c hc)
        · intro c hc
          rcases ih2.2 c hc with hcp | hcn | hc47
          · by_cases hp : p = []
            · rw [if_neg (by simp [hp])] at hcp
              · exact Or.inr (Or.inl (List.mem_of_mem_take hcp))
            · rw [if_pos hp] at hcp
              rcases List.mem_append.mp hcp with hcp2 | hcp2
              · rcases List.mem_append.mp hcp2 with hcp3 | hcp3
                · exact Or.inl hcp3
                · simp at hcp3
                  exact Or.inr (Or.inr hcp3)
              · exact Or.inr (Or.inl (List.mem_of_mem_take hcp2))
          · exact Or.inr (Or.inl (List.mem_of_mem_drop hcn))
          · exact Or.inr (Or.inr hc47)
    · have h1 := Option.some.inj h
      rw [Prod.ext_iff] at h1
      obtain ⟨h2, h3⟩ := h1
      subst h2
      subst h3
      exact ⟨fun c hc => hc, fun c hc => Or.inl hc⟩

theorem splitNameLoop_nm_le (fuel : Nat) :
    ∀ (p n pfx nm : JSStr), splitNameLoop fuel p n = some (pfx, nm) →
      byteLength nm ≤ 100 := by
  induction fuel with
  | zero =>
    intro p n pfx nm h
    exact absurd h (by simp [splitNameLoop])
  | succ f ih =>
    intro p n pfx nm h
    simp only [splitNameLoop] at h
    split at h
    · split at h
      · exact absurd h (by simp)
      · exact ih _ _ _ _ h
    · rename_i hsh
      have h1 := Option.some.inj h
      rw [Prod.ext_iff] at h1
      have h3 : n = nm := h1.2
      subst h3
      omega

set_option maxHeartbeats 1000000 in
/-- C6 (amended): for an ASCII name (with a well-formed field set), encode
fails exactly when the splitting loop finds no `/` to split on, the final
name remainder still exceeds 100 bytes, or the accumulated prefix exceeds
155 bytes; and for every name longer than 100 bytes that does not begin
with `/`, a successful encode decodes back to the original string as
prefix ++ `/` ++ name. -/
theorem c6_split_characterisation
    (o : EncodeOpts)
    (htf : o.typeflag = none)
    (hascii : ∀ c ∈ o.name, 1 ≤ c ∧ c < 128)
    (hlink : o.linkname = none ∨ ∃ l, o.linkname = some l ∧ l ≠ [] ∧ l.length ≤ 100 ∧
      ∀ c ∈ l, 1 ≤ c ∧ c < 128)
    (hun : o.uname = none ∨ ∃ u, o.uname = some u ∧ byteLength u ≤ 32)
    (hgn : o.gname = none ∨ ∃ g, o.gname = some g ∧ byteLength g ≤ 32)
    (huid : 0 ≤ o.uid ∧ o.uid < 262144)
    (hgid : 0 ≤ o.gid ∧ o.gid < 262144)
    (hsize : 0 ≤ o.size ∧ o.size < 8589934592)
    (hmtime : 0 ≤ o.mtimeMs ∧ Int.tdiv o.mtimeMs 1000 < 2147483648)
    (hdevM : ∃ d, o.devmajor = some d ∧ 0 ≤ d ∧ d < 262144)
    (hdevm : ∃ d, o.devminor = some d ∧ 0 ≤ d ∧ d < 262144) :
    (encode o = none ↔ splitName o.name = none ∨
      ∃ pfx nm, splitName o.name = some (pfx, nm) ∧
        (byteLength nm > 100 ∨ byteLength pfx > 155)) ∧
    (100 < byteLength o.name → o.name.getD 0 0 ≠ 47 →
      ∀ B, encode o = some B →
        ∃ h, decode B false = .ok (some h) ∧ h.name = o.name) := by
  obtain ⟨dM, hdMeq, hdM0, hdMlt⟩ := hdevM
  obtain ⟨dm, hdmeq, hdm0, hdmlt⟩ := hdevm
  have hasc : ∀ c ∈ o.name, c < 128 := fun c hc => (hascii c hc).2
  have hbl : byteLength o.name = o.name.length := byteLength_ascii _ hasc
  have hcond1 : ¬((none : Option Int) = some 5 ∧ o.name.getLast? ≠ some 47) := by simp
  have hcond2 : ¬(byteLength o.name ≠ o.name.length) := by
    rw [hbl]
    simp
  have hlinkCond : ¬(strTruthy o.linkname = true ∧ byteLength ((o.linkname).getD []) > 100) := by
    rcases hlink with hnone | ⟨l, hleq, hlne, hl100, hlb⟩
    · rw [hnone]
      simp [strTruthy]
    · rw [hleq]
      intro hcon
      have := hcon.2
      simp only [Option.getD_some] at this
      rw [byteLength_ascii l (fun c hc => (hlb c hc).2)] at this
      omega
  constructor
  · rcases hsp : splitName o.name with _ | ⟨pfx, nm⟩
    · constructor
      · intro _
        exact Or.inl rfl
      · intro _
        simp only [encode, htf, if_neg hcond1, if_neg hcond2, hsp]
    · constructor
      · intro hnone
        by_cases hdisc : byteLength nm > 100 ∨ byteLength pfx > 155
        · exact Or.inr ⟨pfx, nm, rfl, hdisc⟩
        · exfalso
          simp only [encode, htf, if_neg hcond1, if_neg hcond2, hsp, if_neg hdisc,
            if_neg hlinkCond] at hnone
          exact Option.noConfusion hnone
      · intro hdisj
        rcases hdisj with hnone2 | ⟨pfx2, nm2, hsp2, hdisc⟩
        · exact Option.noConfusion hnone2
        · have h12 := Option.some.inj hsp2
          rw [Prod.ext_iff] at h12
          have he1 : pfx = pfx2 := h12.1
          have he2 : nm = nm2 := h12.2
          subst he1
          subst he2
          simp only [encode, htf, if_neg hcond1, if_neg hcond2, hsp, if_pos hdisc]
  · intro hlong hhead B hB
    simp only [encode, htf, if_neg hcond1, if_neg hcond2] at hB
    split at hB
    · exact absurd hB (by simp)
    rename_i pfx nm hsp
    split at hB
    · exact absurd hB (by simp)
    rename_i hg2
    rw [Option.some.injEq] at hB
    subst hB
    obtain ⟨hpne, hglue⟩ := splitName_glue o.name pfx nm hlong hhead hsp
    have hmem := splitNameLoop_mem (o.name.length + 1) [] o.name pfx nm
      (by rw [splitName] at hsp; exact hsp)
    have hnmM : ∀ c ∈ nm, 1 ≤ c ∧ c < 128 := fun c hc => hascii c (hmem.1 c hc)
    have hpfxM : ∀ c ∈ pfx, 1 ≤ c ∧ c < 128 := by
      intro c hc
      rcases hmem.2 c hc with h0 | h0 | h0
      · exact absurd h0 (List.not_mem_nil c)
      · exact hascii c h0
      · subst h0
        omega
    have hg2' := not_or.mp hg2
    have hnm100 : nm.length ≤ 100 := by
      rw [← byteLength_ascii nm (fun c hc => (hnmM c hc).2)]
      omega
    have hpfx155 : pfx.length ≤ 155 := by
      rw [← byteLength_ascii pfx (fun c hc => (hpfxM c hc).2)]
      omega
    set lnS : JSStr := if strTruthy o.linkname then (o.linkname).getD [] else [] with hlnS
    have hlnAscii : ∀ c ∈ lnS, 1 ≤ c ∧ c < 128 := by
      rcases hlink with hnone | ⟨l, hleq, hlne, hl100, hlb⟩
      · intro c hc
        rw [hlnS, hnone] at hc
        simp [strTruthy] at hc
      · intro c hc
        rw [hlnS, hleq] at hc
        simp only [strTruthy, Option.getD_some] at hc
        rw [if_pos (by simpa using hlne)] at hc
        exact hlb c hc
    have hln100 : lnS.length ≤ 100 := by
      rcases hlink with hnone | ⟨l, hleq, hlne, hl100, hlb⟩
      · rw [hlnS, hnone]
        simp [strTruthy]
      · rw [hlnS, hleq]
        simp only [strTruthy, Option.getD_some]
        rw [if_pos (by simpa using hlne)]
        exact hl100
    rw [if_pos hpne]
    simp only [ifWriteStr, ← hlnS]
    simp only [writeStr]
    rw [utf8Encode_ascii nm (fun c hc => (hnmM c hc).2),
        utf8Encode_ascii pfx (fun c hc => (hpfxM c hc).2),
        utf8Encode_ascii lnS (fun c hc => (hlnAscii c hc).2)]
    have h86 : (8 : Int) ^ 6 = 262144 := by norm_num
    have h811 : (8 : Int) ^ 11 = 8589934592 := by norm_num
    have hunSlen :
        (utf8Encode (if strTruthy o.uname = true then (o.uname).getD [] else [])).length ≤ 32 := by
      rw [length_utf8Encode]
      rcases hun with hnone | ⟨u, hueq, hu32⟩
      · rw [hnone]
        simp [strTruthy, byteLength]
      · rw [hueq]
        by_cases hc : strTruthy (some u) = true
        · rw [if_pos hc]
          simpa using hu32
        · rw [if_neg hc]
          simp [byteLength]
    have hgnSlen :
        (utf8Encode (if strTruthy o.gname = true then (o.gname).getD [] else [])).length ≤ 32 := by
      rw [length_utf8Encode]
      rcases hgn with hnone | ⟨g, hgeq, hg32⟩
      · rw [hnone]
        simp [strTruthy, byteLength]
      · rw [hgeq]
        by_cases hc : strTruthy (some g) = true
        · rw [if_pos hc]
          simpa using hg32
        · rw [if_neg hc]
          simp [byteLength]
    have hmodeR : 0 ≤ o.mode % 4096 ∧ o.mode % 4096 < (8 : Int) ^ 6 := by
      refine ⟨Int.emod_nonneg _ (by norm_num), ?_⟩
      have := Int.emod_lt_of_pos o.mode (show (0 : Int) < 4096 by norm_num)
      omega
    have htd0 : 0 ≤ Int.tdiv o.mtimeMs 1000 := Int.tdiv_nonneg hmtime.1 (by norm_num)
    have hmtimeR : 0 ≤ toInt32 (Int.tdiv o.mtimeMs 1000) ∧
        toInt32 (Int.tdiv o.mtimeMs 1000) < (8 : Int) ^ 11 := by
      rw [toInt32_id _ ⟨htd0, hmtime.2⟩, h811]
      exact ⟨htd0, by omega⟩
    have hdevMR : 0 ≤ (o.devmajor).getD 0 ∧ (o.devmajor).getD 0 < (8 : Int) ^ 6 := by
      rw [hdMeq, Option.getD_some, h86]
      exact ⟨hdM0, by omega⟩
    have hdevmR : 0 ≤ (o.devminor).getD 0 ∧ (o.devminor).getD 0 < (8 : Int) ^ 6 := by
      rw [hdmeq, Option.getD_some, h86]
      exact ⟨hdm0, by omega⟩
    have key := decode_built_block nm lnS
        (utf8Encode (if strTruthy o.uname = true then (o.uname).getD [] else []))
        (utf8Encode (if strTruthy o.gname = true then (o.gname).getD [] else []))
        pfx
        (o.mode % 4096) o.uid o.gid o.size (toInt32 (Int.tdiv o.mtimeMs 1000))
        ((o.devmajor).getD 0) ((o.devminor).getD 0) (48 + toTypeflag o.type)
        _ _ _ _ _ _ _ _ _ _ _ _ _ _ _ _
        rfl rfl rfl rfl rfl rfl rfl rfl rfl rfl rfl rfl rfl rfl rfl rfl
        hnmM hnm100 hlnAscii hln100
        (utf8Encode_lt_256 _) hunSlen (utf8Encode_lt_256 _) hgnSlen
        hpfxM hpfx155
        hmodeR ⟨huid.1, by rw [h86]; exact huid.2⟩ ⟨hgid.1, by rw [h86]; exact hgid.2⟩
        ⟨hsize.1, by rw [h811]; exact hsize.2⟩ hmtimeR hdevMR hdevmR
        ⟨by omega, by have := toTypeflag_le o.type; omega⟩
    refine ⟨_, key, ?_⟩
    show (if pfx = [] then nm else pfx ++ [47] ++ nm) = o.name
    rw [if_neg hpne]
    exact hglue

set_option maxRecDepth 400000 in
/-- Witness for C6: the 131-byte name splits into a 120-byte prefix and a
10-byte remainder, encodes, and decodes back to the original name. -/
theorem c6_split_characterisation_witness :
    ((encode c6WitnessOpts = none ↔ splitName c6WitnessOpts.name = none ∨
      ∃ pfx nm, splitName c6WitnessOpts.name = some (pfx, nm) ∧
        (byteLength nm > 100 ∨ byteLength pfx > 155)) ∧
    (100 < byteLength c6WitnessOpts.name → (c6WitnessOpts.name).getD 0 0 ≠ 47 →
      ∀ B, encode c6WitnessOpts = some B →
        ∃ h, decode B false = .ok (some h) ∧ h.name = c6WitnessOpts.name)) :=
  c6_split_characterisation c6WitnessOpts rfl (by decide) (Or.inl rfl) (Or.inl rfl)
    (Or.inl rfl) (by decide) (by decide) (by decide) (by decide)
    ⟨0, rfl, by decide, by decide⟩ ⟨0, rfl, by decide, by decide⟩

/-! ## Engine lemmas (C2, C3) -/

theorem fireHandler_c3 (st : ESt)
    (hopen0 : st.openCount = 0)
    (hso : st.streamOpen = true → st.onparse = PState.pstreamend)
    (hwait : st.waiting = none)
    (hlock : st.locked = true → st.onparse = PState.pstreamend ∧ st.streamOpen = true) :
    (fireHandler false st).1.openCount ≤ 1 ∧
    ((fireHandler false st).1.streamOpen = true →
      (fireHandler false st).1.openCount = 1 ∧
      (fireHandler false st).1.onparse = PState.pstreamend) ∧
    ((fireHandler false st).1.streamOpen = false → (fireHandler false st).1.openCount = 0) ∧
    ((fireHandler false st).2 = true → (fireHandler false st).1.locked = true →
      (fireHandler false st).1.onparse = PState.pstreamend ∧
      (fireHandler false st).1.streamOpen = true) ∧
    (fireHandler false st).1.waiting = none := by
  cases hop : st.onparse with
  | pheader =>
    have hsoF : st.streamOpen = false := by
      cases hs2 : st.streamOpen
      · rfl
      · have := hso hs2
        rw [hop] at this
        exact absurd this (by decide)
    have hlF : st.locked = false := by
      cases hl2 : st.locked
      · rfl
      · have := (hlock hl2).1
        rw [hop] at this
        exact absurd this (by decide)
    simp only [fireHandler, hop]
    rcases hdec : decode (st.buffer.take 512) false with e | o
    · simp [parseArm, hsoF, hopen0, hwait, hlF]
    · cases o with
      | none => simp [parseArm, hsoF, hopen0, hwait, hlF]
      | some h0 =>
        simp only
        split
        · simp [parseArm, hsoF, hopen0, hwait, hlF]
        · split
          · simp [parseArm, hsoF, hopen0, hwait, hlF]
          · split
            · simp [parseArm, hsoF, hopen0, hwait, hlF]
            · split
              · simp [parseArm, hsoF, hopen0, hwait, hlF]
              · split
                · simp [parseArm, hsoF, hopen0, hwait, hlF]
                · simp [parseArm, hsoF, hopen0, hwait, hlF]
  | pgnulongpath =>
    have hsoF : st.streamOpen = false := by
      cases hs2 : st.streamOpen
      · rfl
      · have := hso hs2
        rw [hop] at this
        exact absurd this (by decide)
    have hlF : st.locked = false := by
      cases hl2 : st.locked
      · rfl
      · have := (hlock hl2).1
        rw [hop] at this
        exact absurd this (by decide)
    simp only [fireHandler, hop, streamEnd]
    split <;> simp [parseArm, hsoF, hopen0, hwait, hlF]
  | pgnulonglinkpath =>
    have hsoF : st.streamOpen = false := by
      cases hs2 : st.streamOpen
      · rfl
      · have := hso hs2
        rw [hop] at this
        exact absurd this (by decide)
    have hlF : st.locked = false := by
      cases hl2 : st.locked
      · rfl
      · have := (hlock hl2).1
        rw [hop] at this
        exact absurd this (by decide)
    simp only [fireHandler, hop, streamEnd]
    split <;> simp [parseArm, hsoF, hopen0, hwait, hlF]
  | ppaxglobal =>
    have hsoF : st.streamOpen = false := by
      cases hs2 : st.streamOpen
      · rfl
      · have := hso hs2
        rw [hop] at this
        exact absurd this (by decide)
    have hlF : st.locked = false := by
      cases hl2 : st.locked
      · rfl
      · have := (hlock hl2).1
        rw [hop] at this
        exact absurd this (by decide)
    simp only [fireHandler, hop, streamEnd]
    split <;> simp [parseArm, hsoF, hopen0, hwait, hlF]
  | ppax =>
    have hsoF : st.streamOpen = false := by
      cases hs2 : st.streamOpen
      · rfl
      · have := hso hs2
        rw [hop] at this
        exact absurd this (by decide)
    have hlF : st.locked = false := by
      cases hl2 : st.locked
      · rfl
      · have := (hlock hl2).1
        rw [hop] at this
        exact absurd this (by decide)
    simp only [fireHandler, hop, streamEnd]
    split <;> simp [parseArm, hsoF, hopen0, hwait, hlF]
  | pstreamend =>
    simp only [fireHandler, hop, streamEnd]
    cases hl2 : st.locked <;>
      split <;> simp [parseArm, hopen0, hwait, hl2]
  | pdrain =>
    have hsoF : st.streamOpen = false := by
      cases hs2 : st.streamOpen
      · rfl
      · have := hso hs2
        rw [hop] at this
        exact absurd this (by decide)
    have hlF : st.locked = false := by
      cases hl2 : st.locked
      · rfl
      · have := (hlock hl2).1
        rw [hop] at this
        exact absurd this (by decide)
    simp [fireHandler, hop, parseArm, hsoF, hopen0, hwait, hlF]

theorem deliver_proj (st : ESt) (d : List Nat) :
    (deliver st d).openCount = st.openCount ∧ (deliver st d).streamOpen = st.streamOpen ∧
    (deliver st d).onparse = st.onparse ∧ (deliver st d).locked = st.locked ∧
    (deliver st d).waiting = st.waiting := by
  unfold deliver
  split <;> exact ⟨rfl, rfl, rfl, rfl, rfl⟩

theorem c3Inv_of_proj (a b : ESt) (hoc : a.openCount = b.openCount)
    (hso : a.streamOpen = b.streamOpen) (hop : a.onparse = b.onparse)
    (hl : a.locked = b.locked) (hwt : a.waiting = b.waiting) (h : c3Inv b) : c3Inv a := by
  rw [c3Inv, hoc, hso, hop, hl, hwt]
  exact h

theorem after_fire_c3 (f : Nat)
    (ih : ∀ st d, c3Inv st → st.waiting = none → c3Inv (writeChunk false f st d))
    (st1 : ESt) (rest : List Nat)
    (hopen0 : st1.openCount = 0)
    (hso : st1.streamOpen = true → st1.onparse = PState.pstreamend)
    (hwait : st1.waiting = none)
    (hlock : st1.locked = true → st1.onparse = PState.pstreamend ∧ st1.streamOpen = true) :
    c3Inv (if (fireHandler false st1).2 = true then
      (if rest.isEmpty then (fireHandler false st1).1
       else writeChunk false f (fireHandler false st1).1 rest)
      else { (fireHandler false st1).1 with waiting := some rest }) := by
  obtain ⟨F1, F2, F3, F4, F5⟩ := fireHandler_c3 st1 hopen0 hso hwait hlock
  split
  · rename_i hcont
    split
    · exact ⟨F1, F2, F3, fun hl _ => F4 hcont hl⟩
    · exact ih _ _ ⟨F1, F2, F3, fun hl _ => F4 hcont hl⟩ F5
  · refine ⟨F1, F2, F3, ?_⟩
    intro hl hw
    exact absurd hw (by simp)

theorem writeChunk_c3inv (fuel : Nat) :
    ∀ (st : ESt) (d : List Nat), c3Inv st → st.waiting = none →
      c3Inv (writeChunk false fuel st d) := by
  induction fuel with
  | zero =>
    intro st d h hw
    exact h
  | succ f ih =>
    intro st d h hw
    obtain ⟨h1, h2, h3, h4⟩ := h
    simp only [writeChunk]
    split
    · -- data nonempty: the partial flag is set
      split
      · exact c3Inv_of_proj _ st (deliver_proj _ _).1 (deliver_proj _ _).2.1
          (deliver_proj _ _).2.2.1 (deliver_proj _ _).2.2.2.1 (deliver_proj _ _).2.2.2.2
          ⟨h1, h2, h3, h4⟩
      · refine after_fire_c3 f ih _ _ ?_ ?_ ?_ ?_
        · unfold wcStep1
          split
          · rename_i hso2
            have := (h2 hso2).1
            simp only [ESt.openCount]
            omega
          · rename_i hso2
            simp only [Bool.not_eq_true] at hso2
            exact h3 hso2
        · unfold wcStep1
          split
          · rename_i hso2
            intro _
            exact (h2 hso2).2
          · rename_i hso2
            intro hcon
            exact absurd hcon (by simp_all)
        · unfold wcStep1
          split
          · exact hw
          · exact hw
        · unfold wcStep1
          split
          · intro hl
            exact ⟨(h4 hl hw).1, (h4 hl hw).2⟩
          · intro hl
            exact ⟨(h4 hl hw).1, (h4 hl hw).2⟩
    · -- data empty
      split
      · exact c3Inv_of_proj _ st (deliver_proj _ _).1 (deliver_proj _ _).2.1
          (deliver_proj _ _).2.2.1 (deliver_proj _ _).2.2.2.1 (deliver_proj _ _).2.2.2.2
          ⟨h1, h2, h3, h4⟩
      · refine after_fire_c3 f ih _ _ ?_ ?_ ?_ ?_
        · unfold wcStep1
          split
          · rename_i hso2
            have := (h2 hso2).1
            simp only [ESt.openCount]
            omega
          · rename_i hso2
            simp only [Bool.not_eq_true] at hso2
            exact h3 hso2
        · unfold wcStep1
          split
          · rename_i hso2
            intro _
            exact (h2 hso2).2
          · rename_i hso2
            intro hcon
            exact absurd hcon (by simp_all)
        · unfold wcStep1
          split
          · exact hw
          · exact hw
        · unfold wcStep1
          split
          · intro hl
            exact ⟨(h4 hl hw).1, (h4 hl hw).2⟩
          · intro hl
            exact ⟨(h4 hl hw).1, (h4 hl hw).2⟩

theorem writeChunk_succ (a : Bool) (f : Nat) (st : ESt) (d : List Nat) :
    writeChunk a (f + 1) st d =
      (let st := if d.length ≠ 0 then { st with inStep := true } else st
       if d.length < st.missing then
         deliver { st with missing := st.missing - d.length } d
       else
         let hd := d.take st.missing
         let rest := d.drop st.missing
         let fired := fireHandler a (wcStep1 st hd)
         if fired.2 then
           if rest.isEmpty then fired.1
           else writeChunk a f fired.1 rest
         else { fired.1 with waiting := some rest }) := rfl

theorem wcStep1_proj (st : ESt) (hd : List Nat) :
    (wcStep1 st hd).locked = st.locked ∧ (wcStep1 st hd).missing = 0 ∧
    (wcStep1 st hd).onparse = st.onparse ∧ (wcStep1 st hd).stuck = st.stuck ∧
    (wcStep1 st hd).waiting = st.waiting ∧ (wcStep1 st hd).errored = st.errored ∧
    (wcStep1 st hd).streamOpen = st.streamOpen := by
  unfold wcStep1
  split <;> exact ⟨rfl, rfl, rfl, rfl, rfl, rfl, rfl⟩

theorem ackEvent_c3inv (st : ESt) (h : c3Inv st) : c3Inv (ackEvent st) := by
  obtain ⟨h1, h2, h3, h4⟩ := h
  simp only [ackEvent]
  split
  · exact ⟨h1, h2, h3, fun hl _ => absurd hl (by simp)⟩
  · split
    · exact writeChunk_c3inv _ _ _ ⟨h1, h2, h3, fun hl _ => absurd hl (by simp)⟩ rfl
    · exact ⟨h1, h2, h3, fun hl _ => absurd hl (by simp)⟩

theorem reach_c3Inv (st : ESt) (h : Reach st) : c3Inv st := by
  induction h with
  | init => exact ⟨by decide, by decide, by decide, by decide⟩
  | write st' d hr hw he ih => exact writeChunk_c3inv _ st' d ih hw
  | ack st' hr ih => exact ackEvent_c3inv st' ih

/-- C3: in every reachable state of the event-driven engine at most one
content source is open, and while an emitted entry is unacknowledged (the
lock is held, with no remainder already parked) a further write decodes no
header block and leaves the engine locked. -/
theorem c3_single_entry_lock (st : ESt) (hr : Reach st) (d : List Nat) :
    st.openCount ≤ 1 ∧
    (st.locked = true → st.waiting = none →
      (writeEvent st d).log.count EAct.decoded = st.log.count EAct.decoded ∧
      (writeEvent st d).locked = true) := by
  obtain ⟨h1, h2, h3, h4⟩ := reach_c3Inv st hr
  refine ⟨h1, ?_⟩
  intro hl hw
  obtain ⟨hps, hso⟩ := h4 hl hw
  rw [writeEvent, show chunkFuel d = (2 * d.length + 1) + 1 from rfl, writeChunk_succ]
  simp only
  split
  · split
    · simp [deliver, hso, hl]
    · simp only [wcStep1, hso, if_true, fireHandler, hps, streamEnd, parseArm, hl]
      split <;> simp [List.count_append, hl]
  · split
    · simp [deliver, hso, hl]
    · simp only [wcStep1, hso, if_true, fireHandler, hps, streamEnd, parseArm, hl]
      split <;> simp [List.count_append, hl]

/-- Witness for C3: after the `hello.txt` header block is written, an entry
is in flight (the engine is locked), and the theorem applies to that
reachable state. -/
theorem c3_single_entry_lock_witness :
    (writeEvent initSt helloBlock).openCount ≤ 1 ∧
    ((writeEvent initSt helloBlock).locked = true →
      (writeEvent initSt helloBlock).waiting = none →
      (writeEvent (writeEvent initSt helloBlock) [0]).log.count EAct.decoded =
        (writeEvent initSt helloBlock).log.count EAct.decoded ∧
      (writeEvent (writeEvent initSt helloBlock) [0]).locked = true) :=
  c3_single_entry_lock (writeEvent initSt helloBlock)
    (Reach.write initSt helloBlock Reach.init rfl rfl) [0]

theorem setInStep_self (st : ESt) (h : st.inStep = true) : { st with inStep := true } = st := by
  cases st
  simp_all

theorem appendToLast_append (es : List Entry) (a b : List Nat) :
    appendToLast (appendToLast es a) b = appendToLast es (a ++ b) := by
  induction es with
  | nil => rfl
  | cons e rest ih =>
    cases rest with
    | nil => simp [appendToLast, List.append_assoc]
    | cons e2 rest2 =>
      obtain ⟨y, ys, hys⟩ : ∃ y ys, appendToLast (e2 :: rest2) a = y :: ys := by
        cases rest2
        · exact ⟨_, _, rfl⟩
        · exact ⟨_, _, rfl⟩
      calc appendToLast (appendToLast (e :: e2 :: rest2) a) b
          = appendToLast (e :: appendToLast (e2 :: rest2) a) b := rfl
        _ = appendToLast (e :: y :: ys) b := by rw [hys]
        _ = e :: appendToLast (y :: ys) b := rfl
        _ = e :: appendToLast (appendToLast (e2 :: rest2) a) b := by rw [hys]
        _ = e :: appendToLast (e2 :: rest2) (a ++ b) := by rw [ih]
        _ = appendToLast (e :: e2 :: rest2) (a ++ b) := rfl

theorem deliver_proj2 (st : ESt) (d : List Nat) :
    (deliver st d).missing = st.missing ∧ (deliver st d).inStep = st.inStep ∧
    (deliver st d).stuck = st.stuck ∧ (deliver st d).errored = st.errored ∧
    (deliver st d).onparse = st.onparse ∧ (deliver st d).streamOpen = st.streamOpen ∧
    (deliver st d).locked = st.locked ∧ (deliver st d).waiting = st.waiting := by
  unfold deliver
  split <;> exact ⟨rfl, rfl, rfl, rfl, rfl, rfl, rfl, rfl⟩

/-- Behaviour of one handler fire for the auto-acknowledging consumer: the
callback always reaches `oncontinue`, leaves the lock clear, keeps the
parked-remainder and stuck fields, arms a non-empty step whenever the fired
step was not `onheader`, and never arms an empty `onheader` step. -/
theorem fireHandler_facts (st : ESt) (hlk : st.locked = false) :
    (fireHandler true st).2 = true ∧
    (fireHandler true st).1.locked = false ∧
    ((fireHandler true st).1.missing = 0 → (fireHandler true st).1.onparse ≠ PState.pheader) ∧
    (st.onparse ≠ PState.pheader → (fireHandler true st).1.missing ≠ 0) ∧
    (fireHandler true st).1.stuck = st.stuck ∧
    (fireHandler true st).1.waiting = st.waiting ∧
    (st.errored = true → (fireHandler true st).1.errored = true) := by
  cases hop : st.onparse with
  | pheader =>
    simp only [fireHandler, hop]
    rcases hdec : decode (st.buffer.take 512) false with e | o
    · simp [parseArm, hlk]
    · cases o with
      | none => simp [parseArm, hlk]
      | some h0 =>
        simp only
        split
        · simp [parseArm, hlk]
        · split
          · simp [parseArm, hlk]
          · split
            · simp [parseArm, hlk]
            · split
              · simp [parseArm, hlk]
              · split
                · simp [parseArm, hlk]
                · simp [parseArm, hlk]
  | pgnulongpath =>
    simp only [fireHandler, hop, streamEnd]
    split <;> simp_all [parseArm]
  | pgnulonglinkpath =>
    simp only [fireHandler, hop, streamEnd]
    split <;> simp_all [parseArm]
  | ppaxglobal =>
    simp only [fireHandler, hop, streamEnd]
    split <;> simp_all [parseArm]
  | ppax =>
    simp only [fireHandler, hop, streamEnd]
    split <;> simp_all [parseArm]
  | pstreamend =>
    simp only [fireHandler, hop, streamEnd]
    split <;> simp_all [parseArm]
  | pdrain =>
    simp [fireHandler, hop, parseArm, hlk]

theorem fireHandler_errored_mono (a : Bool) (st : ESt) (h : st.errored = true) :
    (fireHandler a st).1.errored = true := by
  cases hop : st.onparse with
  | pheader =>
    simp only [fireHandler, hop]
    rcases hdec : decode (st.buffer.take 512) false with e | o
    · simp [parseArm, h]
    · cases o with
      | none => simp [parseArm, h]
      | some h0 =>
        simp only
        split
        · simp [parseArm, h]
        · split
          · simp [parseArm, h]
          · split
            · simp [parseArm, h]
            · split
              · simp [parseArm, h]
              · split
                · split <;> simp [parseArm, h]
                · split <;> simp [parseArm, h]
  | pgnulongpath =>
    simp only [fireHandler, hop, streamEnd]
    split <;> simp_all [parseArm]
  | pgnulonglinkpath =>
    simp only [fireHandler, hop, streamEnd]
    split <;> simp_all [parseArm]
  | ppaxglobal =>
    simp only [fireHandler, hop, streamEnd]
    split <;> simp_all [parseArm]
  | ppax =>
    simp only [fireHandler, hop, streamEnd]
    split <;> simp_all [parseArm]
  | pstreamend =>
    simp only [fireHandler, hop, streamEnd]
    split <;> simp_all [parseArm]
  | pdrain =>
    simp [fireHandler, hop, parseArm, h]

theorem writeChunk_errored_mono (fuel : Nat) :
    ∀ (st : ESt) (d : List Nat), st.errored = true →
      (writeChunk true fuel st d).errored = true := by
  induction fuel with
  | zero =>
    intro st d h
    exact h
  | succ f ih =>
    intro st d h
    rw [writeChunk_succ]
    simp only
    split
    · split
      · exact ((deliver_proj2 _ _).2.2.2.1).trans h
      · split
        · split
          · exact fireHandler_errored_mono true _ (((wcStep1_proj _ _).2.2.2.2.2.1).trans h)
          · exact ih _ _
              (fireHandler_errored_mono true _ (((wcStep1_proj _ _).2.2.2.2.2.1).trans h))
        · exact fireHandler_errored_mono true _ (((wcStep1_proj _ _).2.2.2.2.2.1).trans h)
    · split
      · exact ((deliver_proj2 _ _).2.2.2.1).trans h
      · split
        · split
          · exact fireHandler_errored_mono true _ (((wcStep1_proj _ _).2.2.2.2.2.1).trans h)
          · exact ih _ _
              (fireHandler_errored_mono true _ (((wcStep1_proj _ _).2.2.2.2.2.1).trans h))
        · exact fireHandler_errored_mono true _ (((wcStep1_proj _ _).2.2.2.2.2.1).trans h)

theorem writeChunk_wfp (fuel : Nat) :
    ∀ (st : ESt) (d : List Nat), wfW st →
      wfW (writeChunk true fuel st d) ∧ (writeChunk true fuel st d).waiting = st.waiting := by
  induction fuel with
  | zero =>
    intro st d h
    exact ⟨h, rfl⟩
  | succ f ih =>
    intro st d h
    rw [writeChunk_succ]
    simp only
    split
    · split
      · rename_i hlt
        dsimp only at hlt
        refine ⟨⟨(deliver_proj _ _).2.2.2.1.trans h.1, ?_⟩, (deliver_proj _ _).2.2.2.2⟩
        intro h0
        rw [(deliver_proj2 _ _).1] at h0
        dsimp only at h0
        omega
      · rename_i hlt
        obtain ⟨F2, FL, FW0, FP, FS, FWt, FE⟩ :=
          fireHandler_facts (wcStep1 { st with inStep := true } (d.take st.missing))
            ((wcStep1_proj _ _).1.trans h.1)
        rw [if_pos F2]
        split
        · exact ⟨⟨FL, FW0⟩, FWt.trans ((wcStep1_proj _ _).2.2.2.2.1)⟩
        · obtain ⟨hwf2, hwt2⟩ := ih _ (d.drop ({ st with inStep := true } : ESt).missing)
            ⟨FL, FW0⟩
          exact ⟨hwf2, hwt2.trans (FWt.trans ((wcStep1_proj _ _).2.2.2.2.1))⟩
    · split
      · rename_i hlt
        refine ⟨⟨(deliver_proj _ _).2.2.2.1.trans h.1, ?_⟩, (deliver_proj _ _).2.2.2.2⟩
        intro h0
        rw [(deliver_proj2 _ _).1] at h0
        dsimp only at h0
        omega
      · rename_i hlt
        obtain ⟨F2, FL, FW0, FP, FS, FWt, FE⟩ :=
          fireHandler_facts (wcStep1 st (d.take st.missing))
            ((wcStep1_proj _ _).1.trans h.1)
        rw [if_pos F2]
        split
        · exact ⟨⟨FL, FW0⟩, FWt.trans ((wcStep1_proj _ _).2.2.2.2.1)⟩
        · obtain ⟨hwf2, hwt2⟩ := ih _ (d.drop st.missing) ⟨FL, FW0⟩
          exact ⟨hwf2, hwt2.trans (FWt.trans ((wcStep1_proj _ _).2.2.2.2.1))⟩

theorem writeChunk_fuelext (k : Nat) :
    ∀ (st : ESt) (d : List Nat) (f1 f2 : Nat), wfW st →
      wcMeasure st d ≤ k → wcMeasure st d + 1 ≤ f1 → wcMeasure st d + 1 ≤ f2 →
      writeChunk true f1 st d = writeChunk true f2 st d ∧
      (writeChunk true f1 st d).stuck = st.stuck := by
  induction k using Nat.strong_induction_on with
  | _ k ih =>
    intro st d f1 f2 hwf hk h1 h2
    obtain ⟨a, rfl⟩ : ∃ a, f1 = a + 1 := ⟨f1 - 1, by omega⟩
    obtain ⟨b, rfl⟩ : ∃ b, f2 = b + 1 := ⟨f2 - 1, by omega⟩
    rw [writeChunk_succ, writeChunk_succ]
    simp only
    split
    · split
      · exact ⟨rfl, (deliver_proj2 _ _).2.2.1⟩
      · rename_i hd0 hlt
        dsimp only at hlt ⊢
        obtain ⟨F2, FL, FW0, FP, FS, FWt, FE⟩ :=
          fireHandler_facts (wcStep1 { st with inStep := true } (d.take st.missing))
            ((wcStep1_proj _ _).1.trans hwf.1)
        rw [if_pos F2, if_pos F2]
        have hONP : (wcStep1 { st with inStep := true } (d.take st.missing)).onparse
            = st.onparse := (wcStep1_proj _ _).2.2.1
        have hWS : (wcStep1 { st with inStep := true } (d.take st.missing)).stuck
            = st.stuck := (wcStep1_proj _ _).2.2.2.1
        set FH := (fireHandler true (wcStep1 { st with inStep := true }
          (d.take st.missing))).1 with hFH
        have hFstuck : FH.stuck = st.stuck := FS.trans hWS
        split
        · exact ⟨rfl, hFstuck⟩
        · rename_i hre
          have hwf2 : wfW FH := ⟨FL, FW0⟩
          have hlen : (d.drop st.missing).length = d.length - st.missing := by simp
          have hμ : wcMeasure FH (d.drop st.missing) < wcMeasure st d := by
            rcases Nat.eq_zero_or_pos st.missing with hm0 | hmpos
            · have hprog : FH.missing ≠ 0 := by
                refine FP ?_
                intro hcon
                apply hwf.2 hm0
                rw [hONP] at hcon
                exact hcon
              simp only [wcMeasure, hlen]
              rw [if_neg hprog, if_pos hm0]
              omega
            · have hge : st.missing ≤ d.length := by omega
              simp only [wcMeasure, hlen]
              rw [if_neg (by omega : ¬st.missing = 0)]
              split <;> omega
          obtain ⟨heq, hstk⟩ := ih (wcMeasure FH (d.drop st.missing)) (by omega)
            FH (d.drop st.missing) a b hwf2 (le_refl _) (by omega) (by omega)
          exact ⟨heq, hstk.trans hFstuck⟩
    · split
      · exact ⟨rfl, (deliver_proj2 _ _).2.2.1⟩
      · rename_i hd0 hlt
        obtain ⟨F2, FL, FW0, FP, FS, FWt, FE⟩ :=
          fireHandler_facts (wcStep1 st (d.take st.missing))
            ((wcStep1_proj _ _).1.trans hwf.1)
        rw [if_pos F2, if_pos F2]
        have hWS : (wcStep1 st (d.take st.missing)).stuck = st.stuck :=
          (wcStep1_proj _ _).2.2.2.1
        split
        · exact ⟨rfl, FS.trans hWS⟩
        · rename_i hre
          exfalso
          apply hre
          have hd2 : d = [] := by
            simp only [ne_eq, Decidable.not_not] at hd0
            exact List.eq_nil_of_length_eq_zero hd0
          subst hd2
          simp

theorem take_append_ge (l1 l2 : List Nat) (n : Nat) (h : l1.length ≤ n) :
    (l1 ++ l2).take n = l1 ++ l2.take (n - l1.length) := by
  rw [List.take_append_eq_append_take, List.take_of_length_le h]

theorem drop_append_ge (l1 l2 : List Nat) (n : Nat) (h : l1.length ≤ n) :
    (l1 ++ l2).drop n = l2.drop (n - l1.length) := by
  rw [List.drop_append_eq_append_drop, List.drop_eq_nil_of_le h]
  simp

theorem writeChunk_split (k : Nat) :
    ∀ (st : ESt) (d1 d2 : List Nat),
      2 * d1.length + (if st.missing = 0 then 1 else 0) ≤ k →
      d1 ≠ [] → d2 ≠ [] → wfW st →
      writeChunk true (chunkFuel (d1 ++ d2)) st (d1 ++ d2) =
      writeChunk true (chunkFuel d2) (writeChunk true (chunkFuel d1) st d1) d2 := by
  induction k using Nat.strong_induction_on with
  | _ k ih =>
    intro st d1 d2 hk h1 h2 hwf
    have h1len : 1 ≤ d1.length := List.length_pos.mpr h1
    have h2len : 1 ≤ d2.length := List.length_pos.mpr h2
    rw [show chunkFuel (d1 ++ d2) = (2 * (d1.length + d2.length) + 1) + 1 from by
          simp only [chunkFuel, List.length_append]]
    rw [show chunkFuel d1 = (2 * d1.length + 1) + 1 from rfl]
    generalize hga : 2 * (d1.length + d2.length) + 1 = ga
    generalize hgb : 2 * d1.length + 1 = gb
    rw [writeChunk_succ]
    conv_rhs => enter [3]; rw [writeChunk_succ]
    simp only
    rw [if_pos (show (d1 ++ d2).length ≠ 0 by simp [h1]),
        if_pos (show d1.length ≠ 0 by simp [h1])]
    dsimp only
    simp only [List.length_append]
    by_cases hB : d1.length < st.missing
    · by_cases hA : d1.length + d2.length < st.missing
      · -- both chunks are pure deliveries
        rw [if_pos hA, if_pos hB,
            show chunkFuel d2 = (2 * d2.length + 1) + 1 from rfl]
        generalize hgc : 2 * d2.length + 1 = gc
        rw [writeChunk_succ]
        simp only
        rw [if_pos (show d2.length ≠ 0 by simp [h2])]
        rw [setInStep_self _ ((deliver_proj2 _ _).2.1)]
        rw [(deliver_proj2 _ _).1]
        dsimp only
        rw [if_pos (show d2.length < st.missing - d1.length by omega)]
        cases hso : st.streamOpen <;>
          simp [deliver, hso, List.append_assoc, appendToLast_append] <;>
          omega
      · -- the boundary falls inside the second chunk
        rw [if_neg hA, if_pos hB,
            show chunkFuel d2 = (2 * d2.length + 1) + 1 from rfl]
        generalize hgc : 2 * d2.length + 1 = gc
        rw [writeChunk_succ]
        simp only
        rw [if_pos (show d2.length ≠ 0 by simp [h2])]
        rw [setInStep_self _ ((deliver_proj2 _ _).2.1)]
        rw [(deliver_proj2 _ _).1]
        dsimp only
        rw [if_neg (show ¬(d2.length < st.missing - d1.length) by omega)]
        have hsteq : wcStep1 ({ st with inStep := true } : ESt) ((d1 ++ d2).take st.missing) =
            wcStep1
              (deliver { st with inStep := true, missing := st.missing - d1.length } d1)
              (d2.take (st.missing - d1.length)) := by
          rw [take_append_ge d1 d2 st.missing (by omega)]
          unfold wcStep1 deliver
          cases hso : st.streamOpen <;>
            simp [hso, appendToLast_append, List.append_assoc]
        rw [hsteq,
            show (d1 ++ d2).drop st.missing = d2.drop (st.missing - d1.length) from
              drop_append_ge d1 d2 st.missing (by omega)]
        obtain ⟨F2, FL, FW0, FP, FS, FWt, FE⟩ :=
          fireHandler_facts
            (wcStep1 (deliver { st with inStep := true, missing := st.missing - d1.length } d1)
              (d2.take (st.missing - d1.length)))
            ((wcStep1_proj _ _).1.trans ((deliver_proj _ _).2.2.2.1.trans hwf.1))
        rw [if_pos F2, if_pos F2]
        split
        · rfl
        · rename_i hre
          set FH := (fireHandler true
            (wcStep1 (deliver { st with inStep := true, missing := st.missing - d1.length } d1)
              (d2.take (st.missing - d1.length)))).1 with hFH
          have hwf2 : wfW FH := ⟨FL, FW0⟩
          have hld : (d2.drop (st.missing - d1.length)).length
              = d2.length - (st.missing - d1.length) := by simp
          have hμ : wcMeasure FH (d2.drop (st.missing - d1.length)) ≤ 2 * d2.length - 1 := by
            simp only [wcMeasure, hld]
            split <;> omega
          exact (writeChunk_fuelext (wcMeasure FH (d2.drop (st.missing - d1.length)))
            FH _ _ _ hwf2 (le_refl _) (by omega) (by omega)).1
    · -- the first chunk reaches the step boundary on its own
      rw [if_neg (show ¬(d1.length + d2.length < st.missing) by omega), if_neg hB]
      rw [show (d1 ++ d2).take st.missing = d1.take st.missing from
            List.take_append_of_le_length (by omega),
          show (d1 ++ d2).drop st.missing = d1.drop st.missing ++ d2 from
            List.drop_append_of_le_length (by omega)]
      obtain ⟨F2, FL, FW0, FP, FS, FWt, FE⟩ :=
        fireHandler_facts (wcStep1 ({ st with inStep := true } : ESt) (d1.take st.missing))
          ((wcStep1_proj _ _).1.trans hwf.1)
      rw [if_pos F2, if_pos F2]
      rw [if_neg (show ¬((d1.drop st.missing ++ d2).isEmpty = true) by simp [h2])]
      set FH := (fireHandler true (wcStep1 ({ st with inStep := true } : ESt)
        (d1.take st.missing))).1 with hFH
      have hwf2 : wfW FH := ⟨FL, FW0⟩
      have hONP := (wcStep1_proj ({ st with inStep := true } : ESt) (d1.take st.missing)).2.2.1
      have hind : FH.missing = 0 → st.missing ≠ 0 := by
        intro hFH0 hm0
        refine FP ?_ hFH0
        intro hcon
        apply hwf.2 hm0
        rw [hONP] at hcon
        exact hcon
      by_cases hm : d1.drop st.missing = []
      · rw [hm]
        rw [if_pos (by simp)]
        simp only [List.nil_append]
        have hμ : wcMeasure FH d2 ≤ 2 * d2.length + 1 := by
          simp only [wcMeasure]
          split <;> omega
        have hμ2 : ¬(d1.drop st.missing = []) ∨ True := Or.inr trivial
        refine (writeChunk_fuelext (wcMeasure FH d2) FH d2 _ _ hwf2 (le_refl _)
          ?_ ?_).1
        · -- ga bound: d1 is fully consumed so st.missing = d1.length ≥ 1
          have hdl : (d1.drop st.missing).length = d1.length - st.missing := by simp
          rw [hm] at hdl
          simp at hdl
          omega
        · simp only [chunkFuel]
          omega
      · rw [if_neg (show ¬((d1.drop st.missing).isEmpty = true) by simpa using hm)]
        have hdl : (d1.drop st.missing).length = d1.length - st.missing := by simp
        have hkb : 2 * (d1.drop st.missing).length +
            (if FH.missing = 0 then 1 else 0) < k := by
          rw [hdl]
          by_cases hf0 : FH.missing = 0
          · have := hind hf0
            rw [if_pos hf0]
            rw [if_neg (by omega)] at hk
            omega
          · rw [if_neg hf0]
            by_cases hm0 : st.missing = 0
            · rw [if_pos hm0] at hk
              omega
            · rw [if_neg hm0] at hk
              omega
        have hIH := ih (2 * (d1.drop st.missing).length + (if FH.missing = 0 then 1 else 0))
          hkb FH (d1.drop st.missing) d2 (le_refl _) hm h2 hwf2
        have hb1 : wcMeasure FH (d1.drop st.missing ++ d2) + 1 ≤ ga := by
          simp only [wcMeasure, List.length_append, hdl]
          by_cases hf0 : FH.missing = 0
          · have := hind hf0
            rw [if_pos hf0]
            omega
          · rw [if_neg hf0]
            omega
        have hb3 : wcMeasure FH (d1.drop st.missing) + 1 ≤ gb := by
          simp only [wcMeasure, hdl]
          by_cases hf0 : FH.missing = 0
          · have := hind hf0
            rw [if_pos hf0]
            omega
          · rw [if_neg hf0]
            omega
        have hLHS := writeChunk_fuelext (wcMeasure FH (d1.drop st.missing ++ d2)) FH
          (d1.drop st.missing ++ d2) ga
          (chunkFuel (d1.drop st.missing ++ d2)) hwf2 (le_refl _) hb1
          (by simp only [chunkFuel, wcMeasure]; split <;> omega)
        have hIN := writeChunk_fuelext (wcMeasure FH (d1.drop st.missing)) FH
          (d1.drop st.missing) gb (chunkFuel (d1.drop st.missing))
          hwf2 (le_refl _) hb3 (by simp only [chunkFuel, wcMeasure]; split <;> omega)
        rw [hLHS.1, hIH, hIN.1]

theorem flatten_ne_nil_of (cs : List (List Nat)) (h0 : cs ≠ [])
    (h1 : ∀ c ∈ cs, c ≠ []) : cs.flatten ≠ [] := by
  match cs with
  | [] => exact absurd rfl h0
  | c :: cs' =>
    simp only [List.flatten_cons]
    intro hcon
    have hc : c = [] := by
      cases c with
      | nil => rfl
      | cons x xs => simp at hcon
    exact h1 c (by simp) hc

theorem foldl_runOne_flatten :
    ∀ (cs : List (List Nat)) (st : ESt),
      cs ≠ [] → (∀ c ∈ cs, c ≠ []) → wfW st → st.errored = false →
      (writeChunk true (chunkFuel cs.flatten) st cs.flatten).errored = false →
      cs.foldl runOne st = writeChunk true (chunkFuel cs.flatten) st cs.flatten := by
  intro cs
  induction cs with
  | nil => intro st h0; exact absurd rfl h0
  | cons c cs' ih =>
    intro st _ hne hwf hst herr
    have hc : c ≠ [] := hne c (by simp)
    by_cases hcs' : cs' = []
    · subst hcs'
      simp only [List.flatten_cons, List.flatten_nil, List.append_nil] at herr ⊢
      show List.foldl runOne (runOne st c) [] = _
      simp only [List.foldl_nil, runOne, hst, Bool.false_eq_true, if_false]
    · have hflne : cs'.flatten ≠ [] :=
        flatten_ne_nil_of cs' hcs' (fun x hx => hne x (by simp [hx]))
      have hsplit := writeChunk_split
        (2 * c.length + (if st.missing = 0 then 1 else 0)) st c cs'.flatten
        (le_refl _) hc hflne hwf
      rw [List.flatten_cons] at herr ⊢
      rw [hsplit] at herr
      have hW1err : (writeChunk true (chunkFuel c) st c).errored = false := by
        cases hE : (writeChunk true (chunkFuel c) st c).errored with
        | false => rfl
        | true =>
          rw [writeChunk_errored_mono (chunkFuel cs'.flatten)
            (writeChunk true (chunkFuel c) st c) cs'.flatten hE] at herr
          exact Bool.noConfusion herr
      have hwf1 : wfW (writeChunk true (chunkFuel c) st c) :=
        (writeChunk_wfp (chunkFuel c) st c hwf).1
      rw [List.foldl_cons, hsplit]
      have hr1 : runOne st c = writeChunk true (chunkFuel c) st c := by
        simp only [runOne, hst, Bool.false_eq_true, if_false]
      rw [hr1]
      exact ih (writeChunk true (chunkFuel c) st c) hcs'
        (fun x hx => hne x (by simp [hx])) hwf1 hW1err herr

/-- C2: chunk boundaries are irrelevant. Feeding an archive to a fresh
engine as any sequence of non-empty chunks leaves the engine in exactly the
same state — same decoded headers, same delivered content, same flags — as
feeding it in one single write, provided the single-write run raises no
error. -/
theorem c2_chunking_equivalence (A : List Nat) (cs : List (List Nat))
    (hA : A ≠ []) (hjoin : cs.flatten = A) (hne : ∀ c ∈ cs, c ≠ [])
    (herr : (feedAll [A]).errored = false) :
    feedAll cs = feedAll [A] := by
  have hcs : cs ≠ [] := by intro h; rw [h] at hjoin; exact hA hjoin.symm
  have hwf0 : wfW initSt := ⟨rfl, fun h => absurd h (by decide)⟩
  have hA1 : feedAll [A] = writeChunk true (chunkFuel A) initSt A := by
    show runOne initSt A = _
    simp only [runOne, show initSt.errored = false from rfl, Bool.false_eq_true,
      if_false]
  rw [hA1] at herr ⊢
  show cs.foldl runOne initSt = _
  rw [foldl_runOne_flatten cs initSt hcs hne hwf0 rfl
    (by rw [hjoin]; exact herr), hjoin]

set_option maxRecDepth 400000 in
/-- Witness for C2: the `hello.txt` header block split into a 100-byte
chunk followed by the remaining 412 bytes produces the same engine state
as writing the whole 512-byte block at once. -/
theorem c2_chunking_equivalence_witness :
    feedAll [helloBlock.take 100, helloBlock.drop 100] = feedAll [helloBlock] :=
  c2_chunking_equivalence helloBlock [helloBlock.take 100, helloBlock.drop 100]
    (by decide)
    (by simp only [List.flatten_cons, List.flatten_nil, List.append_nil]
        exact List.take_append_drop 100 helloBlock)
    (by decide)
    (by decide)

end TarSpec
